import Mathlib

/-!
# Binlog sender of the zeppelin data node

A shallow embedding of `src/node/zp_binlog_sender.cc`: the send task
(`ZPBinlogSendTask`), the task pool (`ZPBinlogSendTaskPool`) and the inner loop
of the sender thread (`ZPBinlogSendThread::ThreadMain`).

Conventions of the embedding.

* `uint32_t` and `uint64_t` values are natural numbers; every addition the
  source performs on them is followed by an explicit `% 2^32` or `% 2^64`.
* A `std::list` is a list of nodes, each node being a pair of its address and
  the element it holds.  A list iterator is `some address`, and `tasks_.end()`
  is `none`.
* The `std::unordered_map` index is an association list; `find` returns the
  first entry stored under a key.
* Everything the file calls but does not define (the partition registry, the
  file system, the binlog reader, the peer connection, the clock) is a field of
  an environment record that the functions take as an argument.
-/

namespace ZP

/-! ## Status codes -/

/-- Kinds of `slash::Status` that the sender constructs or tests. -/
inductive Status where
  | OK
  | NotFound
  | Corruption
  | InvalidArgument
  | IOError
  | EndFile
  | Incomplete
  | Complete
  deriving DecidableEq, Repr

/-- Test `Status::ok()`. -/
def Status.ok : Status → Bool
  | .OK => true
  | _ => false

/-- Test `Status::IsEndFile()`. -/
def Status.IsEndFile : Status → Bool
  | .EndFile => true
  | _ => false

/-- Test `Status::IsIncomplete()`. -/
def Status.IsIncomplete : Status → Bool
  | .Incomplete => true
  | _ => false

/-- The closed enumeration of error kinds that the specification names. -/
inductive ErrorKind where
  | ok
  | invalid_argument
  | not_found
  | already_exists
  | io_error
  | end_file
  | incomplete
  | corruption
  deriving DecidableEq, Repr

/-- The error kind of the specification that bears the name of a status code of
the source, when there is one. -/
def Status.kind : Status → Option ErrorKind
  | .OK => some .ok
  | .NotFound => some .not_found
  | .Corruption => some .corruption
  | .InvalidArgument => some .invalid_argument
  | .IOError => some .io_error
  | .EndFile => some .end_file
  | .Incomplete => some .incomplete
  | .Complete => none

/-! ## Data model -/

/-- Content of a `std::string` used as a byte buffer. -/
abbrev Bytes := List Nat

/-- Peer address, the `Node` of the source. -/
structure Node where
  ip : String
  port : Int
  deriving DecidableEq, Repr

/-- Position in a partition's binlog, the `BinlogOffset` of the source. -/
structure BinlogOffset where
  filenum : Nat
  offset : Nat
  deriving DecidableEq, Repr

/-- The order on binlog positions: file number first, then offset. -/
def BinlogOffset.le (a b : BinlogOffset) : Prop :=
  a.filenum < b.filenum ∨ (a.filenum = b.filenum ∧ a.offset ≤ b.offset)

instance (a b : BinlogOffset) : Decidable (BinlogOffset.le a b) := by
  unfold BinlogOffset.le
  exact inferInstance

/-- The members of `ZPBinlogSendTask`, in the order of the constructor's
initialiser list.  `R` is the state of a `BinlogReader`, `F` an open sequential
file; `none` stands for a null pointer. -/
structure ZPBinlogSendTask (R F : Type) where
  send_next : Bool
  sequence_ : Nat
  table_name_ : String
  partition_id_ : Int
  node_ : Node
  filenum_ : Nat
  offset_ : Nat
  process_error_time_ : Nat
  pre_filenum_ : Nat
  pre_offset_ : Nat
  pre_has_content_ : Bool
  binlog_filename_ : String
  queue_ : Option F
  reader_ : Option R
  name_ : String
  pre_content_ : Bytes
  deriving DecidableEq, Repr

/-- The C string held by a `std::string`: the characters before the first NUL. -/
def c_str (s : String) : String :=
  String.mk (s.data.takeWhile (fun c => c != Char.ofNat 0))

/-- The function `ZPBinlogSendTaskName`: `snprintf` of `"%s_%d_%s_%d"` into a buffer
of 256 bytes, hence at most 255 characters (characters are taken to be single
bytes). -/
def ZPBinlogSendTaskName (table : String) (id : Int) (target : Node) : String :=
  String.mk ((c_str table ++ "_" ++ toString id ++ "_" ++ c_str target.ip ++ "_"
    ++ toString target.port).data.take 255)

/-! ## The collaborators of the sender

None of them is defined in the file: the partition registry of the data server,
the file system calls of `slash`, and the `BinlogReader`. -/

/-- What the sender reads of a `Partition`: `opened()` and the position that
`GetBinlogOffsetWithLock` stores. -/
structure Partition where
  opened : Bool
  boffset : BinlogOffset
  deriving DecidableEq, Repr

/-- What a call of `BinlogReader::Consume` yields: the status, the value left in
`consume_len`, the bytes added to the scratch string, and the reader after the
call. -/
structure ConsumeResult (R : Type) where
  status : Status
  consume_len : Nat
  payload : Bytes
  reader : R

/-- The collaborators, as they answer at one moment. -/
structure Env (R F : Type) where
  /-- The call `zp_data_server->GetTablePartitionById`; `none` is the null pointer. -/
  GetTablePartitionById : String → Int → Option Partition
  /-- The name of the binlog file with a given number under a given path. -/
  NewFileName : String → Nat → String
  /-- The call `slash::FileExists`. -/
  FileExists : String → Bool
  /-- The call `slash::NewSequentialFile`: the status and the pointer it stores. -/
  NewSequentialFile : String → Status × Option F
  /-- The constructor `BinlogReader(queue_)`. -/
  BinlogReader : Option F → R
  /-- The call `reader_->Seek(offset)`. -/
  Seek : R → Nat → Status × R
  /-- The call `reader_->Consume(&consume_len, &pre_content_)`. -/
  Consume : R → ConsumeResult R
  /-- The call `reader_->SkipNextBlock(&consume_len)`, given the value of
  `consume_len` before the call: the value after it, and the reader after it. -/
  SkipNextBlock : R → Nat → Nat × R
  /-- The call `zp_data_server->meta_epoch()`. -/
  meta_epoch : Nat
  /-- The call `zp_data_server->local_ip()`. -/
  local_ip : String
  /-- The call `zp_data_server->local_port()`. -/
  local_port : Int
  /-- The call `zp_data_server->binlog_sender_count()`. -/
  binlog_sender_count : Nat

variable {R F : Type}

/-! ## The send task -/

/-- The constructor of `ZPBinlogSendTask`. -/
def ZPBinlogSendTask.new (seq : Nat) (table : String) (id : Int)
    (binlog_filename : String) (target : Node) (ifilenum ioffset : Nat) :
    ZPBinlogSendTask R F :=
  { send_next := true
    sequence_ := seq
    table_name_ := table
    partition_id_ := id
    node_ := target
    filenum_ := ifilenum
    offset_ := ioffset
    process_error_time_ := 0
    pre_filenum_ := 0
    pre_offset_ := 0
    pre_has_content_ := false
    binlog_filename_ := binlog_filename
    queue_ := none
    reader_ := none
    name_ := ZPBinlogSendTaskName table id target
    pre_content_ := [] }

/-- The method `ZPBinlogSendTask::Init`. -/
def Init (env : Env R F) (t : ZPBinlogSendTask R F) : Status × ZPBinlogSendTask R F :=
  let confile := env.NewFileName t.binlog_filename_ t.filenum_
  let opened := env.NewSequentialFile confile
  if !opened.1.ok then (Status.IOError, { t with queue_ := opened.2 })
  else
    let sought := env.Seek (env.BinlogReader opened.2) t.offset_
    let t1 := { t with queue_ := opened.2, reader_ := some sought.2 }
    if !sought.1.ok then (sought.1, t1) else (Status.OK, t1)

/-- The static method `ZPBinlogSendTask::Create`; the second component is the
pointer left in `*tptr`. -/
def Create (env : Env R F) (seq : Nat) (table : String) (id : Int)
    (binlog_filename : String) (target : Node) (ifilenum ioffset : Nat) :
    Status × Option (ZPBinlogSendTask R F) :=
  let r := Init env (ZPBinlogSendTask.new seq table id binlog_filename target ifilenum ioffset)
  if r.1.ok then (r.1, some r.2) else (r.1, none)

/-- Modelled from the spec: `RecordPreOffset` is defined in the header, which is
absent; it snapshots `pre` from the cursor and clears `pre.content`. -/
def RecordPreOffset (t : ZPBinlogSendTask R F) : ZPBinlogSendTask R F :=
  { t with pre_filenum_ := t.filenum_, pre_offset_ := t.offset_, pre_content_ := [] }

/-- How one run of the body of `ProcessTask` ends: with a `return` of a status, or
with the call `return ProcessTask()`. -/
inductive Outcome (R F : Type) where
  | ret (s : Status) (t : ZPBinlogSendTask R F)
  | recurse (t : ZPBinlogSendTask R F)

/-- The status of `Consume`, the value of `consume_len` and the reader when the
assignment to `pre_has_content_` is reached: after a status that is neither
`EndFile`, `Incomplete` nor `OK` the reader has skipped to the next block. -/
def consumeOrSkip (env : Env R F) (rd : R) : ConsumeResult R :=
  let c := env.Consume rd
  if c.status.IsEndFile then c
  else if c.status.IsIncomplete then c
  else if !c.status.ok then
    let k := env.SkipNextBlock c.reader c.consume_len
    { c with consume_len := k.1, reader := k.2 }
  else c

/-- The body of `ZPBinlogSendTask::ProcessTask`, up to a `return`.  The payload
that `Consume` found is appended to `pre_content_` (modelled from the spec: the
reader is absent). -/
def ProcessTaskBody (env : Env R F) (t : ZPBinlogSendTask R F) : Outcome R F :=
  match t.reader_, t.queue_ with
  | some rd, some _ =>
    match env.GetTablePartitionById t.table_name_ t.partition_id_ with
    | none => Outcome.ret Status.InvalidArgument t
    | some partition =>
      if !partition.opened then Outcome.ret Status.InvalidArgument t
      else if t.filenum_ = partition.boffset.filenum ∧ t.offset_ = partition.boffset.offset then
        Outcome.ret Status.EndFile t
      else
        let t1 := RecordPreOffset t
        let c := consumeOrSkip env rd
        let t2 := { t1 with pre_content_ := t1.pre_content_ ++ c.payload,
                            reader_ := some c.reader }
        if c.status.IsEndFile then
          let confile := env.NewFileName t2.binlog_filename_ ((t2.filenum_ + 1) % 2 ^ 32)
          if env.FileExists confile then
            let opened := env.NewSequentialFile confile
            if !opened.1.ok then
              Outcome.ret opened.1 { t2 with reader_ := none, queue_ := opened.2 }
            else
              Outcome.recurse
                { t2 with
                  queue_ := opened.2
                  reader_ := some (env.BinlogReader opened.2)
                  filenum_ := (t2.filenum_ + 1) % 2 ^ 32
                  offset_ := 0 }
          else Outcome.ret c.status t2
        else
          Outcome.ret Status.OK
            { t2 with
              pre_has_content_ := c.status.ok
              offset_ := (t2.offset_ + c.consume_len) % 2 ^ 64 }
  | _, _ => Outcome.ret Status.InvalidArgument t

/-- The method `ZPBinlogSendTask::ProcessTask`.  The first argument bounds the depth
of the recursion; `none` means that the bound was too small for the call to
return. -/
def ProcessTask (env : Env R F) : Nat → ZPBinlogSendTask R F →
    Option (Status × ZPBinlogSendTask R F)
  | 0, _ => none
  | fuel + 1, t =>
    match ProcessTaskBody env t with
    | Outcome.ret s t1 => some (s, t1)
    | Outcome.recurse t1 => ProcessTask env fuel t1

/-! ## The outbound messages -/

/-- The `client::SyncType` of a message. -/
inductive SyncType where
  | CMD
  | SKIP
  | LEASE
  deriving DecidableEq, Repr

/-- The `client::BinlogSkip` part of a message. -/
structure BinlogSkip where
  table_name : String
  partition_id : Int
  gap : Nat
  deriving DecidableEq, Repr

/-- The fields of `client::SyncRequest` that `BuildCommonSyncRequest` sets.  The
field `request` holds the bytes that `ParseFromString` is given. -/
structure SyncRequest where
  epoch : Nat
  from_ip : String
  from_port : Int
  sync_offset : BinlogOffset
  sync_type : SyncType
  request : Option Bytes
  binlog_skip : Option BinlogSkip
  deriving DecidableEq, Repr

/-- The method `ZPBinlogSendTask::BuildCommonSyncRequest`.  The gap is a difference
of `uint64_t` values.  The `assert` that `pre_content_` is not empty has no part
in the message built. -/
def BuildCommonSyncRequest (env : Env R F) (t : ZPBinlogSendTask R F) : SyncRequest :=
  if t.pre_has_content_ then
    { epoch := env.meta_epoch, from_ip := env.local_ip, from_port := env.local_port
      sync_offset := { filenum := t.pre_filenum_, offset := t.pre_offset_ }
      sync_type := SyncType.CMD
      request := some t.pre_content_
      binlog_skip := none }
  else
    { epoch := env.meta_epoch, from_ip := env.local_ip, from_port := env.local_port
      sync_offset := { filenum := t.pre_filenum_, offset := t.pre_offset_ }
      sync_type := SyncType.SKIP
      request := none
      binlog_skip := some
        { table_name := t.table_name_, partition_id := t.partition_id_
          gap := (t.offset_ + 2 ^ 64 - t.pre_offset_) % 2 ^ 64 } }

/-! ## The sender thread -/

/-- What one pass through the body of the inner `while` loop of `ThreadMain` meets:
the collaborators as `ProcessTask` finds them, the clock, whether the message
built has its required fields, the answer of `SendToPeer`, and whether the time
slice is spent at the end of the pass. -/
structure Tick (R F : Type) where
  env : Env R F
  NowMicros : Nat
  IsInitialized : Bool
  SendToPeer : Status
  slice_spent : Bool

/-- What one pass leaves: the task, the message that `BuildCommonSyncRequest`
built if the pass came to it, whether `RenewPeerLease` was called, and whether
the pass ended with `PutBack` and `break`. -/
structure PassResult (R F : Type) where
  task : ZPBinlogSendTask R F
  built : Option SyncRequest
  lease : Bool
  put_back : Bool

/-- The second half of a pass: build the message, send it, set `send_next`, and
check the time slice. -/
def SendPass (k : Tick R F) (task : ZPBinlogSendTask R F) : PassResult R F :=
  let sreq := BuildCommonSyncRequest k.env task
  let task1 :=
    if !k.IsInitialized then { task with send_next := false }
    else if !k.SendToPeer.ok then { task with send_next := false }
    else { task with send_next := true }
  { task := task1, built := some sreq, lease := k.slice_spent, put_back := k.slice_spent }

/-- One pass through the body of the inner `while` loop of `ThreadMain`, for the
task that was fetched out; `none` when `ProcessTask` does not return within the
bound.  Modelled from the spec: `renew_process_error_time` is defined in the
header, which is absent; it stamps the task with the clock. -/
def LoopPass (fuel : Nat) (k : Tick R F) (task : ZPBinlogSendTask R F) :
    Option (PassResult R F) :=
  if task.send_next then
    match ProcessTask k.env fuel task with
    | none => none
    | some (item_s, task1) =>
      if !item_s.ok then
        some { task := { task1 with process_error_time_ := k.NowMicros }
               built := none
               lease := item_s.IsEndFile
               put_back := true }
      else some (SendPass k task1)
  else some (SendPass k task)

/-- The messages built for one task over successive passes of the loop.  A pass
that ends with `PutBack` is followed by the first pass of a later slice, for
which the pool has handed the task out again as it was put back; a run that is
cut short (the thread stops, or `PutBack` deletes the task) is a shorter list
of passes. -/
def builtMessages (fuel : Nat) : List (Tick R F) → ZPBinlogSendTask R F → List SyncRequest
  | [], _ => []
  | k :: ks, task =>
    match LoopPass fuel k task with
    | none => []
    | some r => r.built.toList ++ builtMessages fuel ks r.task

/-- The cursor of a task. -/
def cursor (t : ZPBinlogSendTask R F) : BinlogOffset :=
  { filenum := t.filenum_, offset := t.offset_ }

/-- The position of the `pre` snapshot of a task. -/
def pre (t : ZPBinlogSendTask R F) : BinlogOffset :=
  { filenum := t.pre_filenum_, offset := t.pre_offset_ }

/-- The counters stay within their types in one run of the body of `ProcessTask`:
the file number is not the last `uint32_t`, and the offset plus the count of
bytes that the reader reports is below `2^64`. -/
def BodyInRange (env : Env R F) (t : ZPBinlogSendTask R F) : Prop :=
  t.filenum_ + 1 < 2 ^ 32 ∧
  ∀ rd, t.reader_ = some rd → t.offset_ + (consumeOrSkip env rd).consume_len < 2 ^ 64

/-- The counters stay within their types in a call of `ProcessTask`, at every depth
of the recursion. -/
def ProcessTaskInRange (env : Env R F) : Nat → ZPBinlogSendTask R F → Prop
  | 0, _ => True
  | fuel + 1, t =>
    BodyInRange env t ∧
    match ProcessTaskBody env t with
    | Outcome.ret _ _ => True
    | Outcome.recurse t1 => ProcessTaskInRange env fuel t1

/-- The counters stay within their types in every call of `ProcessTask` that a run
of passes makes. -/
def RunInRange (fuel : Nat) : List (Tick R F) → ZPBinlogSendTask R F → Prop
  | [], _ => True
  | k :: ks, task =>
    (task.send_next = true → ProcessTaskInRange k.env fuel task) ∧
    match LoopPass fuel k task with
    | none => True
    | some r => RunInRange fuel ks r.task

/-- What the run of passes has to keep for the next message not to fall behind
the last one `last`: a task that is to advance has its cursor at or after
`last`, a task that is to send again has its snapshot at or after `last` and at
or before its cursor. -/
def Ahead (t : ZPBinlogSendTask R F) (last : Option BinlogOffset) : Prop :=
  (∀ a, last = some a →
    if t.send_next then BinlogOffset.le a (cursor t) else BinlogOffset.le a (pre t)) ∧
  (t.send_next = false → BinlogOffset.le (pre t) (cursor t))

/-! ## The task pool -/

/-- An entry of the index `task_ptrs_`.  The fields are those the source reads
and writes; `iter = none` is `tasks_.end()`, the mark of a task that has been
fetched out. -/
structure ZPBinlogSendTaskHandle where
  iter : Option Nat
  sequence : Nat
  filenum_snap : Nat
  deriving DecidableEq, Repr

/-- Modelled from the spec: the handle type is declared in the header, which is
absent; a handle that `operator[]` creates is value-initialised, its iterator
pointing at no task. -/
def ZPBinlogSendTaskHandle.fresh : ZPBinlogSendTaskHandle :=
  { iter := none, sequence := 0, filenum_snap := 0 }

/-- The index type, `ZPBinlogSendTaskIndex` in the source. -/
abbrev ZPBinlogSendTaskIndex := List (String × ZPBinlogSendTaskHandle)

/-- The call `task_ptrs_.find(name)`; `none` is `task_ptrs_.end()`. -/
def idxFind : ZPBinlogSendTaskIndex → String → Option ZPBinlogSendTaskHandle
  | [], _ => none
  | (k, h) :: m, name => if k = name then some h else idxFind m name

/-- The call `task_ptrs_.erase(it)` for the entry found under `name`: the map
holds one entry a key, and none is left under `name`. -/
def idxErase : ZPBinlogSendTaskIndex → String → ZPBinlogSendTaskIndex
  | [], _ => []
  | (k, h) :: m, name => if k = name then idxErase m name else (k, h) :: idxErase m name

/-- Assignment through an iterator `it->second = f(it->second)` for the entry
found under `name`. -/
def idxModify : ZPBinlogSendTaskIndex → String →
    (ZPBinlogSendTaskHandle → ZPBinlogSendTaskHandle) → ZPBinlogSendTaskIndex
  | [], _, _ => []
  | (k, h) :: m, name, f =>
    if k = name then (k, f h) :: m else (k, h) :: idxModify m name f

/-- Assignment through `task_ptrs_[name]`: the entry is created first when the
key is absent. -/
def idxSubscript (m : ZPBinlogSendTaskIndex) (name : String)
    (f : ZPBinlogSendTaskHandle → ZPBinlogSendTaskHandle) : ZPBinlogSendTaskIndex :=
  match idxFind m name with
  | some _ => idxModify m name f
  | none => m ++ [(name, f ZPBinlogSendTaskHandle.fresh)]

/-- The members of `ZPBinlogSendTaskPool`.  A node of `tasks_` is the pair of
its address and the task it holds. -/
structure ZPBinlogSendTaskPool (R F : Type) where
  next_sequence_ : Nat
  tasks_ : List (Nat × ZPBinlogSendTask R F)
  task_ptrs_ : ZPBinlogSendTaskIndex

/-- The address of the node that `push_back` allocates: one that no node of the
list has. -/
def newNode {α : Type} (l : List (Nat × α)) : Nat :=
  (l.map Prod.fst).foldr (fun a b => max (a + 1) b) 0

/-- The call `tasks_.erase(it)`: unlink the node at address `it`. -/
def listErase {α : Type} : List (Nat × α) → Nat → List (Nat × α)
  | [], _ => []
  | (a, x) :: l, it => if a = it then l else (a, x) :: listErase l it

/-- The dereference `*it` of a list iterator. -/
def listAt {α : Type} : List (Nat × α) → Nat → Option α
  | [], _ => none
  | (a, x) :: l, it => if a = it then some x else listAt l it

/-- The constructor of the pool. -/
def ZPBinlogSendTaskPool.init (R F : Type) : ZPBinlogSendTaskPool R F :=
  { next_sequence_ := 0, tasks_ := [], task_ptrs_ := [] }

/-- The method `ZPBinlogSendTaskPool::TaskExist`. -/
def TaskExist (p : ZPBinlogSendTaskPool R F) (task_name : String) : Bool :=
  match idxFind p.task_ptrs_ task_name with
  | none => false
  | some _ => true

/-- Modelled from the spec: `Size` is defined in the header, which is absent; it
is the number of tasks tracked, fetched-out ones included. -/
def Size (p : ZPBinlogSendTaskPool R F) : Nat :=
  p.task_ptrs_.length

/-- The method `ZPBinlogSendTaskPool::AddTask`. -/
def AddTask (p : ZPBinlogSendTaskPool R F) (task : ZPBinlogSendTask R F) :
    Status × ZPBinlogSendTaskPool R F :=
  match idxFind p.task_ptrs_ task.name_ with
  | some _ => (Status.Complete, p)
  | none =>
    let it := newNode p.tasks_
    (Status.OK,
     { p with
       tasks_ := p.tasks_ ++ [(it, task)]
       task_ptrs_ := idxSubscript p.task_ptrs_ task.name_ (fun _ =>
         { iter := some it, sequence := task.sequence_, filenum_snap := task.filenum_ }) })

/-- The method `ZPBinlogSendTaskPool::RemoveTask`. -/
def RemoveTask (p : ZPBinlogSendTaskPool R F) (name : String) :
    Status × ZPBinlogSendTaskPool R F :=
  match idxFind p.task_ptrs_ name with
  | none => (Status.NotFound, p)
  | some h =>
    let tasks := match h.iter with
      | some it => listErase p.tasks_ it
      | none => p.tasks_
    (Status.OK, { p with tasks_ := tasks, task_ptrs_ := idxErase p.task_ptrs_ name })

/-- The method `ZPBinlogSendTaskPool::FetchOut`; the second component is the task
handed to the caller. -/
def FetchOut (p : ZPBinlogSendTaskPool R F) :
    Status × Option (ZPBinlogSendTask R F) × ZPBinlogSendTaskPool R F :=
  match p.tasks_ with
  | [] => (Status.NotFound, none, p)
  | (_, task) :: rest =>
    (Status.OK, some task,
     { p with
       tasks_ := rest
       task_ptrs_ := idxSubscript p.task_ptrs_ task.name_ (fun h => { h with iter := none }) })

/-- The method `ZPBinlogSendTaskPool::PutBack`, the pool holding its tasks by value.
When the status is `NotFound` the source deletes the object passed; that is not
visible here and is harmless as long as the pointer passed is not one the queue
holds.  `Mem.PutBack` is the method on pointers, with the deletion. -/
def PutBack (p : ZPBinlogSendTaskPool R F) (task : ZPBinlogSendTask R F) :
    Status × ZPBinlogSendTaskPool R F :=
  match idxFind p.task_ptrs_ task.name_ with
  | none => (Status.NotFound, p)
  | some h =>
    if h.iter ≠ none ∨ h.sequence ≠ task.sequence_ then (Status.NotFound, p)
    else
      let it := newNode p.tasks_
      (Status.OK,
       { p with
         tasks_ := p.tasks_ ++ [(it, task)]
         task_ptrs_ := idxModify p.task_ptrs_ task.name_ (fun h =>
           { h with iter := some it, filenum_snap := task.filenum_ }) })

/-- The method `ZPBinlogSendTaskPool::AddNewTask`.  The sequence counter is a
`uint64_t`. -/
def AddNewTask (env : Env R F) (p : ZPBinlogSendTaskPool R F) (table_name : String)
    (id : Int) (binlog_filename : String) (target : Node) (ifilenum ioffset : Nat)
    (force : Bool) : Status × ZPBinlogSendTaskPool R F :=
  let created := Create env p.next_sequence_ table_name id binlog_filename target
    ifilenum ioffset
  let p1 := { p with next_sequence_ := (p.next_sequence_ + 1) % 2 ^ 64 }
  match created with
  | (s, none) => (s, p1)
  | (s, some task_ptr) =>
    if !s.ok then (s, p1)
    else
      let p2 := if force && TaskExist p1 task_ptr.name_
        then (RemoveTask p1 task_ptr.name_).2 else p1
      AddTask p2 task_ptr

/-! ## Runs of pool operations -/

/-- A call of one of the operations of the pool. -/
inductive PoolOp (R F : Type) where
  | AddTask (task : ZPBinlogSendTask R F)
  | AddNewTask (env : Env R F) (table_name : String) (id : Int)
      (binlog_filename : String) (target : Node) (ifilenum ioffset : Nat) (force : Bool)
  | RemoveTask (name : String)
  | FetchOut
  | PutBack (task : ZPBinlogSendTask R F)

/-- The pool after a call. -/
def applyOp (p : ZPBinlogSendTaskPool R F) : PoolOp R F → ZPBinlogSendTaskPool R F
  | PoolOp.AddTask task => (AddTask p task).2
  | PoolOp.AddNewTask env table_name id binlog_filename target ifilenum ioffset force =>
    (AddNewTask env p table_name id binlog_filename target ifilenum ioffset force).2
  | PoolOp.RemoveTask name => (RemoveTask p name).2
  | PoolOp.FetchOut => (FetchOut p).2.2
  | PoolOp.PutBack task => (PutBack p task).2

/-- The pool after a run of calls, the first call of the list first. -/
def runOps (p : ZPBinlogSendTaskPool R F) (ops : List (PoolOp R F)) :
    ZPBinlogSendTaskPool R F :=
  ops.foldl applyOp p

/-- Well-formedness of a pool: list nodes have distinct addresses, the index has
one entry a key, every entry's iterator is `tasks_.end()` or points to a node of
the queue holding a task of that name, and every node of the queue is pointed to
by the entry under the name of its task. -/
structure WellFormed (p : ZPBinlogSendTaskPool R F) : Prop where
  nodes : (p.tasks_.map Prod.fst).Nodup
  keys : (p.task_ptrs_.map Prod.fst).Nodup
  index_to_queue : ∀ n h, idxFind p.task_ptrs_ n = some h →
    h.iter = none ∨ ∃ it t, h.iter = some it ∧ (it, t) ∈ p.tasks_ ∧ t.name_ = n
  queue_to_index : ∀ it t, (it, t) ∈ p.tasks_ →
    ∃ h, idxFind p.task_ptrs_ t.name_ = some h ∧ h.iter = some it

/-- Whether a call hands the pool a task whose sequence number the caller chose:
`AddTask` called from outside `AddNewTask`. -/
def rawAdd : PoolOp R F → Bool
  | PoolOp.AddTask _ => true
  | _ => false

/-- The call `op`, made on the pool `p`, takes the name `n` away from the task
that holds it: it is `RemoveTask(n)`, or an `AddNewTask` that answers `OK` and
whose new task bears the name `n`. -/
def displaces (p : ZPBinlogSendTaskPool R F) (op : PoolOp R F) (n : String) : Prop :=
  match op with
  | PoolOp.RemoveTask name => name = n
  | PoolOp.AddNewTask env table_name id binlog_filename target ifilenum ioffset force =>
    ZPBinlogSendTaskName table_name id target = n ∧
    (AddNewTask env p table_name id binlog_filename target ifilenum ioffset force).1
      = Status.OK
  | _ => False

/-- The record of the sequence number of the task most recently created and added
under each name, after the call `op` made on the pool `p`. -/
def noteAdded (p : ZPBinlogSendTaskPool R F) (op : PoolOp R F)
    (g : String → Option Nat) : String → Option Nat :=
  match op with
  | PoolOp.AddNewTask env table_name id binlog_filename target ifilenum ioffset force =>
    if (AddNewTask env p table_name id binlog_filename target ifilenum ioffset force).1
        = Status.OK then
      fun n => if n = ZPBinlogSendTaskName table_name id target
        then some p.next_sequence_ else g n
    else g
  | _ => g

/-- The record of the sequence number of the task most recently created and added
under each name, after a run of calls that starts on the pool `p` with the record
`g`. -/
def lastAdded : ZPBinlogSendTaskPool R F → List (PoolOp R F) → (String → Option Nat) →
    String → Option Nat
  | _, [], g => g
  | p, op :: ops, g => lastAdded (applyOp p op) ops (noteAdded p op g)

/-- Every sequence number of the index is below `N`. -/
def SeqBelow (m : ZPBinlogSendTaskIndex) (N : Nat) : Prop :=
  ∀ n h, idxFind m n = some h → h.sequence < N

/-- Every queued task bears the sequence number that the index holds under its
name. -/
def SeqMatch (p : ZPBinlogSendTaskPool R F) : Prop :=
  ∀ it t, (it, t) ∈ p.tasks_ → ∀ h, idxFind p.task_ptrs_ t.name_ = some h →
    h.sequence = t.sequence_

/-- A handle with sequence number `s` is stale for the name `n`: the index has no
entry under `n`, or one with a later sequence number. -/
def Stale (m : ZPBinlogSendTaskIndex) (n : String) (s : Nat) : Prop :=
  ∀ h, idxFind m n = some h → s < h.sequence

/-- The sequence numbers of the index `m1` are among those of `m`, name by name. -/
def SeqSub (m1 m : ZPBinlogSendTaskIndex) : Prop :=
  ∀ n h1, idxFind m1 n = some h1 → ∃ h, idxFind m n = some h ∧ h.sequence = h1.sequence

/-- The state of a pool in which `AddNewTask` allocates the sequence numbers, after
at most `k` calls: it is well formed, the sequence numbers of the index are below
the counter, queued tasks bear the sequence number of their entry, and the
counter is at most `k`. -/
structure SeqInv (p : ZPBinlogSendTaskPool R F) (k : Nat) : Prop where
  wf : WellFormed p
  below : SeqBelow p.task_ptrs_ p.next_sequence_
  queued : SeqMatch p
  count : p.next_sequence_ ≤ k

/-- The task after a run of passes of the loop; `none` when a call of `ProcessTask`
does not return within the bound. -/
def taskAfter (fuel : Nat) : List (Tick R F) → ZPBinlogSendTask R F →
    Option (ZPBinlogSendTask R F)
  | [], task => some task
  | k :: ks, task =>
    match LoopPass fuel k task with
    | none => none
    | some r => taskAfter fuel ks r.task

/-- The message of a pass does not get through: it lacks a required field, or
`SendToPeer` fails. -/
def sendFails (k : Tick R F) : Prop :=
  k.IsInitialized = false ∨ k.SendToPeer.ok = false

/-- The constant `kBlockSize` of `zp_const.h`: the size of a block of a binlog file. -/
def kBlockSize : Nat := 64 * 1024

/-- The end of the binlog of the partition of task `t`, as the registry reports it. -/
def endOf (env : Env R F) (t : ZPBinlogSendTask R F) : Option BinlogOffset :=
  (env.GetTablePartitionById t.table_name_ t.partition_id_).map (fun part => part.boffset)

/-- The reader and the file system agree with the end `e` of the binlog in one run of
the body of `ProcessTask`: a successor file exists only below the end's file, and in
the end's file, before the end, the bytes that the reader reports do not reach
beyond the end. -/
def BodyWithinEnd (env : Env R F) (e : BinlogOffset) (t : ZPBinlogSendTask R F) : Prop :=
  (env.FileExists (env.NewFileName t.binlog_filename_ ((t.filenum_ + 1) % 2 ^ 32)) = true →
    t.filenum_ + 1 ≤ e.filenum) ∧
  (∀ rd, t.reader_ = some rd → t.filenum_ = e.filenum → t.offset_ ≠ e.offset →
    t.offset_ + (consumeOrSkip env rd).consume_len ≤ e.offset)

/-- The reader and the file system agree with the end `e` of the binlog in a call of
`ProcessTask`, at every depth of the recursion. -/
def ProcessTaskWithinEnd (env : Env R F) (e : BinlogOffset) :
    Nat → ZPBinlogSendTask R F → Prop
  | 0, _ => True
  | fuel + 1, t =>
    BodyWithinEnd env e t ∧
    match ProcessTaskBody env t with
    | Outcome.ret _ _ => True
    | Outcome.recurse t1 => ProcessTaskWithinEnd env e fuel t1

/-- The task after each call of a run of `ProcessTask` calls, every call in its own
environment, paired with that environment; the run ends at a call that does not
return within the bound. -/
def tasksAfter (fuel : Nat) : List (Env R F) → ZPBinlogSendTask R F →
    List (Env R F × ZPBinlogSendTask R F)
  | [], _ => []
  | env :: envs, t =>
    match ProcessTask env fuel t with
    | none => []
    | some (_, t1) => (env, t1) :: tasksAfter fuel envs t1

/-- Over a run of `ProcessTask` calls the partition is known and its end fits the
types of the cursor, the reader and the file system agree with the end in every
call, and the end does not move backwards from one call to the next. -/
def AgreesWithEnd (fuel : Nat) : List (Env R F) → ZPBinlogSendTask R F → Prop
  | [], _ => True
  | env :: envs, t =>
    (∃ e, endOf env t = some e ∧ e.filenum < 2 ^ 32 ∧ e.offset < 2 ^ 64 ∧
      ProcessTaskWithinEnd env e fuel t ∧
      ∀ env2 e2, envs.head? = some env2 → endOf env2 t = some e2 → BinlogOffset.le e e2) ∧
    match ProcessTask env fuel t with
    | none => True
    | some (_, t1) => AgreesWithEnd fuel envs t1

/-- The queue after `RemoveTask` has dealt with an entry whose iterator is `iter`:
the node it points to is unlinked, and nothing is when it is `tasks_.end()`. -/
def unlink {α : Type} (l : List (Nat × α)) (iter : Option Nat) : List (Nat × α) :=
  match iter with
  | some it => listErase l it
  | none => l

/-- The tasks that `k` successive calls of `FetchOut` hand out, and the pool they
leave. -/
def fetchMany : Nat → ZPBinlogSendTaskPool R F →
    List (ZPBinlogSendTask R F) × ZPBinlogSendTaskPool R F
  | 0, p => ([], p)
  | k + 1, p =>
    match (FetchOut p).2.1 with
    | some t => (t :: (fetchMany k (FetchOut p).2.2).1, (fetchMany k (FetchOut p).2.2).2)
    | none => fetchMany k (FetchOut p).2.2

/-- The pair of calls `FetchOut`, then `PutBack` of the task just fetched, made `k`
times over: the tasks handed out, the answers of `PutBack`, and the pool left. -/
def rotateMany : Nat → ZPBinlogSendTaskPool R F →
    List (ZPBinlogSendTask R F) × List Status × ZPBinlogSendTaskPool R F
  | 0, p => ([], [], p)
  | k + 1, p =>
    match (FetchOut p).2.1 with
    | some t =>
      (t :: (rotateMany k (PutBack (FetchOut p).2.2 t).2).1,
       (PutBack (FetchOut p).2.2 t).1 :: (rotateMany k (PutBack (FetchOut p).2.2 t).2).2.1,
       (rotateMany k (PutBack (FetchOut p).2.2 t).2).2.2)
    | none => rotateMany k (FetchOut p).2.2

/-- Every entry's `filenum_snap` is the file number of the queued task of its name. -/
def SnapMatch (p : ZPBinlogSendTaskPool R F) : Prop :=
  ∀ it t, (it, t) ∈ p.tasks_ → ∀ h, idxFind p.task_ptrs_ t.name_ = some h →
    h.filenum_snap = t.filenum_

/-- No task is fetched out: no entry's iterator is `tasks_.end()`. -/
def AllQueued (p : ZPBinlogSendTaskPool R F) : Prop :=
  ∀ n h, idxFind p.task_ptrs_ n = some h → h.iter ≠ none

/-- An entry of the index without its iterator: the name, the sequence and the
snapshot of the file number. -/
def entryData (e : String × ZPBinlogSendTaskHandle) : String × Nat × Nat :=
  (e.1, e.2.sequence, e.2.filenum_snap)

/-- The state of a pool that the calls of the pool reach, with no task fetched
out. -/
structure Settled (p : ZPBinlogSendTaskPool R F) : Prop where
  wf : WellFormed p
  seq : SeqMatch p
  snap : SnapMatch p
  queued : AllQueued p

/-! ## The lease -/

/-- The constants of the binlog sender.  The file uses them, and the `zp_const.h`
at hand does not define them; they are durations in seconds. -/
structure BinlogConsts where
  kBinlogSendInterval : Nat
  kBinlogTimeSlice : Nat
  kBinlogRedundantLease : Nat
  kBinlogMinLease : Nat

/-- The value of an integer once stored in an `int64_t`. -/
def toInt64 (v : Int) : Int :=
  (v + 2 ^ 63) % 2 ^ 64 - 2 ^ 63

/-- The `lease_time` that `RenewPeerLease` computes from the size of the pool and the
number of sender threads; `none` when that number is 0, the division being
undefined.  The types of `Size()` and `binlog_sender_count()` are declared in
headers that are absent: the expression is evaluated exactly and then stored in
the `int64_t`. -/
def leaseTime (c : BinlogConsts) (size count : Nat) : Option Int :=
  if count = 0 then none
  else
    let lease_time :=
      toInt64 (((size * c.kBinlogTimeSlice) / count + c.kBinlogRedundantLease : Nat) : Int)
    some (if lease_time < (c.kBinlogMinLease : Int) then (c.kBinlogMinLease : Int)
      else lease_time)

/-- The `client::SyncLease` part of a message. -/
structure SyncLease where
  table_name : String
  partition_id : Int
  lease : Int
  deriving DecidableEq, Repr

/-- The fields of `client::SyncRequest` that `BuildLeaseSyncRequest` sets. -/
structure LeaseSyncRequest where
  sync_type : SyncType
  epoch : Nat
  from_ip : String
  from_port : Int
  sync_lease : SyncLease
  deriving DecidableEq, Repr

/-- The method `ZPBinlogSendTask::BuildLeaseSyncRequest`. -/
def BuildLeaseSyncRequest (env : Env R F) (t : ZPBinlogSendTask R F) (lease_time : Int) :
    LeaseSyncRequest :=
  { sync_type := SyncType.LEASE
    epoch := env.meta_epoch
    from_ip := env.local_ip
    from_port := env.local_port
    sync_lease :=
      { table_name := t.table_name_, partition_id := t.partition_id_, lease := lease_time } }

/-- The method `ZPBinlogSendThread::RenewPeerLease`, given the answer of `SendToPeer`:
the value returned and the message sent. -/
def RenewPeerLease (c : BinlogConsts) (env : Env R F) (pool : ZPBinlogSendTaskPool R F)
    (task : ZPBinlogSendTask R F) (send : Status) : Option (Bool × LeaseSyncRequest) :=
  match leaseTime c (Size pool) env.binlog_sender_count with
  | none => none
  | some lease_time => some (send.ok, BuildLeaseSyncRequest env task lease_time)

/-- The value of a `uint32_t` once converted to `int32_t`. -/
def toInt32 (v : Nat) : Int :=
  (((v + 2 ^ 31) % 2 ^ 32 : Nat) : Int) - 2 ^ 31

/-- The method `ZPBinlogSendTaskPool::TaskFilenum`, whose result is an `int32_t`;
`none` when the entry's iterator points to no node of the queue, the dereference
being undefined. -/
def TaskFilenum (p : ZPBinlogSendTaskPool R F) (name : String) : Option Int :=
  match idxFind p.task_ptrs_ name with
  | none => some (2 ^ 31 - 1)
  | some h =>
    match h.iter with
    | none => some (toInt32 h.filenum_snap)
    | some it =>
      match listAt p.tasks_ it with
      | none => none
      | some t => some (toInt32 t.filenum_)

/-- The counters stay within their types in every call of a run of `ProcessTask`
calls, one call an environment. -/
def CallsInRange (fuel : Nat) : List (Env R F) → ZPBinlogSendTask R F → Prop
  | [], _ => True
  | env :: envs, t =>
    ProcessTaskInRange env fuel t ∧
    match ProcessTask env fuel t with
    | none => True
    | some (_, t1) => CallsInRange fuel envs t1

/-! ## The pool in memory

The pool holds its tasks by pointer: `tasks_` is a `std::list<ZPBinlogSendTask*>`,
`PutBack` takes a pointer and deletes the object it rejects.  The definitions
above hold a task by value, which is right as long as no queued pointer is
deleted; the definitions here keep the pointers and the objects apart. -/

/-- The pool as it lies in memory.  `heap` lists the task objects that are alive,
each with its address; a node of `tasks_` is the pair of its own address and
the pointer it holds. -/
structure Mem (R F : Type) where
  heap : List (Nat × ZPBinlogSendTask R F)
  next_sequence_ : Nat
  tasks_ : List (Nat × Nat)
  task_ptrs_ : ZPBinlogSendTaskIndex

/-- The expression `delete task`: no object is alive at the address afterwards. -/
def deleteTask {α : Type} : List (Nat × α) → Nat → List (Nat × α)
  | [], _ => []
  | (a, x) :: l, task => if a = task then deleteTask l task else (a, x) :: deleteTask l task

/-- The tasks that the pointers of a queue point to, node by node; `none` when a
pointer of the queue points to no live object. -/
def derefAll {α : Type} (heap : List (Nat × α)) : List (Nat × Nat) → Option (List (Nat × α))
  | [] => some []
  | (n, ptr) :: l =>
    match listAt heap ptr, derefAll heap l with
    | some t, some ts => some ((n, t) :: ts)
    | _, _ => none

/-- The pool of tasks that a state of the memory stands for; `none` when the
queue holds a pointer to a deleted task. -/
def Mem.view (m : Mem R F) : Option (ZPBinlogSendTaskPool R F) :=
  match derefAll m.heap m.tasks_ with
  | none => none
  | some ts =>
    some { next_sequence_ := m.next_sequence_, tasks_ := ts, task_ptrs_ := m.task_ptrs_ }

/-- The method `ZPBinlogSendTaskPool::PutBack` on the memory, `task` being the
pointer passed; `none` when `task` points to no live object, which the method
dereferences. -/
def Mem.PutBack (m : Mem R F) (task : Nat) : Option (Status × Mem R F) :=
  match listAt m.heap task with
  | none => none
  | some t =>
    match idxFind m.task_ptrs_ t.name_ with
    | none => some (Status.NotFound, { m with heap := deleteTask m.heap task })
    | some h =>
      if h.iter ≠ none ∨ h.sequence ≠ t.sequence_ then
        some (Status.NotFound, { m with heap := deleteTask m.heap task })
      else
        let it := newNode m.tasks_
        some (Status.OK,
          { m with
            tasks_ := m.tasks_ ++ [(it, task)]
            task_ptrs_ := idxModify m.task_ptrs_ t.name_ (fun h =>
              { h with iter := some it, filenum_snap := t.filenum_ }) })

/-- The method `ZPBinlogSendTaskPool::FetchOut` on the memory; the second
component is the pointer left in `*task_ptr`.  The result is `none` when the
front pointer points to no live object, which the method dereferences. -/
def Mem.FetchOut (m : Mem R F) : Option (Status × Option Nat × Mem R F) :=
  match m.tasks_ with
  | [] => some (Status.NotFound, none, m)
  | (_, ptr) :: rest =>
    match listAt m.heap ptr with
    | none => none
    | some t =>
      some (Status.OK, some ptr,
        { m with
          tasks_ := rest
          task_ptrs_ := idxSubscript m.task_ptrs_ t.name_ (fun h => { h with iter := none }) })

/-! ## Sample data -/

/-- An environment in which every file opens and every seek succeeds. -/
def sampleEnv : Env Nat Nat :=
  { GetTablePartitionById := fun _ _ => some { opened := true, boffset := { filenum := 0, offset := 64 } }
    NewFileName := fun name n => name ++ toString n
    FileExists := fun _ => false
    NewSequentialFile := fun _ => (Status.OK, some 0)
    BinlogReader := fun _ => 0
    Seek := fun r _ => (Status.OK, r)
    Consume := fun r => { status := Status.OK, consume_len := 32, payload := [1, 2, 3], reader := r + 1 }
    SkipNextBlock := fun r n => (n, r)
    meta_epoch := 1
    local_ip := "me"
    local_port := 9221
    binlog_sender_count := 4 }

/-- The call `AddNewTask` for table `t`, partition 0 and peer `h:1` in the sample
environment, reading from file `fnum`. -/
def sampleAdd (fnum : Nat) (force : Bool) : PoolOp Nat Nat :=
  PoolOp.AddNewTask sampleEnv "t" 0 "binlog" { ip := "h", port := 1 } fnum 0 force

/-- The task that `sampleAdd fnum` creates when the counter is at `seq`. -/
def sampleCreated (seq fnum : Nat) : ZPBinlogSendTask Nat Nat :=
  { send_next := true, sequence_ := seq, table_name_ := "t", partition_id_ := 0,
    node_ := { ip := "h", port := 1 }, filenum_ := fnum, offset_ := 0,
    process_error_time_ := 0, pre_filenum_ := 0, pre_offset_ := 0,
    pre_has_content_ := false, binlog_filename_ := "binlog", queue_ := some 0,
    reader_ := some 0, name_ := "t_0_h_1", pre_content_ := [] }

/-- An environment with two binlog files: the reader of the first file is at its
end, the second file `binlog1` starts with a record of 32 bytes, and the
partition has written up to `(1, 32)`. -/
def rollEnv : Env Nat Nat :=
  { GetTablePartitionById := fun _ _ =>
      some { opened := true, boffset := { filenum := 1, offset := 32 } }
    NewFileName := fun name n => name ++ toString n
    FileExists := fun name => name == "binlog1"
    NewSequentialFile := fun _ => (Status.OK, some 1)
    BinlogReader := fun _ => 100
    Seek := fun r _ => (Status.OK, r)
    Consume := fun r =>
      if r = 100 then { status := Status.OK, consume_len := 32, payload := [7], reader := 101 }
      else { status := Status.EndFile, consume_len := 0, payload := [], reader := r }
    SkipNextBlock := fun r n => (n, r)
    meta_epoch := 1
    local_ip := "me"
    local_port := 9221
    binlog_sender_count := 4 }

/-- A pass in the sample environment, with the answer of `SendToPeer` and whether
the time slice is spent. -/
def sampleTick (send : Status) (spent : Bool) : Tick Nat Nat :=
  { env := sampleEnv, NowMicros := 0, IsInitialized := true, SendToPeer := send,
    slice_spent := spent }

/-- A task named `name` with sequence number `seq`, reading file `fnum`. -/
def sampleTask (name : String) (seq fnum : Nat) : ZPBinlogSendTask Nat Nat :=
  { send_next := true, sequence_ := seq, table_name_ := "t", partition_id_ := 0,
    node_ := { ip := "h", port := 1 }, filenum_ := fnum, offset_ := 0,
    process_error_time_ := 0, pre_filenum_ := 0, pre_offset_ := 0,
    pre_has_content_ := false, binlog_filename_ := "binlog", queue_ := some 0,
    reader_ := some 0, name_ := name, pre_content_ := [] }

/-- A pool whose queue holds task `a`, while task `b` is fetched out. -/
def samplePool : ZPBinlogSendTaskPool Nat Nat :=
  { next_sequence_ := 2,
    tasks_ := [(1, sampleTask "a" 0 0)],
    task_ptrs_ := [("a", { iter := some 1, sequence := 0, filenum_snap := 0 }),
                   ("b", { iter := none, sequence := 1, filenum_snap := 0 })] }

/-- An environment whose binlog file ends in a torn record: `Consume` answers
`Incomplete` and has consumed nothing. -/
def tornEnv : Env Nat Nat :=
  { sampleEnv with
    Consume := fun r =>
      { status := Status.Incomplete, consume_len := 0, payload := [], reader := r } }

/-- An environment whose binlog file holds garbage where the reader stands, the
state of a reader being its position in the file, while the partition has written
up to `(0, 200)`.  Modelled from the spec: `SkipNextBlock` advances to the next
block boundary and reports the bytes up to it. -/
def corruptEnv : Env Nat Nat :=
  { sampleEnv with
    GetTablePartitionById := fun _ _ =>
      some { opened := true, boffset := { filenum := 0, offset := 200 } }
    Consume := fun r =>
      { status := Status.Corruption, consume_len := 0, payload := [], reader := r }
    SkipNextBlock := fun r n =>
      (n + (kBlockSize - r % kBlockSize), r + (kBlockSize - r % kBlockSize)) }

/-- A pool whose queue holds task `a`, then task `b`, none being fetched out. -/
def twoPool : ZPBinlogSendTaskPool Nat Nat :=
  { next_sequence_ := 2,
    tasks_ := [(1, sampleTask "a" 0 0), (2, sampleTask "b" 1 0)],
    task_ptrs_ := [("a", { iter := some 1, sequence := 0, filenum_snap := 0 }),
                   ("b", { iter := some 2, sequence := 1, filenum_snap := 0 })] }

/-- Sample values of the constants of the sender. -/
def sampleConsts : BinlogConsts :=
  { kBinlogSendInterval := 1, kBinlogTimeSlice := 3, kBinlogRedundantLease := 10,
    kBinlogMinLease := 20 }

/-- An environment in which every file opens and the reader refuses the offset. -/
def badSeekEnv : Env Nat Nat :=
  { sampleEnv with Seek := fun r _ => (Status.InvalidArgument, r) }

/-- A pool reached from the empty pool: task `a`, added while reading file 3, is
fetched out; task `b`, reading file 5, is queued. -/
def snapPool : ZPBinlogSendTaskPool Nat Nat :=
  runOps (ZPBinlogSendTaskPool.init Nat Nat)
    [PoolOp.AddTask (sampleTask "a" 0 3), PoolOp.AddTask (sampleTask "b" 1 5),
      PoolOp.FetchOut]

/-- The environment with two binlog files, the partition having written up to the
start of the second file, `(1, 0)`. -/
def rollEndEnv : Env Nat Nat :=
  { rollEnv with
    GetTablePartitionById := fun _ _ =>
      some { opened := true, boffset := { filenum := 1, offset := 0 } } }

theorem newNode_gt {α : Type} (l : List (Nat × α)) : ∀ x ∈ l, x.1 < newNode l := by
  induction l with
  | nil => intro x hx; cases hx
  | cons y l ih =>
    intro x hx
    have hunf : newNode (y :: l) = max (y.1 + 1) (newNode l) := rfl
    rw [hunf]
    rcases List.mem_cons.mp hx with h | h
    · subst h; exact lt_of_lt_of_le (Nat.lt_succ_self _) (le_max_left _ _)
    · exact lt_of_lt_of_le (ih x h) (le_max_right _ _)

theorem newNode_ne {α : Type} (l : List (Nat × α)) : ∀ x ∈ l, x.1 ≠ newNode l :=
  fun x hx => Nat.ne_of_lt (newNode_gt l x hx)

theorem idxFind_modify_self (m : ZPBinlogSendTaskIndex) (k : String)
    (f : ZPBinlogSendTaskHandle → ZPBinlogSendTaskHandle) :
    idxFind (idxModify m k f) k = (idxFind m k).map f := by
  induction m with
  | nil => rfl
  | cons e m ih =>
    obtain ⟨k', h⟩ := e
    by_cases hk : k' = k
    · simp [idxModify, idxFind, hk]
    · simp [idxModify, idxFind, hk, ih]

theorem idxFind_modify_ne (m : ZPBinlogSendTaskIndex) (k n : String)
    (f : ZPBinlogSendTaskHandle → ZPBinlogSendTaskHandle) (hn : n ≠ k) :
    idxFind (idxModify m k f) n = idxFind m n := by
  induction m with
  | nil => rfl
  | cons e m ih =>
    obtain ⟨k', h⟩ := e
    by_cases hk : k' = k
    · have hkn : ¬ k = n := fun h => hn h.symm
      simp [idxModify, idxFind, hk, hkn]
    · by_cases hkn : k' = n
      · subst hkn
        simp [idxModify, idxFind, hk]
      · simp [idxModify, idxFind, hk, hkn, ih]

theorem idxModify_keys (m : ZPBinlogSendTaskIndex) (k : String)
    (f : ZPBinlogSendTaskHandle → ZPBinlogSendTaskHandle) :
    (idxModify m k f).map Prod.fst = m.map Prod.fst := by
  induction m with
  | nil => rfl
  | cons e m ih =>
    obtain ⟨k', h⟩ := e
    by_cases hk : k' = k
    · simp [idxModify, hk]
    · simp [idxModify, hk, ih]

theorem idxFind_append (m : ZPBinlogSendTaskIndex) (k n : String)
    (v : ZPBinlogSendTaskHandle) :
    idxFind (m ++ [(k, v)]) n =
      match idxFind m n with
      | some h => some h
      | none => if k = n then some v else none := by
  induction m with
  | nil => simp [idxFind]
  | cons e m ih =>
    obtain ⟨k', h⟩ := e
    by_cases hk : k' = n
    · simp [idxFind, hk]
    · simp [idxFind, hk, ih]

theorem idxFind_subscript_self (m : ZPBinlogSendTaskIndex) (k : String)
    (f : ZPBinlogSendTaskHandle → ZPBinlogSendTaskHandle) :
    idxFind (idxSubscript m k f) k =
      some (f ((idxFind m k).getD ZPBinlogSendTaskHandle.fresh)) := by
  unfold idxSubscript
  cases h : idxFind m k with
  | none => simp [idxFind_append, h]
  | some v => simp [idxFind_modify_self, h]

theorem idxFind_subscript_ne (m : ZPBinlogSendTaskIndex) (k n : String)
    (f : ZPBinlogSendTaskHandle → ZPBinlogSendTaskHandle) (hn : n ≠ k) :
    idxFind (idxSubscript m k f) n = idxFind m n := by
  unfold idxSubscript
  have hkn : ¬ k = n := fun h => hn h.symm
  cases h : idxFind m k with
  | none =>
    simp only [idxFind_append, hkn, if_false]
    cases idxFind m n <;> rfl
  | some v => simp [idxFind_modify_ne _ _ _ _ hn]

theorem idxFind_erase_self (m : ZPBinlogSendTaskIndex) (k : String) :
    idxFind (idxErase m k) k = none := by
  induction m with
  | nil => rfl
  | cons e m ih =>
    obtain ⟨k', h⟩ := e
    by_cases hk : k' = k
    · simp [idxErase, hk, ih]
    · simp [idxErase, idxFind, hk, ih]

theorem idxFind_erase_ne (m : ZPBinlogSendTaskIndex) (k n : String) (hn : n ≠ k) :
    idxFind (idxErase m k) n = idxFind m n := by
  induction m with
  | nil => rfl
  | cons e m ih =>
    obtain ⟨k', h⟩ := e
    by_cases hk : k' = k
    · have hkn : ¬ k = n := fun h => hn h.symm
      simp [idxErase, idxFind, hk, hkn, ih]
    · by_cases hkn : k' = n
      · subst hkn
        simp [idxErase, idxFind, hk]
      · simp [idxErase, idxFind, hk, hkn, ih]

theorem listErase_split {α : Type} (l1 l2 : List (Nat × α)) (it : Nat) (x : α)
    (h : ∀ y ∈ l1, y.1 ≠ it) : listErase (l1 ++ (it, x) :: l2) it = l1 ++ l2 := by
  induction l1 with
  | nil => simp [listErase]
  | cons y l1 ih =>
    obtain ⟨a, b⟩ := y
    have ha : a ≠ it := h (a, b) (List.mem_cons_self _ _)
    have ih2 := ih (fun z hz => h z (List.mem_cons_of_mem _ hz))
    simp [listErase, ha, ih2]

theorem idxFind_eq_none_iff (m : ZPBinlogSendTaskIndex) (k : String) :
    idxFind m k = none ↔ k ∉ m.map Prod.fst := by
  induction m with
  | nil => simp [idxFind]
  | cons e m ih =>
    obtain ⟨k', h⟩ := e
    by_cases hk : k' = k
    · simp [idxFind, hk]
    · have hk2 : ¬ k = k' := fun h => hk h.symm
      simp [idxFind, hk, hk2, ih]

theorem idxErase_keys_sublist (m : ZPBinlogSendTaskIndex) (k : String) :
    ((idxErase m k).map Prod.fst).Sublist (m.map Prod.fst) := by
  induction m with
  | nil => simp [idxErase]
  | cons e m ih =>
    obtain ⟨k', h⟩ := e
    by_cases hk : k' = k
    · simp only [idxErase, hk, if_true, List.map_cons]
      exact List.Sublist.cons _ ih
    · simp only [idxErase, hk, if_false, List.map_cons]
      exact List.Sublist.cons₂ _ ih

theorem idxSubscript_keys_nodup (m : ZPBinlogSendTaskIndex) (k : String)
    (f : ZPBinlogSendTaskHandle → ZPBinlogSendTaskHandle)
    (h : (m.map Prod.fst).Nodup) : ((idxSubscript m k f).map Prod.fst).Nodup := by
  unfold idxSubscript
  cases hf : idxFind m k with
  | none =>
    have hk := (idxFind_eq_none_iff m k).mp hf
    simp only [List.map_append, List.map_cons, List.map_nil]
    rw [List.nodup_append]
    refine ⟨h, List.nodup_singleton _, ?_⟩
    intro a ha hb
    rw [List.mem_singleton] at hb
    subst hb
    exact hk ha
  | some v =>
    simp only [idxModify_keys]
    exact h

theorem listErase_sublist {α : Type} (l : List (Nat × α)) (it : Nat) :
    (listErase l it).Sublist l := by
  induction l with
  | nil => simp [listErase]
  | cons y l ih =>
    obtain ⟨a, b⟩ := y
    by_cases ha : a = it
    · simp only [listErase, ha, if_true]
      exact List.sublist_cons_self _ _
    · simp only [listErase, ha, if_false]
      exact List.Sublist.cons₂ _ ih

theorem mem_listErase_of_ne {α : Type} (l : List (Nat × α)) (it : Nat) (x : Nat × α)
    (hx : x ∈ l) (hne : x.1 ≠ it) : x ∈ listErase l it := by
  induction l with
  | nil => cases hx
  | cons y l ih =>
    obtain ⟨a, b⟩ := y
    by_cases ha : a = it
    · simp only [listErase, ha, if_true]
      rcases List.mem_cons.mp hx with h | h
      · subst h
        exact absurd ha hne
      · exact h
    · simp only [listErase, ha, if_false]
      rcases List.mem_cons.mp hx with h | h
      · subst h
        exact List.mem_cons_self _ _
      · exact List.mem_cons_of_mem _ (ih h)

theorem ne_of_mem_listErase {α : Type} (l : List (Nat × α)) (it : Nat) (x : Nat × α)
    (hn : (l.map Prod.fst).Nodup) (hx : x ∈ listErase l it) : x.1 ≠ it := by
  induction l with
  | nil => cases hx
  | cons y l ih =>
    obtain ⟨a, b⟩ := y
    simp only [List.map_cons, List.nodup_cons] at hn
    by_cases ha : a = it
    · simp only [listErase, ha, if_true] at hx
      intro hc
      apply hn.1
      rw [ha, ← hc]
      exact List.mem_map_of_mem Prod.fst hx
    · simp only [listErase, ha, if_false] at hx
      rcases List.mem_cons.mp hx with h | h
      · subst h
        exact ha
      · exact ih hn.2 h

theorem node_unique {α : Type} (l : List (Nat × α)) (hn : (l.map Prod.fst).Nodup)
    (x y : Nat × α) (hx : x ∈ l) (hy : y ∈ l) (h : x.1 = y.1) : x = y :=
  List.inj_on_of_nodup_map hn hx hy h

/-! ## The pool operations, case by case -/

theorem PutBack_absent (p : ZPBinlogSendTaskPool R F) (t : ZPBinlogSendTask R F)
    (hf : idxFind p.task_ptrs_ t.name_ = none) : PutBack p t = (Status.NotFound, p) := by
  simp only [PutBack, hf]

theorem PutBack_stale (p : ZPBinlogSendTaskPool R F) (t : ZPBinlogSendTask R F)
    (h : ZPBinlogSendTaskHandle) (hf : idxFind p.task_ptrs_ t.name_ = some h)
    (hc : h.iter ≠ none ∨ h.sequence ≠ t.sequence_) :
    PutBack p t = (Status.NotFound, p) := by
  simp only [PutBack, hf, if_pos hc]

theorem PutBack_current (p : ZPBinlogSendTaskPool R F) (t : ZPBinlogSendTask R F)
    (h : ZPBinlogSendTaskHandle) (hf : idxFind p.task_ptrs_ t.name_ = some h)
    (hi : h.iter = none) (hs : h.sequence = t.sequence_) :
    PutBack p t = (Status.OK,
      { p with
        tasks_ := p.tasks_ ++ [(newNode p.tasks_, t)]
        task_ptrs_ := idxModify p.task_ptrs_ t.name_ (fun h =>
          { h with iter := some (newNode p.tasks_), filenum_snap := t.filenum_ }) }) := by
  have hc : ¬ (h.iter ≠ none ∨ h.sequence ≠ t.sequence_) := by simp [hi, hs]
  simp only [PutBack, hf, if_neg hc]

theorem AddTask_present (p : ZPBinlogSendTaskPool R F) (t : ZPBinlogSendTask R F)
    (h : ZPBinlogSendTaskHandle) (hf : idxFind p.task_ptrs_ t.name_ = some h) :
    AddTask p t = (Status.Complete, p) := by
  simp only [AddTask, hf]

theorem AddTask_absent (p : ZPBinlogSendTaskPool R F) (t : ZPBinlogSendTask R F)
    (hf : idxFind p.task_ptrs_ t.name_ = none) :
    AddTask p t = (Status.OK,
      { p with
        tasks_ := p.tasks_ ++ [(newNode p.tasks_, t)]
        task_ptrs_ := idxSubscript p.task_ptrs_ t.name_ (fun _ =>
          { iter := some (newNode p.tasks_), sequence := t.sequence_,
            filenum_snap := t.filenum_ }) }) := by
  simp only [AddTask, hf]

theorem RemoveTask_absent (p : ZPBinlogSendTaskPool R F) (n : String)
    (hf : idxFind p.task_ptrs_ n = none) : RemoveTask p n = (Status.NotFound, p) := by
  simp only [RemoveTask, hf]

theorem RemoveTask_present (p : ZPBinlogSendTaskPool R F) (n : String)
    (h : ZPBinlogSendTaskHandle) (hf : idxFind p.task_ptrs_ n = some h) :
    RemoveTask p n = (Status.OK,
      { p with
        tasks_ := (match h.iter with
          | some it => listErase p.tasks_ it
          | none => p.tasks_)
        task_ptrs_ := idxErase p.task_ptrs_ n }) := by
  simp only [RemoveTask, hf]

theorem FetchOut_empty (p : ZPBinlogSendTaskPool R F) (he : p.tasks_ = []) :
    FetchOut p = (Status.NotFound, none, p) := by
  simp only [FetchOut, he]

theorem FetchOut_front (p : ZPBinlogSendTaskPool R F) (it : Nat)
    (t : ZPBinlogSendTask R F) (rest : List (Nat × ZPBinlogSendTask R F))
    (he : p.tasks_ = (it, t) :: rest) :
    FetchOut p = (Status.OK, some t,
      { p with
        tasks_ := rest
        task_ptrs_ := idxSubscript p.task_ptrs_ t.name_
          (fun h => { h with iter := none }) }) := by
  simp only [FetchOut, he]

/-! ## The contracts of the pool operations -/

/-- C1: `PutBack(t)` answers `NotFound` and leaves the pool as it was exactly when
the name of `t` is not in the index, or the entry's iterator is not `tasks_.end()`,
or the entry's sequence differs from that of `t`; in every other case it answers
`OK`, `t` is appended to the queue in a new node, the entry's iterator points to
that node, its `filenum_snap` is the file number of `t`, its sequence and all
other entries are as before. -/
theorem PutBack_contract (p : ZPBinlogSendTaskPool R F) (t : ZPBinlogSendTask R F) :
    (((PutBack p t).1 = Status.NotFound ∧ (PutBack p t).2 = p) ↔
      (idxFind p.task_ptrs_ t.name_ = none ∨
        ∃ h, idxFind p.task_ptrs_ t.name_ = some h ∧
          (h.iter ≠ none ∨ h.sequence ≠ t.sequence_))) ∧
    (∀ h, idxFind p.task_ptrs_ t.name_ = some h → h.iter = none →
      h.sequence = t.sequence_ →
        (PutBack p t).1 = Status.OK ∧
        (PutBack p t).2.tasks_ = p.tasks_ ++ [(newNode p.tasks_, t)] ∧
        (∀ x ∈ p.tasks_, x.1 ≠ newNode p.tasks_) ∧
        idxFind (PutBack p t).2.task_ptrs_ t.name_ =
          some { iter := some (newNode p.tasks_), sequence := h.sequence,
                 filenum_snap := t.filenum_ } ∧
        (∀ n, n ≠ t.name_ →
          idxFind (PutBack p t).2.task_ptrs_ n = idxFind p.task_ptrs_ n) ∧
        (PutBack p t).2.task_ptrs_.map Prod.fst = p.task_ptrs_.map Prod.fst ∧
        (PutBack p t).2.next_sequence_ = p.next_sequence_) := by
  constructor
  · cases hf : idxFind p.task_ptrs_ t.name_ with
    | none => simp [PutBack, hf]
    | some h =>
      by_cases hc : h.iter ≠ none ∨ h.sequence ≠ t.sequence_
      · have he : PutBack p t = (Status.NotFound, p) := by
          simp only [PutBack, hf, if_pos hc]
        rw [he]
        exact ⟨fun _ => Or.inr ⟨h, rfl, hc⟩, fun _ => ⟨rfl, rfl⟩⟩
      · have he : (PutBack p t).1 = Status.OK := by
          simp only [PutBack, hf, if_neg hc]
        rw [he]
        constructor
        · intro h1
          exact absurd h1.1 (by decide)
        · rintro (h1 | ⟨h', h1, h2⟩)
          · cases h1
          · cases h1
            exact absurd h2 hc
  · intro h hf hi hs
    have hc : ¬ (h.iter ≠ none ∨ h.sequence ≠ t.sequence_) := by simp [hi, hs]
    have he : PutBack p t = (Status.OK,
        { p with
          tasks_ := p.tasks_ ++ [(newNode p.tasks_, t)]
          task_ptrs_ := idxModify p.task_ptrs_ t.name_ (fun h =>
            { h with iter := some (newNode p.tasks_), filenum_snap := t.filenum_ }) }) := by
      simp only [PutBack, hf, if_neg hc]
    rw [he]
    refine ⟨rfl, rfl, newNode_ne _, ?_, ?_, ?_, rfl⟩
    · simp [idxFind_modify_self, hf]
    · intro n hn
      exact idxFind_modify_ne _ _ _ _ hn
    · exact idxModify_keys _ _ _

/-- Witness of C1 on the sample pool: the fetched-out task `b` is taken back, and
a task named `a`, whose entry points into the queue, is refused. -/
theorem PutBack_contract_witness :
    (PutBack samplePool (sampleTask "b" 1 7)).1 = Status.OK ∧
    (PutBack samplePool (sampleTask "b" 1 7)).2.tasks_ =
      [(1, sampleTask "a" 0 0), (2, sampleTask "b" 1 7)] ∧
    idxFind (PutBack samplePool (sampleTask "b" 1 7)).2.task_ptrs_ "b" =
      some { iter := some 2, sequence := 1, filenum_snap := 7 } ∧
    (PutBack samplePool (sampleTask "a" 0 0)).1 = Status.NotFound := by
  have h := (PutBack_contract samplePool (sampleTask "b" 1 7)).2
    { iter := none, sequence := 1, filenum_snap := 0 } rfl rfl rfl
  have h2 := (PutBack_contract samplePool (sampleTask "a" 0 0)).1.mpr
    (Or.inr ⟨{ iter := some 1, sequence := 0, filenum_snap := 0 }, rfl, Or.inl (by simp)⟩)
  exact ⟨h.1, h.2.1, h.2.2.2.1, h2.1⟩

/-- C2: `FetchOut` on an empty queue answers `NotFound` and leaves the pool as it
was; on a queue `t :: rest` it answers `OK` with `t`, the queue becomes `rest`,
the iterator of the entry of `t` becomes `tasks_.end()`, and all other entries
are as before; the sequence and `filenum_snap` of the entry of `t` are as
before, and so are the keys of the index and `Size`, the front task being
indexed. -/
theorem FetchOut_contract (p : ZPBinlogSendTaskPool R F) :
    (p.tasks_ = [] → FetchOut p = (Status.NotFound, none, p)) ∧
    (∀ it t rest, p.tasks_ = (it, t) :: rest →
      (FetchOut p).1 = Status.OK ∧
      (FetchOut p).2.1 = some t ∧
      (FetchOut p).2.2.tasks_ = rest ∧
      (∃ h1, idxFind (FetchOut p).2.2.task_ptrs_ t.name_ = some h1 ∧ h1.iter = none) ∧
      (∀ n, n ≠ t.name_ →
        idxFind (FetchOut p).2.2.task_ptrs_ n = idxFind p.task_ptrs_ n) ∧
      (FetchOut p).2.2.next_sequence_ = p.next_sequence_ ∧
      (∀ h, idxFind p.task_ptrs_ t.name_ = some h →
        idxFind (FetchOut p).2.2.task_ptrs_ t.name_ =
          some { iter := none, sequence := h.sequence, filenum_snap := h.filenum_snap } ∧
        (FetchOut p).2.2.task_ptrs_.map Prod.fst = p.task_ptrs_.map Prod.fst ∧
        Size (FetchOut p).2.2 = Size p)) := by
  constructor
  · intro he
    exact FetchOut_empty p he
  · intro it t rest he
    rw [FetchOut_front p it t rest he]
    refine ⟨rfl, rfl, rfl, ⟨_, idxFind_subscript_self _ _ _, rfl⟩, ?_, rfl, ?_⟩
    · intro n hn
      exact idxFind_subscript_ne _ _ _ _ hn
    · intro h hf
      have hk : (idxSubscript p.task_ptrs_ t.name_ (fun h => { h with iter := none })).map
          Prod.fst = p.task_ptrs_.map Prod.fst := by
        simp only [idxSubscript, hf]
        exact idxModify_keys _ _ _
      refine ⟨?_, hk, ?_⟩
      · simp [idxFind_subscript_self, hf]
      · have hl := congrArg List.length hk
        simpa [Size] using hl

/-- Witness of C2 on the sample pool, whose queue holds the one task `a`. -/
theorem FetchOut_contract_witness :
    (FetchOut samplePool).1 = Status.OK ∧
    (FetchOut samplePool).2.1 = some (sampleTask "a" 0 0) ∧
    (FetchOut samplePool).2.2.tasks_ = [] ∧
    idxFind (FetchOut samplePool).2.2.task_ptrs_ "a" =
      some { iter := none, sequence := 0, filenum_snap := 0 } ∧
    Size (FetchOut samplePool).2.2 = 2 := by
  have h := (FetchOut_contract samplePool).2 1 (sampleTask "a" 0 0) [] rfl
  have h2 := h.2.2.2.2.2.2 { iter := some 1, sequence := 0, filenum_snap := 0 } rfl
  exact ⟨h.1, h.2.1, h.2.2.1, h2.1, h2.2.2⟩

/-- C3, as the claim states it, fails: on a name that the index holds `AddTask`
answers with the status code `Complete`, which is not the error kind
`already_exists`. -/
theorem AddTask_existing_not_already_exists :
    idxFind samplePool.task_ptrs_ (sampleTask "b" 5 0).name_ ≠ none ∧
    (AddTask samplePool (sampleTask "b" 5 0)).1 = Status.Complete ∧
    (AddTask samplePool (sampleTask "b" 5 0)).1.kind ≠ some ErrorKind.already_exists := by
  refine ⟨?_, rfl, ?_⟩
  · simp [samplePool, sampleTask, idxFind]
  · simp [samplePool, sampleTask, idxFind, AddTask, Status.kind]

/-- C3, amended: `AddTask(t)` answers with the status code `Complete` and leaves the
pool as it was when the name of `t` is a key of the index, whatever the entry's
iterator; otherwise it answers `OK`, appends `t` to the queue in a new node and
creates the entry of `t` with the iterator pointing to that node, the sequence
and the file number of `t`, all other entries being as before. -/
theorem AddTask_contract (p : ZPBinlogSendTaskPool R F) (t : ZPBinlogSendTask R F) :
    (∀ h, idxFind p.task_ptrs_ t.name_ = some h →
      AddTask p t = (Status.Complete, p)) ∧
    (idxFind p.task_ptrs_ t.name_ = none →
      (AddTask p t).1 = Status.OK ∧
      (AddTask p t).2.tasks_ = p.tasks_ ++ [(newNode p.tasks_, t)] ∧
      (∀ x ∈ p.tasks_, x.1 ≠ newNode p.tasks_) ∧
      idxFind (AddTask p t).2.task_ptrs_ t.name_ =
        some { iter := some (newNode p.tasks_), sequence := t.sequence_,
               filenum_snap := t.filenum_ } ∧
      (∀ n, n ≠ t.name_ →
        idxFind (AddTask p t).2.task_ptrs_ n = idxFind p.task_ptrs_ n) ∧
      (AddTask p t).2.next_sequence_ = p.next_sequence_) := by
  constructor
  · intro h hf
    simp only [AddTask, hf]
  · intro hf
    have hr : AddTask p t = (Status.OK,
        { p with
          tasks_ := p.tasks_ ++ [(newNode p.tasks_, t)]
          task_ptrs_ := idxSubscript p.task_ptrs_ t.name_ (fun _ =>
            { iter := some (newNode p.tasks_), sequence := t.sequence_,
              filenum_snap := t.filenum_ }) }) := by
      simp only [AddTask, hf]
    rw [hr]
    refine ⟨rfl, rfl, newNode_ne _, ?_, ?_, rfl⟩
    · simp [idxFind_subscript_self]
    · intro n hn
      exact idxFind_subscript_ne _ _ _ _ hn

/-- Witness of the amended C3 on the sample pool: a task under the new name `c`
is appended, a task under the fetched-out name `b` is refused. -/
theorem AddTask_contract_witness :
    (AddTask samplePool (sampleTask "c" 9 4)).1 = Status.OK ∧
    (AddTask samplePool (sampleTask "c" 9 4)).2.tasks_ =
      [(1, sampleTask "a" 0 0), (2, sampleTask "c" 9 4)] ∧
    idxFind (AddTask samplePool (sampleTask "c" 9 4)).2.task_ptrs_ "c" =
      some { iter := some 2, sequence := 9, filenum_snap := 4 } ∧
    AddTask samplePool (sampleTask "b" 5 0) = (Status.Complete, samplePool) := by
  have h := (AddTask_contract samplePool (sampleTask "c" 9 4)).2 rfl
  have h2 := (AddTask_contract samplePool (sampleTask "b" 5 0)).1
    { iter := none, sequence := 1, filenum_snap := 0 } rfl
  exact ⟨h.1, h.2.1, h.2.2.2.1, h2⟩

/-- C4: `RemoveTask(n)` answers `NotFound` and changes nothing when `n` is not in
the index; otherwise it answers `OK` and erases the entry of `n`, the other
entries being as before; the queue is left as it was when the entry's iterator
is `tasks_.end()`, and when the iterator points to a node of the queue that node
is unlinked, the order of the others being kept. -/
theorem RemoveTask_contract (p : ZPBinlogSendTaskPool R F) (n : String) :
    (idxFind p.task_ptrs_ n = none → RemoveTask p n = (Status.NotFound, p)) ∧
    (∀ h, idxFind p.task_ptrs_ n = some h →
      (RemoveTask p n).1 = Status.OK ∧
      idxFind (RemoveTask p n).2.task_ptrs_ n = none ∧
      (∀ m, m ≠ n → idxFind (RemoveTask p n).2.task_ptrs_ m = idxFind p.task_ptrs_ m) ∧
      (RemoveTask p n).2.next_sequence_ = p.next_sequence_ ∧
      (h.iter = none → (RemoveTask p n).2.tasks_ = p.tasks_) ∧
      (∀ it l1 t l2, h.iter = some it → p.tasks_ = l1 ++ (it, t) :: l2 →
        (∀ x ∈ l1, x.1 ≠ it) → (RemoveTask p n).2.tasks_ = l1 ++ l2)) := by
  constructor
  · intro hf
    simp only [RemoveTask, hf]
  · intro h hf
    have hr : RemoveTask p n = (Status.OK,
        { p with
          tasks_ := (match h.iter with
            | some it => listErase p.tasks_ it
            | none => p.tasks_)
          task_ptrs_ := idxErase p.task_ptrs_ n }) := by
      simp only [RemoveTask, hf]
    rw [hr]
    refine ⟨rfl, idxFind_erase_self _ _, ?_, rfl, ?_, ?_⟩
    · intro m hm
      exact idxFind_erase_ne _ _ _ hm
    · intro hi
      simp only [hi]
    · intro it l1 t l2 hi hq hl
      simp only [hi, hq]
      exact listErase_split l1 l2 it t hl

/-- Witness of C4 on the sample pool: removing the queued `a` unlinks its node,
removing the fetched-out `b` leaves the queue alone, removing `c` finds nothing. -/
theorem RemoveTask_contract_witness :
    (RemoveTask samplePool "a").1 = Status.OK ∧
    (RemoveTask samplePool "a").2.tasks_ = [] ∧
    idxFind (RemoveTask samplePool "a").2.task_ptrs_ "a" = none ∧
    (RemoveTask samplePool "b").2.tasks_ = samplePool.tasks_ ∧
    RemoveTask samplePool "c" = (Status.NotFound, samplePool) := by
  have ha := (RemoveTask_contract samplePool "a").2
    { iter := some 1, sequence := 0, filenum_snap := 0 } rfl
  have hb := (RemoveTask_contract samplePool "b").2
    { iter := none, sequence := 1, filenum_snap := 0 } rfl
  have hc := (RemoveTask_contract samplePool "c").1 rfl
  refine ⟨ha.1, ?_, ha.2.1, hb.2.2.2.2.1 rfl, hc⟩
  exact ha.2.2.2.2.2 1 [] (sampleTask "a" 0 0) [] rfl rfl (by simp)

/-! ## Well-formedness of the pool is kept by every operation -/

theorem WellFormed_init : WellFormed (ZPBinlogSendTaskPool.init R F) where
  nodes := List.nodup_nil
  keys := List.nodup_nil
  index_to_queue := by
    intro n h hf
    cases hf
  queue_to_index := by
    intro it t hm
    cases hm

theorem WellFormed_of_eq (p q : ZPBinlogSendTaskPool R F) (wf : WellFormed p)
    (ht : q.tasks_ = p.tasks_) (hi : q.task_ptrs_ = p.task_ptrs_) : WellFormed q where
  nodes := by rw [ht]; exact wf.nodes
  keys := by rw [hi]; exact wf.keys
  index_to_queue := by rw [ht, hi]; exact wf.index_to_queue
  queue_to_index := by rw [ht, hi]; exact wf.queue_to_index

theorem nodes_nodup_push {α : Type} (l : List (Nat × α)) (x : α)
    (h : (l.map Prod.fst).Nodup) : ((l ++ [(newNode l, x)]).map Prod.fst).Nodup := by
  simp only [List.map_append, List.map_cons, List.map_nil]
  rw [List.nodup_append]
  refine ⟨h, List.nodup_singleton _, ?_⟩
  intro a ha hb
  rw [List.mem_singleton] at hb
  subst hb
  obtain ⟨y, hy, hya⟩ := List.mem_map.mp ha
  exact newNode_ne l y hy hya

theorem WellFormed_PutBack (p : ZPBinlogSendTaskPool R F) (t : ZPBinlogSendTask R F)
    (wf : WellFormed p) : WellFormed (PutBack p t).2 := by
  cases hf : idxFind p.task_ptrs_ t.name_ with
  | none => rw [PutBack_absent p t hf]; exact wf
  | some h =>
    by_cases hc : h.iter ≠ none ∨ h.sequence ≠ t.sequence_
    · rw [PutBack_stale p t h hf hc]; exact wf
    · have hi : h.iter = none := by
        by_contra hne
        exact hc (Or.inl hne)
      have hs : h.sequence = t.sequence_ := by
        by_contra hne
        exact hc (Or.inr hne)
      rw [PutBack_current p t h hf hi hs]
      refine ⟨nodes_nodup_push _ _ wf.nodes, ?_, ?_, ?_⟩
      · show ((idxModify p.task_ptrs_ t.name_ _).map Prod.fst).Nodup
        rw [idxModify_keys]
        exact wf.keys
      · intro n h' hf'
        simp only at hf'
        by_cases hn : n = t.name_
        · subst hn
          rw [idxFind_modify_self, hf] at hf'
          simp only [Option.map_some', Option.some.injEq] at hf'
          subst hf'
          exact Or.inr ⟨newNode p.tasks_, t, rfl, by simp, rfl⟩
        · rw [idxFind_modify_ne _ _ _ _ hn] at hf'
          rcases wf.index_to_queue n h' hf' with h0 | ⟨it, t', h1, h2, h3⟩
          · exact Or.inl h0
          · exact Or.inr ⟨it, t', h1, List.mem_append_left _ h2, h3⟩
      · intro it t' hm
        simp only at hm
        rcases List.mem_append.mp hm with h1 | h1
        · obtain ⟨h0, hf0, hi0⟩ := wf.queue_to_index it t' h1
          have hn : t'.name_ ≠ t.name_ := by
            intro he
            rw [he, hf] at hf0
            cases hf0
            rw [hi] at hi0
            cases hi0
          exact ⟨h0, by simp only; rw [idxFind_modify_ne _ _ _ _ hn]; exact hf0, hi0⟩
        · rw [List.mem_singleton] at h1
          cases h1
          exact ⟨_, by simp only; rw [idxFind_modify_self, hf]; rfl, rfl⟩

theorem WellFormed_AddTask (p : ZPBinlogSendTaskPool R F) (t : ZPBinlogSendTask R F)
    (wf : WellFormed p) : WellFormed (AddTask p t).2 := by
  cases hf : idxFind p.task_ptrs_ t.name_ with
  | some h => rw [AddTask_present p t h hf]; exact wf
  | none =>
    rw [AddTask_absent p t hf]
    refine ⟨nodes_nodup_push _ _ wf.nodes, idxSubscript_keys_nodup _ _ _ wf.keys, ?_, ?_⟩
    · intro n h' hf'
      simp only at hf'
      by_cases hn : n = t.name_
      · subst hn
        rw [idxFind_subscript_self] at hf'
        simp only [Option.some.injEq] at hf'
        subst hf'
        exact Or.inr ⟨newNode p.tasks_, t, rfl, by simp, rfl⟩
      · rw [idxFind_subscript_ne _ _ _ _ hn] at hf'
        rcases wf.index_to_queue n h' hf' with h0 | ⟨it, t', h1, h2, h3⟩
        · exact Or.inl h0
        · exact Or.inr ⟨it, t', h1, List.mem_append_left _ h2, h3⟩
    · intro it t' hm
      simp only at hm
      rcases List.mem_append.mp hm with h1 | h1
      · obtain ⟨h0, hf0, hi0⟩ := wf.queue_to_index it t' h1
        have hn : t'.name_ ≠ t.name_ := by
          intro he
          rw [he, hf] at hf0
          cases hf0
        exact ⟨h0, by simp only; rw [idxFind_subscript_ne _ _ _ _ hn]; exact hf0, hi0⟩
      · rw [List.mem_singleton] at h1
        cases h1
        exact ⟨_, by simp only; rw [idxFind_subscript_self], rfl⟩

theorem WellFormed_RemoveTask (p : ZPBinlogSendTaskPool R F) (n : String)
    (wf : WellFormed p) : WellFormed (RemoveTask p n).2 := by
  cases hf : idxFind p.task_ptrs_ n with
  | none => rw [RemoveTask_absent p n hf]; exact wf
  | some h =>
    rw [RemoveTask_present p n h hf]
    cases hi : h.iter with
    | none =>
      refine ⟨wf.nodes, (wf.keys).sublist (idxErase_keys_sublist _ _), ?_, ?_⟩
      · intro m h' hf'
        simp only at hf'
        by_cases hm : m = n
        · subst hm
          rw [idxFind_erase_self] at hf'
          cases hf'
        · rw [idxFind_erase_ne _ _ _ hm] at hf'
          exact wf.index_to_queue m h' hf'
      · intro it t hm
        simp only at hm
        obtain ⟨h0, hf0, hi0⟩ := wf.queue_to_index it t hm
        have hn : t.name_ ≠ n := by
          intro he
          rw [he, hf] at hf0
          cases hf0
          rw [hi] at hi0
          cases hi0
        exact ⟨h0, by simp only; rw [idxFind_erase_ne _ _ _ hn]; exact hf0, hi0⟩
    | some it0 =>
      refine ⟨?_, (wf.keys).sublist (idxErase_keys_sublist _ _), ?_, ?_⟩
      · exact (wf.nodes).sublist ((listErase_sublist p.tasks_ it0).map Prod.fst)
      · intro m h' hf'
        simp only at hf'
        by_cases hm : m = n
        · subst hm
          rw [idxFind_erase_self] at hf'
          cases hf'
        · rw [idxFind_erase_ne _ _ _ hm] at hf'
          rcases wf.index_to_queue m h' hf' with h0 | ⟨it, t', h1, h2, h3⟩
          · exact Or.inl h0
          · refine Or.inr ⟨it, t', h1, ?_, h3⟩
            apply mem_listErase_of_ne _ _ _ h2
            intro he
            simp only at he
            subst he
            rcases wf.index_to_queue n h hf with h4 | ⟨it', t'', h4, h5, h6⟩
            · rw [hi] at h4
              cases h4
            · rw [hi] at h4
              cases h4
              have := node_unique p.tasks_ wf.nodes _ _ h2 h5 rfl
              cases this
              exact hm (h3.symm.trans h6)
      · intro it t hm
        simp only at hm
        have hmem : (it, t) ∈ p.tasks_ := (listErase_sublist p.tasks_ it0).subset hm
        have hne : it ≠ it0 := ne_of_mem_listErase p.tasks_ it0 (it, t) wf.nodes hm
        obtain ⟨h0, hf0, hi0⟩ := wf.queue_to_index it t hmem
        have hn : t.name_ ≠ n := by
          intro he
          rw [he, hf] at hf0
          cases hf0
          rw [hi] at hi0
          cases hi0
          exact hne rfl
        exact ⟨h0, by simp only; rw [idxFind_erase_ne _ _ _ hn]; exact hf0, hi0⟩

theorem WellFormed_FetchOut (p : ZPBinlogSendTaskPool R F) (wf : WellFormed p) :
    WellFormed (FetchOut p).2.2 := by
  cases he : p.tasks_ with
  | nil => rw [FetchOut_empty p he]; exact wf
  | cons x rest =>
    obtain ⟨it0, t0⟩ := x
    rw [FetchOut_front p it0 t0 rest he]
    have hn0 := wf.nodes
    rw [he] at hn0
    simp only [List.map_cons, List.nodup_cons] at hn0
    have hhead : (it0, t0) ∈ p.tasks_ := by rw [he]; exact List.mem_cons_self _ _
    obtain ⟨h0, hf0, hi0⟩ := wf.queue_to_index it0 t0 hhead
    refine ⟨hn0.2, idxSubscript_keys_nodup _ _ _ wf.keys, ?_, ?_⟩
    · intro n h' hf'
      simp only at hf'
      by_cases hn : n = t0.name_
      · subst hn
        rw [idxFind_subscript_self] at hf'
        simp only [Option.some.injEq] at hf'
        subst hf'
        exact Or.inl rfl
      · rw [idxFind_subscript_ne _ _ _ _ hn] at hf'
        rcases wf.index_to_queue n h' hf' with h1 | ⟨it, t', h1, h2, h3⟩
        · exact Or.inl h1
        · refine Or.inr ⟨it, t', h1, ?_, h3⟩
          rw [he] at h2
          rcases List.mem_cons.mp h2 with h4 | h4
          · cases h4
            exact absurd h3.symm hn
          · exact h4
    · intro it t hm
      simp only at hm
      have hmem : (it, t) ∈ p.tasks_ := by rw [he]; exact List.mem_cons_of_mem _ hm
      obtain ⟨h1, hf1, hi1⟩ := wf.queue_to_index it t hmem
      have hn : t.name_ ≠ t0.name_ := by
        intro hc
        rw [hc, hf0] at hf1
        cases hf1
        rw [hi0] at hi1
        cases hi1
        exact hn0.1 (List.mem_map_of_mem Prod.fst hm)
      exact ⟨h1, by simp only; rw [idxFind_subscript_ne _ _ _ _ hn]; exact hf1, hi1⟩

theorem WellFormed_AddNewTask (env : Env R F) (p : ZPBinlogSendTaskPool R F)
    (table_name : String) (id : Int) (binlog_filename : String) (target : Node)
    (ifilenum ioffset : Nat) (force : Bool) (wf : WellFormed p) :
    WellFormed
      (AddNewTask env p table_name id binlog_filename target ifilenum ioffset force).2 := by
  have wf1 : WellFormed { p with next_sequence_ := (p.next_sequence_ + 1) % 2 ^ 64 } :=
    WellFormed_of_eq p _ wf rfl rfl
  unfold AddNewTask
  rcases Create env p.next_sequence_ table_name id binlog_filename target ifilenum
    ioffset with ⟨s, _ | task_ptr⟩
  · exact wf1
  · simp only
    split
    · exact wf1
    · apply WellFormed_AddTask
      split
      · exact WellFormed_RemoveTask _ _ wf1
      · exact wf1

theorem WellFormed_applyOp (p : ZPBinlogSendTaskPool R F) (op : PoolOp R F)
    (wf : WellFormed p) : WellFormed (applyOp p op) := by
  cases op with
  | AddTask task => exact WellFormed_AddTask p task wf
  | AddNewTask env table_name id binlog_filename target ifilenum ioffset force =>
    exact WellFormed_AddNewTask env p table_name id binlog_filename target ifilenum
      ioffset force wf
  | RemoveTask name => exact WellFormed_RemoveTask p name wf
  | FetchOut => exact WellFormed_FetchOut p wf
  | PutBack task => exact WellFormed_PutBack p task wf

theorem WellFormed_runOps (ops : List (PoolOp R F)) :
    ∀ p : ZPBinlogSendTaskPool R F, WellFormed p → WellFormed (runOps p ops) := by
  induction ops with
  | nil => intro p wf; exact wf
  | cons op ops ih =>
    intro p wf
    exact ih (applyOp p op) (WellFormed_applyOp p op wf)

theorem WellFormed_names_nodup (p : ZPBinlogSendTaskPool R F) (wf : WellFormed p) :
    (p.tasks_.map (fun x => x.2.name_)).Nodup := by
  apply List.Nodup.map_on _ (List.Nodup.of_map _ wf.nodes)
  intro x hx y hy hxy
  obtain ⟨h1, hf1, hi1⟩ := wf.queue_to_index x.1 x.2 hx
  obtain ⟨h2, hf2, hi2⟩ := wf.queue_to_index y.1 y.2 hy
  rw [hxy, hf2] at hf1
  cases hf1
  rw [hi2] at hi1
  exact node_unique p.tasks_ wf.nodes x y hx hy (Option.some.inj hi1).symm

/-- C5: in every pool reached from the empty pool by a run of `AddTask`,
`AddNewTask`, `RemoveTask`, `FetchOut` and `PutBack` calls, (i) every entry of the
index has the iterator `tasks_.end()` or one that points to a node of the queue
holding a task of the entry's name, (ii) every node of the queue is pointed to by
the entry under the name of its task, and (iii) no two tasks of the queue share
a name; list nodes have distinct addresses, so that an iterator points to one
node. -/
theorem pool_wellFormed_reachable (ops : List (PoolOp R F)) :
    (∀ n h, idxFind (runOps (ZPBinlogSendTaskPool.init R F) ops).task_ptrs_ n = some h →
      h.iter = none ∨ ∃ it t, h.iter = some it ∧
        (it, t) ∈ (runOps (ZPBinlogSendTaskPool.init R F) ops).tasks_ ∧ t.name_ = n) ∧
    (∀ it t, (it, t) ∈ (runOps (ZPBinlogSendTaskPool.init R F) ops).tasks_ →
      ∃ h, idxFind (runOps (ZPBinlogSendTaskPool.init R F) ops).task_ptrs_ t.name_ = some h ∧
        h.iter = some it) ∧
    ((runOps (ZPBinlogSendTaskPool.init R F) ops).tasks_.map (fun x => x.2.name_)).Nodup ∧
    ((runOps (ZPBinlogSendTaskPool.init R F) ops).tasks_.map Prod.fst).Nodup := by
  have wf := WellFormed_runOps ops (ZPBinlogSendTaskPool.init R F) WellFormed_init
  exact ⟨wf.index_to_queue, wf.queue_to_index, WellFormed_names_nodup _ wf, wf.nodes⟩

/-! ## Sequence numbers and stale handles -/

theorem Status.ok_iff (s : Status) : s.ok = true ↔ s = Status.OK := by
  cases s <;> simp [Status.ok]

theorem Init_name_sequence (env : Env R F) (t : ZPBinlogSendTask R F) :
    (Init env t).2.name_ = t.name_ ∧ (Init env t).2.sequence_ = t.sequence_ := by
  unfold Init
  simp only
  split
  · exact ⟨rfl, rfl⟩
  · split <;> exact ⟨rfl, rfl⟩

theorem Create_some (env : Env R F) (seq : Nat) (table : String) (id : Int)
    (binlog_filename : String) (target : Node) (ifilenum ioffset : Nat) (s : Status)
    (task : ZPBinlogSendTask R F)
    (h : Create env seq table id binlog_filename target ifilenum ioffset = (s, some task)) :
    task.name_ = ZPBinlogSendTaskName table id target ∧ task.sequence_ = seq ∧
      s = Status.OK := by
  unfold Create at h
  simp only at h
  split at h
  · rename_i hok
    simp only [Prod.mk.injEq, Option.some.injEq] at h
    obtain ⟨h1, h2⟩ := h
    have hn := Init_name_sequence env
      (ZPBinlogSendTask.new seq table id binlog_filename target ifilenum ioffset)
    rw [h2] at hn
    rw [h1] at hok
    exact ⟨hn.1, hn.2, (Status.ok_iff s).mp hok⟩
  · simp at h

theorem Create_none (env : Env R F) (seq : Nat) (table : String) (id : Int)
    (binlog_filename : String) (target : Node) (ifilenum ioffset : Nat) (s : Status)
    (h : Create env seq table id binlog_filename target ifilenum ioffset = (s, none)) :
    s ≠ Status.OK := by
  unfold Create at h
  simp only at h
  split at h
  · simp at h
  · rename_i hok
    simp only [Prod.mk.injEq, and_true] at h
    rw [h] at hok
    intro hc
    exact hok ((Status.ok_iff s).mpr hc)

theorem AddNewTask_result (env : Env R F) (p : ZPBinlogSendTaskPool R F)
    (table_name : String) (id : Int) (binlog_filename : String) (target : Node)
    (ifilenum ioffset : Nat) (force : Bool) :
    ((AddNewTask env p table_name id binlog_filename target ifilenum ioffset force).1
        ≠ Status.OK ∧
      (AddNewTask env p table_name id binlog_filename target ifilenum ioffset force).2
        = { p with next_sequence_ := (p.next_sequence_ + 1) % 2 ^ 64 }) ∨
    ((AddNewTask env p table_name id binlog_filename target ifilenum ioffset force).1
        = Status.OK ∧
      ∃ (task : ZPBinlogSendTask R F) (p2 : ZPBinlogSendTaskPool R F),
        task.name_ = ZPBinlogSendTaskName table_name id target ∧
        task.sequence_ = p.next_sequence_ ∧
        (p2 = { p with next_sequence_ := (p.next_sequence_ + 1) % 2 ^ 64 } ∨
          p2 = (RemoveTask { p with next_sequence_ := (p.next_sequence_ + 1) % 2 ^ 64 }
            (ZPBinlogSendTaskName table_name id target)).2) ∧
        idxFind p2.task_ptrs_ (ZPBinlogSendTaskName table_name id target) = none ∧
        (AddNewTask env p table_name id binlog_filename target ifilenum ioffset force).2
          = (AddTask p2 task).2) := by
  unfold AddNewTask
  obtain ⟨p1, hp1⟩ : ∃ p1 : ZPBinlogSendTaskPool R F,
      p1 = { p with next_sequence_ := (p.next_sequence_ + 1) % 2 ^ 64 } := ⟨_, rfl⟩
  have hidx : p1.task_ptrs_ = p.task_ptrs_ := by rw [hp1]
  rw [← hp1]
  rcases hc : Create env p.next_sequence_ table_name id binlog_filename target ifilenum
    ioffset with ⟨s, _ | task⟩
  · exact Or.inl ⟨Create_none env _ _ _ _ _ _ _ s hc, rfl⟩
  · obtain ⟨hname, hseq, hs⟩ := Create_some env _ _ _ _ _ _ _ s task hc
    subst hs
    simp only [Status.ok, Bool.not_true, Bool.false_eq_true, if_false]
    rw [hname]
    by_cases hcond : (force && TaskExist p1 (ZPBinlogSendTaskName table_name id target))
        = true
    · simp only [hcond, if_true]
      have hex : TaskExist p1 (ZPBinlogSendTaskName table_name id target) = true := by
        simp only [Bool.and_eq_true] at hcond
        exact hcond.2
      have hsome : ∃ h, idxFind p1.task_ptrs_ (ZPBinlogSendTaskName table_name id target)
          = some h := by
        unfold TaskExist at hex
        cases hf : idxFind p1.task_ptrs_ (ZPBinlogSendTaskName table_name id target) with
        | none => rw [hf] at hex; cases hex
        | some h => exact ⟨h, rfl⟩
      obtain ⟨h, hf⟩ := hsome
      have hnone : idxFind (RemoveTask p1
          (ZPBinlogSendTaskName table_name id target)).2.task_ptrs_
          (ZPBinlogSendTaskName table_name id target) = none := by
        rw [RemoveTask_present p1 _ h hf]
        exact idxFind_erase_self _ _
      have hn2 : idxFind (RemoveTask p1
          (ZPBinlogSendTaskName table_name id target)).2.task_ptrs_ task.name_ = none := by
        rw [hname]; exact hnone
      refine Or.inr ⟨?_, task, _, hname, hseq, Or.inr rfl, hnone, rfl⟩
      rw [AddTask_absent _ task hn2]
    · have hcond2 : (force && TaskExist p1 (ZPBinlogSendTaskName table_name id target))
          = false := by
        simpa using hcond
      simp only [hcond2, Bool.false_eq_true, if_false]
      cases hf : idxFind p1.task_ptrs_ task.name_ with
      | some h =>
        refine Or.inl ?_
        rw [AddTask_present p1 task h hf]
        exact ⟨fun hc => Status.noConfusion hc, rfl⟩
      | none =>
        refine Or.inr ⟨?_, task, _, hname, hseq, Or.inl rfl, ?_, rfl⟩
        · rw [AddTask_absent p1 task hf]
        · rw [← hname]; exact hf

theorem SeqSub_refl (m : ZPBinlogSendTaskIndex) : SeqSub m m :=
  fun _ h1 hf => ⟨h1, hf, rfl⟩

theorem SeqSub_trans (m2 m1 m : ZPBinlogSendTaskIndex) (h21 : SeqSub m2 m1)
    (h10 : SeqSub m1 m) : SeqSub m2 m := by
  intro n h2 hf
  obtain ⟨h1, hf1, hs1⟩ := h21 n h2 hf
  obtain ⟨h, hf0, hs0⟩ := h10 n h1 hf1
  exact ⟨h, hf0, hs0.trans hs1⟩

theorem SeqSub_erase (m : ZPBinlogSendTaskIndex) (k : String) : SeqSub (idxErase m k) m := by
  intro n h1 hf
  by_cases hn : n = k
  · subst hn
    rw [idxFind_erase_self] at hf
    cases hf
  · rw [idxFind_erase_ne _ _ _ hn] at hf
    exact ⟨h1, hf, rfl⟩

theorem SeqSub_modify (m : ZPBinlogSendTaskIndex) (k : String)
    (f : ZPBinlogSendTaskHandle → ZPBinlogSendTaskHandle)
    (hseq : ∀ h, (f h).sequence = h.sequence) : SeqSub (idxModify m k f) m := by
  intro n h1 hf
  by_cases hn : n = k
  · subst hn
    rw [idxFind_modify_self] at hf
    cases hm : idxFind m n with
    | none => rw [hm] at hf; cases hf
    | some h =>
      rw [hm] at hf
      simp only [Option.map_some', Option.some.injEq] at hf
      subst hf
      exact ⟨h, rfl, (hseq h).symm⟩
  · rw [idxFind_modify_ne _ _ _ _ hn] at hf
    exact ⟨h1, hf, rfl⟩

theorem SeqSub_RemoveTask (p : ZPBinlogSendTaskPool R F) (n : String) :
    SeqSub (RemoveTask p n).2.task_ptrs_ p.task_ptrs_ := by
  cases hf : idxFind p.task_ptrs_ n with
  | none => rw [RemoveTask_absent p n hf]; exact SeqSub_refl _
  | some h => rw [RemoveTask_present p n h hf]; exact SeqSub_erase _ _

theorem tasks_RemoveTask (p : ZPBinlogSendTaskPool R F) (n : String) :
    ∀ x ∈ (RemoveTask p n).2.tasks_, x ∈ p.tasks_ := by
  cases hf : idxFind p.task_ptrs_ n with
  | none => rw [RemoveTask_absent p n hf]; exact fun _ hx => hx
  | some h =>
    rw [RemoveTask_present p n h hf]
    cases hi : h.iter with
    | none => exact fun _ hx => hx
    | some it => exact fun _ hx => (listErase_sublist p.tasks_ it).subset hx

theorem next_RemoveTask (p : ZPBinlogSendTaskPool R F) (n : String) :
    (RemoveTask p n).2.next_sequence_ = p.next_sequence_ := by
  cases hf : idxFind p.task_ptrs_ n with
  | none => rw [RemoveTask_absent p n hf]
  | some h => rw [RemoveTask_present p n h hf]

theorem SeqSub_FetchOut (p : ZPBinlogSendTaskPool R F) (wf : WellFormed p) :
    SeqSub (FetchOut p).2.2.task_ptrs_ p.task_ptrs_ := by
  cases he : p.tasks_ with
  | nil => rw [FetchOut_empty p he]; exact SeqSub_refl _
  | cons x rest =>
    obtain ⟨it0, t0⟩ := x
    rw [FetchOut_front p it0 t0 rest he]
    have hhead : (it0, t0) ∈ p.tasks_ := by rw [he]; exact List.mem_cons_self _ _
    obtain ⟨h0, hf0, _⟩ := wf.queue_to_index it0 t0 hhead
    show SeqSub (idxSubscript p.task_ptrs_ t0.name_ _) p.task_ptrs_
    simp only [idxSubscript, hf0]
    exact SeqSub_modify _ _ _ (fun _ => rfl)

theorem tasks_FetchOut (p : ZPBinlogSendTaskPool R F) :
    ∀ x ∈ (FetchOut p).2.2.tasks_, x ∈ p.tasks_ := by
  cases he : p.tasks_ with
  | nil => rw [FetchOut_empty p he, he]; exact fun _ hx => hx
  | cons x rest =>
    obtain ⟨it0, t0⟩ := x
    rw [FetchOut_front p it0 t0 rest he]
    exact fun _ hx => List.mem_cons_of_mem _ hx

theorem next_FetchOut (p : ZPBinlogSendTaskPool R F) :
    (FetchOut p).2.2.next_sequence_ = p.next_sequence_ := by
  cases he : p.tasks_ with
  | nil => rw [FetchOut_empty p he]
  | cons x rest =>
    obtain ⟨it0, t0⟩ := x
    rw [FetchOut_front p it0 t0 rest he]

theorem SeqSub_PutBack (p : ZPBinlogSendTaskPool R F) (t : ZPBinlogSendTask R F) :
    SeqSub (PutBack p t).2.task_ptrs_ p.task_ptrs_ := by
  cases hf : idxFind p.task_ptrs_ t.name_ with
  | none => rw [PutBack_absent p t hf]; exact SeqSub_refl _
  | some h =>
    by_cases hc : h.iter ≠ none ∨ h.sequence ≠ t.sequence_
    · rw [PutBack_stale p t h hf hc]; exact SeqSub_refl _
    · have hi : h.iter = none := by
        by_contra hne
        exact hc (Or.inl hne)
      have hs : h.sequence = t.sequence_ := by
        by_contra hne
        exact hc (Or.inr hne)
      rw [PutBack_current p t h hf hi hs]
      exact SeqSub_modify _ _ _ (fun _ => rfl)

theorem next_PutBack (p : ZPBinlogSendTaskPool R F) (t : ZPBinlogSendTask R F) :
    (PutBack p t).2.next_sequence_ = p.next_sequence_ := by
  cases hf : idxFind p.task_ptrs_ t.name_ with
  | none => rw [PutBack_absent p t hf]
  | some h =>
    by_cases hc : h.iter ≠ none ∨ h.sequence ≠ t.sequence_
    · rw [PutBack_stale p t h hf hc]
    · have hi : h.iter = none := by
        by_contra hne
        exact hc (Or.inl hne)
      have hs : h.sequence = t.sequence_ := by
        by_contra hne
        exact hc (Or.inr hne)
      rw [PutBack_current p t h hf hi hs]

theorem SeqMatch_PutBack (p : ZPBinlogSendTaskPool R F) (t : ZPBinlogSendTask R F)
    (hq : SeqMatch p) : SeqMatch (PutBack p t).2 := by
  intro it t1 hm h1 hf1
  obtain ⟨h0, hf0, hs0⟩ := SeqSub_PutBack p t t1.name_ h1 hf1
  cases hf : idxFind p.task_ptrs_ t.name_ with
  | none => rw [PutBack_absent p t hf] at hm; rw [← hs0]; exact hq it t1 hm h0 hf0
  | some h =>
    by_cases hc : h.iter ≠ none ∨ h.sequence ≠ t.sequence_
    · rw [PutBack_stale p t h hf hc] at hm; rw [← hs0]; exact hq it t1 hm h0 hf0
    · have hi : h.iter = none := by
        by_contra hne
        exact hc (Or.inl hne)
      have hs : h.sequence = t.sequence_ := by
        by_contra hne
        exact hc (Or.inr hne)
      rw [PutBack_current p t h hf hi hs] at hm
      simp only at hm
      rcases List.mem_append.mp hm with h2 | h2
      · rw [← hs0]; exact hq it t1 h2 h0 hf0
      · rw [List.mem_singleton] at h2
        cases h2
        rw [hf] at hf0
        cases hf0
        rw [← hs0]; exact hs

theorem SeqMatch_of_sub (p q : ZPBinlogSendTaskPool R F) (hq : SeqMatch p)
    (ht : ∀ x ∈ q.tasks_, x ∈ p.tasks_) (hi : SeqSub q.task_ptrs_ p.task_ptrs_) :
    SeqMatch q := by
  intro it t hm h1 hf1
  obtain ⟨h0, hf0, hs0⟩ := hi t.name_ h1 hf1
  rw [← hs0]
  exact hq it t (ht _ hm) h0 hf0

theorem SeqBelow_of_sub (m1 m : ZPBinlogSendTaskIndex) (N : Nat) (hb : SeqBelow m N)
    (hi : SeqSub m1 m) : SeqBelow m1 N := by
  intro n h1 hf1
  obtain ⟨h0, hf0, hs0⟩ := hi n h1 hf1
  rw [← hs0]
  exact hb n h0 hf0

theorem Stale_of_sub (m1 m : ZPBinlogSendTaskIndex) (n : String) (s : Nat)
    (hb : Stale m n s) (hi : SeqSub m1 m) : Stale m1 n s := by
  intro h1 hf1
  obtain ⟨h0, hf0, hs0⟩ := hi n h1 hf1
  rw [← hs0]
  exact hb h0 hf0

theorem idxFind_AddTask_absent (p : ZPBinlogSendTaskPool R F) (t : ZPBinlogSendTask R F)
    (hf : idxFind p.task_ptrs_ t.name_ = none) (n : String) (h1 : ZPBinlogSendTaskHandle)
    (hf1 : idxFind (AddTask p t).2.task_ptrs_ n = some h1) :
    (n = t.name_ ∧ h1.sequence = t.sequence_) ∨ (n ≠ t.name_ ∧ idxFind p.task_ptrs_ n = some h1) := by
  rw [AddTask_absent p t hf] at hf1
  simp only at hf1
  by_cases hn : n = t.name_
  · subst hn
    rw [idxFind_subscript_self] at hf1
    simp only [Option.some.injEq] at hf1
    subst hf1
    exact Or.inl ⟨rfl, rfl⟩
  · rw [idxFind_subscript_ne _ _ _ _ hn] at hf1
    exact Or.inr ⟨hn, hf1⟩

theorem SeqMatch_AddTask_absent (p : ZPBinlogSendTaskPool R F) (t : ZPBinlogSendTask R F)
    (wf : WellFormed p) (hq : SeqMatch p) (hf : idxFind p.task_ptrs_ t.name_ = none) :
    SeqMatch (AddTask p t).2 := by
  intro it t1 hm h1 hf1
  have hm2 : (it, t1) ∈ p.tasks_ ++ [(newNode p.tasks_, t)] := by
    rw [AddTask_absent p t hf] at hm
    exact hm
  rcases idxFind_AddTask_absent p t hf t1.name_ h1 hf1 with ⟨hn, hs⟩ | ⟨hn, hf0⟩
  · rcases List.mem_append.mp hm2 with h2 | h2
    · obtain ⟨h0, hf0, _⟩ := wf.queue_to_index it t1 h2
      rw [hn, hf] at hf0
      cases hf0
    · rw [List.mem_singleton] at h2
      cases h2
      exact hs
  · rcases List.mem_append.mp hm2 with h2 | h2
    · exact hq it t1 h2 h1 hf0
    · rw [List.mem_singleton] at h2
      cases h2
      exact absurd rfl hn

theorem bumped_or_removed (p p2 : ZPBinlogSendTaskPool R F) (N : Nat) (n : String)
    (h2 : p2 = { p with next_sequence_ := N } ∨
      p2 = (RemoveTask { p with next_sequence_ := N } n).2)
    (wf : WellFormed p) (hq : SeqMatch p) :
    WellFormed p2 ∧ SeqMatch p2 ∧ SeqSub p2.task_ptrs_ p.task_ptrs_ ∧
      p2.next_sequence_ = N := by
  have wf1 : WellFormed { p with next_sequence_ := N } := WellFormed_of_eq p _ wf rfl rfl
  have hq1 : SeqMatch { p with next_sequence_ := N } := hq
  rcases h2 with h2 | h2
  · subst h2
    exact ⟨wf1, hq1, SeqSub_refl _, rfl⟩
  · subst h2
    exact ⟨WellFormed_RemoveTask _ _ wf1,
      SeqMatch_of_sub _ _ hq1 (tasks_RemoveTask _ _) (SeqSub_RemoveTask _ _),
      SeqSub_RemoveTask _ _, next_RemoveTask _ _⟩

theorem next_AddTask (p : ZPBinlogSendTaskPool R F) (t : ZPBinlogSendTask R F) :
    (AddTask p t).2.next_sequence_ = p.next_sequence_ := by
  cases hf : idxFind p.task_ptrs_ t.name_ with
  | none => rw [AddTask_absent p t hf]
  | some h => rw [AddTask_present p t h hf]

theorem next_AddNewTask (env : Env R F) (p : ZPBinlogSendTaskPool R F)
    (table_name : String) (id : Int) (binlog_filename : String) (target : Node)
    (ifilenum ioffset : Nat) (force : Bool) :
    (AddNewTask env p table_name id binlog_filename target ifilenum ioffset
      force).2.next_sequence_ = (p.next_sequence_ + 1) % 2 ^ 64 := by
  rcases AddNewTask_result env p table_name id binlog_filename target ifilenum ioffset
    force with ⟨_, h⟩ | ⟨_, task, p2, _, _, h2, _, h⟩
  · rw [h]
  · rw [h, next_AddTask]
    rcases h2 with h2 | h2
    · rw [h2]
    · rw [h2, next_RemoveTask]

theorem idxFind_AddNewTask (env : Env R F) (p : ZPBinlogSendTaskPool R F)
    (table_name : String) (id : Int) (binlog_filename : String) (target : Node)
    (ifilenum ioffset : Nat) (force : Bool) (n : String) (h1 : ZPBinlogSendTaskHandle)
    (hf1 : idxFind (AddNewTask env p table_name id binlog_filename target ifilenum
      ioffset force).2.task_ptrs_ n = some h1) :
    ((AddNewTask env p table_name id binlog_filename target ifilenum ioffset force).1
        = Status.OK ∧
      n = ZPBinlogSendTaskName table_name id target ∧ h1.sequence = p.next_sequence_) ∨
    (((AddNewTask env p table_name id binlog_filename target ifilenum ioffset force).1
        = Status.OK → n ≠ ZPBinlogSendTaskName table_name id target) ∧
      ∃ h, idxFind p.task_ptrs_ n = some h ∧ h.sequence = h1.sequence) := by
  rcases AddNewTask_result env p table_name id binlog_filename target ifilenum ioffset
    force with ⟨hs, h⟩ | ⟨hs, task, p2, hname, hseq, h2, hnone, h⟩
  · rw [h] at hf1
    exact Or.inr ⟨fun hc => absurd hc hs, h1, hf1, rfl⟩
  · rw [h] at hf1
    have hsub : SeqSub p2.task_ptrs_ p.task_ptrs_ := by
      rcases h2 with h2 | h2
      · rw [h2]; exact SeqSub_refl _
      · rw [h2]; exact SeqSub_RemoveTask _ _
    have hnone2 : idxFind p2.task_ptrs_ task.name_ = none := by rw [hname]; exact hnone
    rcases idxFind_AddTask_absent p2 task hnone2 n h1 hf1 with ⟨hn, hs1⟩ | ⟨hn, hf0⟩
    · exact Or.inl ⟨hs, hn.trans hname, hs1.trans hseq⟩
    · exact Or.inr ⟨fun _ => by rw [← hname]; exact hn, hsub n h1 hf0⟩

theorem SeqMatch_AddNewTask (env : Env R F) (p : ZPBinlogSendTaskPool R F)
    (table_name : String) (id : Int) (binlog_filename : String) (target : Node)
    (ifilenum ioffset : Nat) (force : Bool) (wf : WellFormed p) (hq : SeqMatch p) :
    SeqMatch (AddNewTask env p table_name id binlog_filename target ifilenum ioffset
      force).2 := by
  rcases AddNewTask_result env p table_name id binlog_filename target ifilenum ioffset
    force with ⟨_, h⟩ | ⟨_, task, p2, hname, _, h2, hnone, h⟩
  · rw [h]; exact hq
  · rw [h]
    obtain ⟨wf2, hq2, _, _⟩ := bumped_or_removed p p2 _ _ h2 wf hq
    have hnone2 : idxFind p2.task_ptrs_ task.name_ = none := by rw [hname]; exact hnone
    exact SeqMatch_AddTask_absent p2 task wf2 hq2 hnone2

theorem wrap_succ (a k : Nat) (ha : a ≤ k) (hk : k + 1 < 2 ^ 64) :
    (a + 1) % 2 ^ 64 = a + 1 :=
  Nat.mod_eq_of_lt (lt_of_le_of_lt (Nat.succ_le_succ ha) hk)

theorem SeqInv_applyOp (p : ZPBinlogSendTaskPool R F) (k : Nat) (op : PoolOp R F)
    (inv : SeqInv p k) (hk : k + 1 < 2 ^ 64) (hraw : rawAdd op = false) :
    SeqInv (applyOp p op) (k + 1) := by
  refine ⟨WellFormed_applyOp p op inv.wf, ?_, ?_, ?_⟩
  · cases op with
    | AddTask task => cases hraw
    | AddNewTask env table_name id binlog_filename target ifilenum ioffset force =>
      show SeqBelow (AddNewTask env p table_name id binlog_filename target ifilenum ioffset
        force).2.task_ptrs_ (AddNewTask env p table_name id binlog_filename target ifilenum
        ioffset force).2.next_sequence_
      rw [next_AddNewTask, wrap_succ _ k inv.count hk]
      intro n h1 hf1
      rcases idxFind_AddNewTask env p _ _ _ _ _ _ _ n h1 hf1 with ⟨_, _, hs⟩ | ⟨_, h, hf, hs⟩
      · rw [hs]; exact Nat.lt_succ_self _
      · rw [← hs]; exact Nat.lt_succ_of_lt (inv.below n h hf)
    | RemoveTask name =>
      show SeqBelow (RemoveTask p name).2.task_ptrs_ (RemoveTask p name).2.next_sequence_
      rw [next_RemoveTask]
      exact SeqBelow_of_sub _ _ _ inv.below (SeqSub_RemoveTask p name)
    | FetchOut =>
      show SeqBelow (FetchOut p).2.2.task_ptrs_ (FetchOut p).2.2.next_sequence_
      rw [next_FetchOut]
      exact SeqBelow_of_sub _ _ _ inv.below (SeqSub_FetchOut p inv.wf)
    | PutBack task =>
      show SeqBelow (PutBack p task).2.task_ptrs_ (PutBack p task).2.next_sequence_
      rw [next_PutBack]
      exact SeqBelow_of_sub _ _ _ inv.below (SeqSub_PutBack p task)
  · cases op with
    | AddTask task => cases hraw
    | AddNewTask env table_name id binlog_filename target ifilenum ioffset force =>
      exact SeqMatch_AddNewTask env p _ _ _ _ _ _ _ inv.wf inv.queued
    | RemoveTask name =>
      exact SeqMatch_of_sub p _ inv.queued (tasks_RemoveTask p name) (SeqSub_RemoveTask p name)
    | FetchOut =>
      exact SeqMatch_of_sub p _ inv.queued (tasks_FetchOut p) (SeqSub_FetchOut p inv.wf)
    | PutBack task => exact SeqMatch_PutBack p task inv.queued
  · cases op with
    | AddTask task => cases hraw
    | AddNewTask env table_name id binlog_filename target ifilenum ioffset force =>
      show (AddNewTask env p table_name id binlog_filename target ifilenum ioffset
        force).2.next_sequence_ ≤ k + 1
      rw [next_AddNewTask, wrap_succ _ k inv.count hk]
      exact Nat.succ_le_succ inv.count
    | RemoveTask name =>
      show (RemoveTask p name).2.next_sequence_ ≤ k + 1
      rw [next_RemoveTask]
      exact Nat.le_succ_of_le inv.count
    | FetchOut =>
      show (FetchOut p).2.2.next_sequence_ ≤ k + 1
      rw [next_FetchOut]
      exact Nat.le_succ_of_le inv.count
    | PutBack task =>
      show (PutBack p task).2.next_sequence_ ≤ k + 1
      rw [next_PutBack]
      exact Nat.le_succ_of_le inv.count

theorem next_le_applyOp (p : ZPBinlogSendTaskPool R F) (k : Nat) (op : PoolOp R F)
    (inv : SeqInv p k) (hk : k + 1 < 2 ^ 64) (hraw : rawAdd op = false) :
    p.next_sequence_ ≤ (applyOp p op).next_sequence_ := by
  cases op with
  | AddTask task => cases hraw
  | AddNewTask env table_name id binlog_filename target ifilenum ioffset force =>
    show p.next_sequence_ ≤ (AddNewTask env p table_name id binlog_filename target ifilenum
      ioffset force).2.next_sequence_
    rw [next_AddNewTask, wrap_succ _ k inv.count hk]
    exact Nat.le_succ _
  | RemoveTask name =>
    show p.next_sequence_ ≤ (RemoveTask p name).2.next_sequence_
    rw [next_RemoveTask]
  | FetchOut =>
    show p.next_sequence_ ≤ (FetchOut p).2.2.next_sequence_
    rw [next_FetchOut]
  | PutBack task =>
    show p.next_sequence_ ≤ (PutBack p task).2.next_sequence_
    rw [next_PutBack]

theorem Stale_applyOp (p : ZPBinlogSendTaskPool R F) (k : Nat) (op : PoolOp R F)
    (inv : SeqInv p k) (hraw : rawAdd op = false) (n : String) (s : Nat)
    (hs : s < p.next_sequence_) (hst : Stale p.task_ptrs_ n s) :
    Stale (applyOp p op).task_ptrs_ n s := by
  cases op with
  | AddTask task => cases hraw
  | AddNewTask env table_name id binlog_filename target ifilenum ioffset force =>
    intro h1 hf1
    rcases idxFind_AddNewTask env p _ _ _ _ _ _ _ n h1 hf1 with ⟨_, _, hs1⟩ | ⟨_, h, hf, hs1⟩
    · rw [hs1]; exact hs
    · rw [← hs1]; exact hst h hf
  | RemoveTask name => exact Stale_of_sub _ _ n s hst (SeqSub_RemoveTask p name)
  | FetchOut => exact Stale_of_sub _ _ n s hst (SeqSub_FetchOut p inv.wf)
  | PutBack task => exact Stale_of_sub _ _ n s hst (SeqSub_PutBack p task)

theorem Stale_of_displaces (p : ZPBinlogSendTaskPool R F) (op : PoolOp R F) (n : String)
    (s : Nat) (hs : s < p.next_sequence_) (hd : displaces p op n) :
    Stale (applyOp p op).task_ptrs_ n s := by
  cases op with
  | AddTask task => cases hd
  | FetchOut => cases hd
  | PutBack task => cases hd
  | RemoveTask name =>
    have hn : name = n := hd
    subst hn
    intro h1 hf1
    have hf2 : idxFind (RemoveTask p name).2.task_ptrs_ name = some h1 := hf1
    cases hf : idxFind p.task_ptrs_ name with
    | none =>
      rw [RemoveTask_absent p name hf, hf] at hf2
      cases hf2
    | some h =>
      rw [RemoveTask_present p name h hf] at hf2
      simp only [idxFind_erase_self] at hf2
      cases hf2
  | AddNewTask env table_name id binlog_filename target ifilenum ioffset force =>
    obtain ⟨hn, hok⟩ := hd
    intro h1 hf1
    rcases idxFind_AddNewTask env p _ _ _ _ _ _ _ n h1 hf1 with ⟨_, _, hs1⟩ | ⟨hne, _⟩
    · rw [hs1]; exact hs
    · exact absurd hn.symm (hne hok)

theorem PutBack_of_Stale (p : ZPBinlogSendTaskPool R F) (t : ZPBinlogSendTask R F)
    (hst : Stale p.task_ptrs_ t.name_ t.sequence_) : PutBack p t = (Status.NotFound, p) := by
  cases hf : idxFind p.task_ptrs_ t.name_ with
  | none => exact PutBack_absent p t hf
  | some h =>
    exact PutBack_stale p t h hf (Or.inr (Nat.ne_of_gt (hst h hf)))

theorem runOps_cons (p : ZPBinlogSendTaskPool R F) (op : PoolOp R F)
    (ops : List (PoolOp R F)) : runOps p (op :: ops) = runOps (applyOp p op) ops := rfl

theorem runOps_append (p : ZPBinlogSendTaskPool R F) (a b : List (PoolOp R F)) :
    runOps p (a ++ b) = runOps (runOps p a) b := by
  unfold runOps
  exact List.foldl_append _ _ _ _

theorem SeqInv_init : SeqInv (ZPBinlogSendTaskPool.init R F) 0 where
  wf := WellFormed_init
  below := by
    intro n h hf
    cases hf
  queued := by
    intro it t hm
    cases hm
  count := Nat.le_refl 0

theorem SeqInv_runOps (ops : List (PoolOp R F)) :
    ∀ (p : ZPBinlogSendTaskPool R F) (k : Nat), SeqInv p k → k + ops.length < 2 ^ 64 →
      (∀ o ∈ ops, rawAdd o = false) → SeqInv (runOps p ops) (k + ops.length) := by
  induction ops with
  | nil => intro p k inv _ _; exact inv
  | cons op ops ih =>
    intro p k inv hk hraw
    have hlen : (op :: ops).length = ops.length + 1 := rfl
    rw [hlen] at hk
    have h1 := SeqInv_applyOp p k op inv (by omega) (hraw op (List.mem_cons_self _ _))
    have h2 := ih (applyOp p op) (k + 1) h1 (by omega)
      (fun o ho => hraw o (List.mem_cons_of_mem _ ho))
    rw [runOps_cons, hlen]
    have he : k + (ops.length + 1) = k + 1 + ops.length := by omega
    rw [he]
    exact h2

theorem next_le_runOps (ops : List (PoolOp R F)) :
    ∀ (p : ZPBinlogSendTaskPool R F) (k : Nat), SeqInv p k → k + ops.length < 2 ^ 64 →
      (∀ o ∈ ops, rawAdd o = false) →
      p.next_sequence_ ≤ (runOps p ops).next_sequence_ := by
  induction ops with
  | nil => intro p k _ _ _; exact Nat.le_refl _
  | cons op ops ih =>
    intro p k inv hk hraw
    have hlen : (op :: ops).length = ops.length + 1 := rfl
    rw [hlen] at hk
    have hr := hraw op (List.mem_cons_self _ _)
    have h1 := SeqInv_applyOp p k op inv (by omega) hr
    have h2 := ih (applyOp p op) (k + 1) h1 (by omega)
      (fun o ho => hraw o (List.mem_cons_of_mem _ ho))
    rw [runOps_cons]
    exact Nat.le_trans (next_le_applyOp p k op inv (by omega) hr) h2

theorem Stale_runOps (ops : List (PoolOp R F)) (n : String) (s : Nat) :
    ∀ (p : ZPBinlogSendTaskPool R F) (k : Nat), SeqInv p k → k + ops.length < 2 ^ 64 →
      (∀ o ∈ ops, rawAdd o = false) → s < p.next_sequence_ →
      Stale p.task_ptrs_ n s → Stale (runOps p ops).task_ptrs_ n s := by
  induction ops with
  | nil => intro p k _ _ _ _ hst; exact hst
  | cons op ops ih =>
    intro p k inv hk hraw hs hst
    have hlen : (op :: ops).length = ops.length + 1 := rfl
    rw [hlen] at hk
    have hr := hraw op (List.mem_cons_self _ _)
    have h1 := SeqInv_applyOp p k op inv (by omega) hr
    rw [runOps_cons]
    exact ih (applyOp p op) (k + 1) h1 (by omega)
      (fun o ho => hraw o (List.mem_cons_of_mem _ ho))
      (lt_of_lt_of_le hs (next_le_applyOp p k op inv (by omega) hr))
      (Stale_applyOp p k op inv hr n s hs hst)

theorem lastAdded_runOps (ops : List (PoolOp R F)) :
    ∀ (p : ZPBinlogSendTaskPool R F) (g : String → Option Nat), WellFormed p →
      (∀ n h, idxFind p.task_ptrs_ n = some h → g n = some h.sequence) →
      (∀ o ∈ ops, rawAdd o = false) →
      ∀ n h, idxFind (runOps p ops).task_ptrs_ n = some h →
        lastAdded p ops g n = some h.sequence := by
  induction ops with
  | nil => intro p g _ hg _ n h hf; exact hg n h hf
  | cons op ops ih =>
    intro p g wf hg hraw
    have hr := hraw op (List.mem_cons_self _ _)
    have hsub : ∀ q : ZPBinlogSendTaskPool R F, SeqSub q.task_ptrs_ p.task_ptrs_ →
        ∀ n h, idxFind q.task_ptrs_ n = some h → g n = some h.sequence := by
      intro q hq n h hf
      obtain ⟨h0, hf0, hs0⟩ := hq n h hf
      rw [← hs0]
      exact hg n h0 hf0
    apply ih (applyOp p op) (noteAdded p op g) (WellFormed_applyOp p op wf) _
      (fun o ho => hraw o (List.mem_cons_of_mem _ ho))
    cases op with
    | AddTask task => cases hr
    | RemoveTask name => exact hsub _ (SeqSub_RemoveTask p name)
    | FetchOut => exact hsub _ (SeqSub_FetchOut p wf)
    | PutBack task => exact hsub _ (SeqSub_PutBack p task)
    | AddNewTask env table_name id binlog_filename target ifilenum ioffset force =>
      intro n h1 hf1
      have hf2 : idxFind (AddNewTask env p table_name id binlog_filename target ifilenum
        ioffset force).2.task_ptrs_ n = some h1 := hf1
      simp only [noteAdded]
      rcases idxFind_AddNewTask env p _ _ _ _ _ _ _ n h1 hf2 with
        ⟨hok, hn, hs1⟩ | ⟨hne, h, hf, hs1⟩
      · rw [if_pos hok]
        simp only [hn, if_true, hs1]
      · by_cases hok : (AddNewTask env p table_name id binlog_filename target ifilenum
            ioffset force).1 = Status.OK
        · rw [if_pos hok]
          simp only [hne hok, if_false]
          rw [← hs1]
          exact hg n h hf
        · rw [if_neg hok, ← hs1]
          exact hg n h hf

/-- C6: in a run of pool calls from the empty pool in which `AddNewTask` allocates
the sequence numbers (fewer than `2^64` calls), let `t` be fetched out and let a
later call be `RemoveTask` of the name of `t`, or an `AddNewTask` that answers `OK`
and adds a task of that name; then, whatever calls follow, `PutBack` of the handle
(its name and sequence number are those of `t`) answers `NotFound` and leaves the
pool as it was.  And in every such run, the sequence number of every index entry
is that of the task most recently created and added under the entry's name. -/
theorem stale_PutBack_rejected :
    (∀ (ops1 a b : List (PoolOp R F)) (op : PoolOp R F) (t t1 : ZPBinlogSendTask R F)
        (p1 : ZPBinlogSendTaskPool R F),
      (∀ o ∈ ops1 ++ a ++ op :: b, rawAdd o = false) →
      ops1.length + a.length + b.length + 2 < 2 ^ 64 →
      FetchOut (runOps (ZPBinlogSendTaskPool.init R F) ops1) = (Status.OK, some t, p1) →
      displaces (runOps p1 a) op t.name_ →
      t1.name_ = t.name_ → t1.sequence_ = t.sequence_ →
      PutBack (runOps p1 (a ++ op :: b)) t1
        = (Status.NotFound, runOps p1 (a ++ op :: b))) ∧
    (∀ (ops : List (PoolOp R F)), (∀ o ∈ ops, rawAdd o = false) →
      ∀ n h, idxFind (runOps (ZPBinlogSendTaskPool.init R F) ops).task_ptrs_ n = some h →
        lastAdded (ZPBinlogSendTaskPool.init R F) ops (fun _ => none) n
          = some h.sequence) := by
  constructor
  · intro ops1 a b op t t1 p1 hraw hlen hfetch hdis hname hseq
    have hraw1 : ∀ o ∈ ops1, rawAdd o = false := fun o ho =>
      hraw o (List.mem_append_left _ (List.mem_append_left _ ho))
    have hrawa : ∀ o ∈ a, rawAdd o = false := fun o ho =>
      hraw o (List.mem_append_left _ (List.mem_append_right _ ho))
    have hrawop : rawAdd op = false :=
      hraw op (List.mem_append_right _ (List.mem_cons_self _ _))
    have hrawb : ∀ o ∈ b, rawAdd o = false := fun o ho =>
      hraw o (List.mem_append_right _ (List.mem_cons_of_mem _ ho))
    have inv0 := SeqInv_runOps ops1 (ZPBinlogSendTaskPool.init R F) 0 SeqInv_init
      (by omega) hraw1
    obtain ⟨p0, hp0⟩ : ∃ p0, p0 = runOps (ZPBinlogSendTaskPool.init R F) ops1 := ⟨_, rfl⟩
    rw [← hp0] at inv0 hfetch
    have hp1 : p1 = applyOp p0 PoolOp.FetchOut := by
      show p1 = (FetchOut p0).2.2
      rw [hfetch]
    have hs : t.sequence_ < p0.next_sequence_ := by
      cases he : p0.tasks_ with
      | nil =>
        rw [FetchOut_empty p0 he] at hfetch
        cases hfetch
      | cons x rest =>
        obtain ⟨it0, t0⟩ := x
        rw [FetchOut_front p0 it0 t0 rest he] at hfetch
        simp only [Prod.mk.injEq, Option.some.injEq, true_and] at hfetch
        obtain ⟨ht, _⟩ := hfetch
        subst ht
        have hhead : (it0, t0) ∈ p0.tasks_ := by rw [he]; exact List.mem_cons_self _ _
        obtain ⟨h0, hf0, _⟩ := inv0.wf.queue_to_index it0 t0 hhead
        rw [← inv0.queued it0 t0 hhead h0 hf0]
        exact inv0.below _ h0 hf0
    have inv1 : SeqInv p1 (0 + ops1.length + 1) := by
      rw [hp1]
      exact SeqInv_applyOp p0 _ PoolOp.FetchOut inv0 (by omega) rfl
    have hs1 : t.sequence_ < p1.next_sequence_ := by
      rw [hp1]
      exact lt_of_lt_of_le hs (next_le_applyOp p0 _ PoolOp.FetchOut inv0 (by omega) rfl)
    have inva := SeqInv_runOps a p1 _ inv1 (by omega) hrawa
    have hsa : t.sequence_ < (runOps p1 a).next_sequence_ :=
      lt_of_lt_of_le hs1 (next_le_runOps a p1 _ inv1 (by omega) hrawa)
    have hst := Stale_of_displaces (runOps p1 a) op t.name_ t.sequence_ hsa hdis
    have invo := SeqInv_applyOp (runOps p1 a) _ op inva (by omega) hrawop
    have hso : t.sequence_ < (applyOp (runOps p1 a) op).next_sequence_ :=
      lt_of_lt_of_le hsa (next_le_applyOp (runOps p1 a) _ op inva (by omega) hrawop)
    have hfin := Stale_runOps b t.name_ t.sequence_ (applyOp (runOps p1 a) op) _ invo
      (by omega) hrawb hso hst
    have hrun : runOps p1 (a ++ op :: b) = runOps (applyOp (runOps p1 a) op) b := by
      rw [runOps_append, runOps_cons]
    rw [hrun]
    apply PutBack_of_Stale
    rw [hname, hseq]
    exact hfin
  · intro ops hraw n h hf
    exact lastAdded_runOps ops (ZPBinlogSendTaskPool.init R F) (fun _ => none)
      WellFormed_init (fun n h hf => by cases hf) hraw n h hf

/-- Witness of C6: a task is created and fetched out, a forced `AddNewTask` then
replaces it and the new task is fetched out in turn; putting the old handle back
is refused, and the index holds the sequence number of the new task. -/
theorem stale_PutBack_rejected_witness :
    PutBack (runOps (FetchOut (runOps (ZPBinlogSendTaskPool.init Nat Nat)
        [sampleAdd 0 false])).2.2 ([] ++ sampleAdd 5 true :: [PoolOp.FetchOut]))
        (sampleCreated 0 3)
      = (Status.NotFound, runOps (FetchOut (runOps (ZPBinlogSendTaskPool.init Nat Nat)
        [sampleAdd 0 false])).2.2 ([] ++ sampleAdd 5 true :: [PoolOp.FetchOut])) ∧
    lastAdded (ZPBinlogSendTaskPool.init Nat Nat)
        [sampleAdd 0 false, PoolOp.FetchOut, sampleAdd 5 true] (fun _ => none) "t_0_h_1"
      = some 1 := by
  constructor
  · refine stale_PutBack_rejected.1 [sampleAdd 0 false] [] [PoolOp.FetchOut]
      (sampleAdd 5 true) (sampleCreated 0 0) (sampleCreated 0 3) _ ?_ ?_ ?_ ?_ rfl rfl
    · intro o ho
      simp only [List.append_nil, List.cons_append, List.nil_append, List.mem_cons,
        List.mem_singleton, List.not_mem_nil, or_false] at ho
      rcases ho with h | h | h <;> subst h <;> rfl
    · simp only [List.length_cons, List.length_nil]
      norm_num
    · rfl
    · exact ⟨rfl, rfl⟩
  · exact stale_PutBack_rejected.2 [sampleAdd 0 false, PoolOp.FetchOut, sampleAdd 5 true]
      (by
        intro o ho
        simp only [List.mem_cons, List.mem_singleton, List.not_mem_nil, or_false] at ho
        rcases ho with h | h | h <;> subst h <;> rfl)
      "t_0_h_1" { iter := some 0, sequence := 1, filenum_snap := 5 } rfl

/-! ## One call of `ProcessTask` -/

theorem consumeOrSkip_status (env : Env R F) (rd : R) :
    (consumeOrSkip env rd).status = (env.Consume rd).status := by
  unfold consumeOrSkip
  simp only
  split
  · rfl
  · split
    · rfl
    · split <;> rfl

theorem consumeOrSkip_payload (env : Env R F) (rd : R) :
    (consumeOrSkip env rd).payload = (env.Consume rd).payload := by
  unfold consumeOrSkip
  simp only
  split
  · rfl
  · split
    · rfl
    · split <;> rfl

theorem consumeOrSkip_len (env : Env R F) (rd : R) :
    (consumeOrSkip env rd).consume_len =
      if (env.Consume rd).status = Status.EndFile ∨ (env.Consume rd).status = Status.Incomplete
          ∨ (env.Consume rd).status = Status.OK
      then (env.Consume rd).consume_len
      else (env.SkipNextBlock (env.Consume rd).reader (env.Consume rd).consume_len).1 := by
  unfold consumeOrSkip
  cases h : (env.Consume rd).status <;>
    simp [Status.IsEndFile, Status.IsIncomplete, Status.ok, h]

theorem ProcessTaskBody_no_reader (env : Env R F) (t : ZPBinlogSendTask R F)
    (h : t.reader_ = none ∨ t.queue_ = none) :
    ProcessTaskBody env t = Outcome.ret Status.InvalidArgument t := by
  unfold ProcessTaskBody
  rcases h with h | h
  · rw [h]
  · rw [h]
    cases t.reader_ <;> rfl

theorem ProcessTaskBody_no_partition (env : Env R F) (t : ZPBinlogSendTask R F)
    (h : env.GetTablePartitionById t.table_name_ t.partition_id_ = none) :
    ProcessTaskBody env t = Outcome.ret Status.InvalidArgument t := by
  unfold ProcessTaskBody
  cases t.reader_ <;> cases t.queue_ <;> simp [h]

theorem ProcessTaskBody_closed (env : Env R F) (t : ZPBinlogSendTask R F)
    (part : Partition)
    (hp : env.GetTablePartitionById t.table_name_ t.partition_id_ = some part)
    (ho : part.opened = false) :
    ProcessTaskBody env t = Outcome.ret Status.InvalidArgument t := by
  unfold ProcessTaskBody
  cases t.reader_ <;> cases t.queue_ <;> simp [hp, ho]

theorem ProcessTaskBody_at_end (env : Env R F) (t : ZPBinlogSendTask R F) (rd : R) (q : F)
    (part : Partition) (hr : t.reader_ = some rd) (hq : t.queue_ = some q)
    (hp : env.GetTablePartitionById t.table_name_ t.partition_id_ = some part)
    (ho : part.opened = true)
    (he : t.filenum_ = part.boffset.filenum ∧ t.offset_ = part.boffset.offset) :
    ProcessTaskBody env t = Outcome.ret Status.EndFile t := by
  unfold ProcessTaskBody
  simp [hr, hq, hp, ho, he]

theorem ProcessTaskBody_advance (env : Env R F) (t : ZPBinlogSendTask R F) (rd : R) (q : F)
    (part : Partition) (hr : t.reader_ = some rd) (hq : t.queue_ = some q)
    (hp : env.GetTablePartitionById t.table_name_ t.partition_id_ = some part)
    (ho : part.opened = true)
    (hne : ¬ (t.filenum_ = part.boffset.filenum ∧ t.offset_ = part.boffset.offset))
    (hs : (env.Consume rd).status ≠ Status.EndFile) :
    ProcessTaskBody env t = Outcome.ret Status.OK
      { t with
        pre_filenum_ := t.filenum_
        pre_offset_ := t.offset_
        pre_content_ := (env.Consume rd).payload
        reader_ := some (consumeOrSkip env rd).reader
        pre_has_content_ := (env.Consume rd).status.ok
        offset_ := (t.offset_ + (consumeOrSkip env rd).consume_len) % 2 ^ 64 } := by
  have hs2 : (env.Consume rd).status.IsEndFile = false := by
    cases h : (env.Consume rd).status <;> simp_all [Status.IsEndFile]
  unfold ProcessTaskBody
  simp [hr, hq, hp, ho, hne, RecordPreOffset, consumeOrSkip_status, consumeOrSkip_payload,
    hs2]

theorem consumeOrSkip_of_EndFile (env : Env R F) (rd : R)
    (hs : (env.Consume rd).status = Status.EndFile) :
    consumeOrSkip env rd = env.Consume rd := by
  unfold consumeOrSkip
  simp [hs, Status.IsEndFile]

theorem ProcessTaskBody_absent (env : Env R F) (t : ZPBinlogSendTask R F) (rd : R) (q : F)
    (part : Partition) (hr : t.reader_ = some rd) (hq : t.queue_ = some q)
    (hp : env.GetTablePartitionById t.table_name_ t.partition_id_ = some part)
    (ho : part.opened = true)
    (hne : ¬ (t.filenum_ = part.boffset.filenum ∧ t.offset_ = part.boffset.offset))
    (hs : (env.Consume rd).status = Status.EndFile)
    (hx : env.FileExists (env.NewFileName t.binlog_filename_ ((t.filenum_ + 1) % 2 ^ 32))
      = false) :
    ProcessTaskBody env t = Outcome.ret Status.EndFile
      { t with
        pre_filenum_ := t.filenum_
        pre_offset_ := t.offset_
        pre_content_ := (env.Consume rd).payload
        reader_ := some (env.Consume rd).reader } := by
  rw [show (2 : Nat) ^ 32 = 4294967296 by norm_num] at hx
  unfold ProcessTaskBody
  simp [hr, hq, hp, ho, hne, RecordPreOffset, consumeOrSkip_of_EndFile env rd hs, hs,
    Status.IsEndFile, hx]

theorem ProcessTaskBody_open_failed (env : Env R F) (t : ZPBinlogSendTask R F) (rd : R)
    (q : F) (part : Partition) (hr : t.reader_ = some rd) (hq : t.queue_ = some q)
    (hp : env.GetTablePartitionById t.table_name_ t.partition_id_ = some part)
    (ho : part.opened = true)
    (hne : ¬ (t.filenum_ = part.boffset.filenum ∧ t.offset_ = part.boffset.offset))
    (hs : (env.Consume rd).status = Status.EndFile)
    (hx : env.FileExists (env.NewFileName t.binlog_filename_ ((t.filenum_ + 1) % 2 ^ 32))
      = true)
    (hf : (env.NewSequentialFile
      (env.NewFileName t.binlog_filename_ ((t.filenum_ + 1) % 2 ^ 32))).1.ok = false) :
    ProcessTaskBody env t = Outcome.ret
      (env.NewSequentialFile
        (env.NewFileName t.binlog_filename_ ((t.filenum_ + 1) % 2 ^ 32))).1
      { t with
        pre_filenum_ := t.filenum_
        pre_offset_ := t.offset_
        pre_content_ := (env.Consume rd).payload
        reader_ := none
        queue_ := (env.NewSequentialFile
          (env.NewFileName t.binlog_filename_ ((t.filenum_ + 1) % 2 ^ 32))).2 } := by
  rw [show (2 : Nat) ^ 32 = 4294967296 by norm_num] at hx hf
  unfold ProcessTaskBody
  simp [hr, hq, hp, ho, hne, RecordPreOffset, consumeOrSkip_of_EndFile env rd hs, hs,
    Status.IsEndFile, hx, hf]

theorem ProcessTaskBody_roll (env : Env R F) (t : ZPBinlogSendTask R F) (rd : R)
    (q : F) (part : Partition) (hr : t.reader_ = some rd) (hq : t.queue_ = some q)
    (hp : env.GetTablePartitionById t.table_name_ t.partition_id_ = some part)
    (ho : part.opened = true)
    (hne : ¬ (t.filenum_ = part.boffset.filenum ∧ t.offset_ = part.boffset.offset))
    (hs : (env.Consume rd).status = Status.EndFile)
    (hx : env.FileExists (env.NewFileName t.binlog_filename_ ((t.filenum_ + 1) % 2 ^ 32))
      = true)
    (hf : (env.NewSequentialFile
      (env.NewFileName t.binlog_filename_ ((t.filenum_ + 1) % 2 ^ 32))).1.ok = true) :
    ProcessTaskBody env t = Outcome.recurse
      { t with
        pre_filenum_ := t.filenum_
        pre_offset_ := t.offset_
        pre_content_ := (env.Consume rd).payload
        queue_ := (env.NewSequentialFile
          (env.NewFileName t.binlog_filename_ ((t.filenum_ + 1) % 2 ^ 32))).2
        reader_ := some (env.BinlogReader (env.NewSequentialFile
          (env.NewFileName t.binlog_filename_ ((t.filenum_ + 1) % 2 ^ 32))).2)
        filenum_ := (t.filenum_ + 1) % 2 ^ 32
        offset_ := 0 } := by
  rw [show (2 : Nat) ^ 32 = 4294967296 by norm_num] at hx hf
  unfold ProcessTaskBody
  simp [hr, hq, hp, ho, hne, RecordPreOffset, consumeOrSkip_of_EndFile env rd hs, hs,
    Status.IsEndFile, hx, hf]

theorem ProcessTask_of_ret (env : Env R F) (t t1 : ZPBinlogSendTask R F) (s : Status)
    (fuel : Nat) (h : ProcessTaskBody env t = Outcome.ret s t1) :
    ProcessTask env (fuel + 1) t = some (s, t1) := by
  simp only [ProcessTask, h]

theorem ProcessTask_of_recurse (env : Env R F) (t t1 : ZPBinlogSendTask R F) (fuel : Nat)
    (h : ProcessTaskBody env t = Outcome.recurse t1) :
    ProcessTask env (fuel + 1) t = ProcessTask env fuel t1 := by
  simp only [ProcessTask, h]

/-- The body of `ProcessTask` ends in one of five ways. -/
theorem ProcessTaskBody_cases (env : Env R F) (t : ZPBinlogSendTask R F) :
    (ProcessTaskBody env t = Outcome.ret Status.InvalidArgument t) ∨
    (ProcessTaskBody env t = Outcome.ret Status.EndFile t) ∨
    (∃ t1, ProcessTaskBody env t = Outcome.ret Status.OK t1 ∧
      t1.pre_filenum_ = t.filenum_ ∧ t1.pre_offset_ = t.offset_ ∧
      t1.filenum_ = t.filenum_ ∧ t1.send_next = t.send_next ∧
      ∃ rd, t.reader_ = some rd ∧
        t1.offset_ = (t.offset_ + (consumeOrSkip env rd).consume_len) % 2 ^ 64) ∨
    (∃ s t1, ProcessTaskBody env t = Outcome.ret s t1 ∧
      t1.pre_filenum_ = t.filenum_ ∧ t1.pre_offset_ = t.offset_ ∧
      t1.filenum_ = t.filenum_ ∧ t1.offset_ = t.offset_ ∧
      t1.pre_has_content_ = t.pre_has_content_ ∧ s ≠ Status.OK ∧
      t1.send_next = t.send_next) ∨
    (∃ t1, ProcessTaskBody env t = Outcome.recurse t1 ∧
      env.FileExists (env.NewFileName t.binlog_filename_ ((t.filenum_ + 1) % 2 ^ 32))
        = true ∧
      t1.filenum_ = (t.filenum_ + 1) % 2 ^ 32 ∧ t1.offset_ = 0 ∧
      t1.pre_filenum_ = t.filenum_ ∧ t1.pre_offset_ = t.offset_ ∧
      t1.binlog_filename_ = t.binlog_filename_ ∧
      t1.pre_has_content_ = t.pre_has_content_ ∧ t1.send_next = t.send_next) := by
  cases hr : t.reader_ with
  | none => exact Or.inl (ProcessTaskBody_no_reader env t (Or.inl hr))
  | some rd =>
    cases hq : t.queue_ with
    | none => exact Or.inl (ProcessTaskBody_no_reader env t (Or.inr hq))
    | some q =>
      cases hp : env.GetTablePartitionById t.table_name_ t.partition_id_ with
      | none => exact Or.inl (ProcessTaskBody_no_partition env t hp)
      | some part =>
        cases ho : part.opened with
        | false => exact Or.inl (ProcessTaskBody_closed env t part hp ho)
        | true =>
          by_cases he : t.filenum_ = part.boffset.filenum ∧ t.offset_ = part.boffset.offset
          · exact Or.inr (Or.inl (ProcessTaskBody_at_end env t rd q part hr hq hp ho he))
          · by_cases hs : (env.Consume rd).status = Status.EndFile
            · cases hx : env.FileExists
                (env.NewFileName t.binlog_filename_ ((t.filenum_ + 1) % 2 ^ 32)) with
              | false =>
                exact Or.inr (Or.inr (Or.inr (Or.inl ⟨_, _,
                  ProcessTaskBody_absent env t rd q part hr hq hp ho he hs hx,
                  rfl, rfl, rfl, rfl, rfl, fun h => Status.noConfusion h, rfl⟩)))
              | true =>
                cases hf : (env.NewSequentialFile
                  (env.NewFileName t.binlog_filename_ ((t.filenum_ + 1) % 2 ^ 32))).1.ok with
                | false =>
                  refine Or.inr (Or.inr (Or.inr (Or.inl ⟨_, _,
                    ProcessTaskBody_open_failed env t rd q part hr hq hp ho he hs hx hf,
                    rfl, rfl, rfl, rfl, rfl, ?_, rfl⟩)))
                  intro hc
                  rw [hc] at hf
                  cases hf
                | true =>
                  exact Or.inr (Or.inr (Or.inr (Or.inr ⟨_,
                    ProcessTaskBody_roll env t rd q part hr hq hp ho he hs hx hf,
                    rfl, rfl, rfl, rfl, rfl, rfl, rfl, rfl⟩)))
            · exact Or.inr (Or.inr (Or.inl ⟨_,
                ProcessTaskBody_advance env t rd q part hr hq hp ho he hs,
                rfl, rfl, rfl, rfl, rd, rfl, rfl⟩))

theorem ProcessTask_returns (env : Env R F) (d : Nat) :
    ∀ (t : ZPBinlogSendTask R F) (fuel : Nat),
      env.FileExists (env.NewFileName t.binlog_filename_ ((t.filenum_ + d + 1) % 2 ^ 32))
        = false →
      d < fuel → (ProcessTask env fuel t).isSome = true := by
  induction d with
  | zero =>
    intro t fuel hx hd
    obtain ⟨f, hf⟩ : ∃ f, fuel = f + 1 := ⟨fuel - 1, by omega⟩
    subst hf
    rcases ProcessTaskBody_cases env t with h | h | ⟨t1, h, _⟩ | ⟨s, t1, h, _⟩ |
      ⟨t1, h, hx1, _⟩
    · rw [ProcessTask_of_ret env t _ _ f h]; rfl
    · rw [ProcessTask_of_ret env t _ _ f h]; rfl
    · rw [ProcessTask_of_ret env t _ _ f h]; rfl
    · rw [ProcessTask_of_ret env t _ _ f h]; rfl
    · rw [Nat.add_zero] at hx
      rw [hx] at hx1
      cases hx1
  | succ d ih =>
    intro t fuel hx hd
    obtain ⟨f, hf⟩ : ∃ f, fuel = f + 1 := ⟨fuel - 1, by omega⟩
    subst hf
    rcases ProcessTaskBody_cases env t with h | h | ⟨t1, h, _⟩ | ⟨s, t1, h, _⟩ |
      ⟨t1, h, _, hn, _, _, _, hb, _⟩
    · rw [ProcessTask_of_ret env t _ _ f h]; rfl
    · rw [ProcessTask_of_ret env t _ _ f h]; rfl
    · rw [ProcessTask_of_ret env t _ _ f h]; rfl
    · rw [ProcessTask_of_ret env t _ _ f h]; rfl
    · rw [ProcessTask_of_recurse env t t1 f h]
      apply ih t1 f _ (by omega)
      rw [hb, hn]
      have he : ((t.filenum_ + 1) % 2 ^ 32 + d + 1) % 2 ^ 32
          = (t.filenum_ + (d + 1) + 1) % 2 ^ 32 := by
        omega
      rw [he]
      exact hx

theorem ProcessTaskBody_pre_irrelevant (env : Env R F) (t : ZPBinlogSendTask R F)
    (rd : R) (q : F) (part : Partition) (hr : t.reader_ = some rd) (hq : t.queue_ = some q)
    (hp : env.GetTablePartitionById t.table_name_ t.partition_id_ = some part)
    (ho : part.opened = true)
    (hne : ¬ (t.filenum_ = part.boffset.filenum ∧ t.offset_ = part.boffset.offset))
    (a b : Nat) (c : Bytes) :
    ProcessTaskBody env { t with pre_filenum_ := a, pre_offset_ := b, pre_content_ := c }
      = ProcessTaskBody env t := by
  by_cases hs : (env.Consume rd).status = Status.EndFile
  · cases hx : env.FileExists
      (env.NewFileName t.binlog_filename_ ((t.filenum_ + 1) % 2 ^ 32)) with
    | false =>
      rw [ProcessTaskBody_absent env t rd q part hr hq hp ho hne hs hx,
        ProcessTaskBody_absent env
          { t with pre_filenum_ := a, pre_offset_ := b, pre_content_ := c }
          rd q part hr hq hp ho hne hs hx]
    | true =>
      cases hf : (env.NewSequentialFile
        (env.NewFileName t.binlog_filename_ ((t.filenum_ + 1) % 2 ^ 32))).1.ok with
      | false =>
        rw [ProcessTaskBody_open_failed env t rd q part hr hq hp ho hne hs hx hf,
          ProcessTaskBody_open_failed env
            { t with pre_filenum_ := a, pre_offset_ := b, pre_content_ := c }
            rd q part hr hq hp ho hne hs hx hf]
      | true =>
        rw [ProcessTaskBody_roll env t rd q part hr hq hp ho hne hs hx hf,
          ProcessTaskBody_roll env
            { t with pre_filenum_ := a, pre_offset_ := b, pre_content_ := c }
            rd q part hr hq hp ho hne hs hx hf]
  · rw [ProcessTaskBody_advance env t rd q part hr hq hp ho hne hs,
      ProcessTaskBody_advance env
        { t with pre_filenum_ := a, pre_offset_ := b, pre_content_ := c }
        rd q part hr hq hp ho hne hs]

theorem ProcessTask_pre_irrelevant (env : Env R F) (t : ZPBinlogSendTask R F)
    (rd : R) (q : F) (part : Partition) (hr : t.reader_ = some rd) (hq : t.queue_ = some q)
    (hp : env.GetTablePartitionById t.table_name_ t.partition_id_ = some part)
    (ho : part.opened = true)
    (hne : ¬ (t.filenum_ = part.boffset.filenum ∧ t.offset_ = part.boffset.offset))
    (a b : Nat) (c : Bytes) (fuel : Nat) :
    ProcessTask env fuel { t with pre_filenum_ := a, pre_offset_ := b, pre_content_ := c }
      = ProcessTask env fuel t := by
  cases fuel with
  | zero => rfl
  | succ f =>
    simp only [ProcessTask,
      ProcessTaskBody_pre_irrelevant env t rd q part hr hq hp ho hne a b c]

/-! ## The contracts of `ProcessTask` -/

/-- C7: when the task has a reader, the partition is open, the cursor is not at the
partition's end and `Consume` answers anything but `EndFile`, `ProcessTask` returns
`OK`; `pre` is the cursor as it was, the file number is unchanged, the offset has
grown by the bytes consumed (the count left by `SkipNextBlock` after a status that
is neither `OK` nor `Incomplete`), in `uint64_t` arithmetic and hence exactly when
the sum is below `2^64`; `pre_has_content_` is set exactly when `Consume` answered
`OK`, and then `pre_content_` is the payload of that record alone. -/
theorem ProcessTask_consumes (env : Env R F) (fuel : Nat) (t : ZPBinlogSendTask R F)
    (rd : R) (q : F) (part : Partition) (hr : t.reader_ = some rd) (hq : t.queue_ = some q)
    (hp : env.GetTablePartitionById t.table_name_ t.partition_id_ = some part)
    (ho : part.opened = true)
    (hne : ¬ (t.filenum_ = part.boffset.filenum ∧ t.offset_ = part.boffset.offset))
    (hs : (env.Consume rd).status ≠ Status.EndFile) :
    ∃ t1 len, ProcessTask env (fuel + 1) t = some (Status.OK, t1) ∧
      t1.pre_filenum_ = t.filenum_ ∧ t1.pre_offset_ = t.offset_ ∧
      t1.filenum_ = t.filenum_ ∧
      ((env.Consume rd).status = Status.OK ∨ (env.Consume rd).status = Status.Incomplete →
        len = (env.Consume rd).consume_len) ∧
      ((env.Consume rd).status ≠ Status.OK → (env.Consume rd).status ≠ Status.Incomplete →
        len = (env.SkipNextBlock (env.Consume rd).reader (env.Consume rd).consume_len).1) ∧
      t1.offset_ = (t.offset_ + len) % 2 ^ 64 ∧
      (t.offset_ + len < 2 ^ 64 → t1.offset_ = t.offset_ + len) ∧
      (t1.pre_has_content_ = true ↔ (env.Consume rd).status = Status.OK) ∧
      ((env.Consume rd).status = Status.OK → t1.pre_content_ = (env.Consume rd).payload) ∧
      t1.send_next = t.send_next := by
  refine ⟨_, (consumeOrSkip env rd).consume_len,
    ProcessTask_of_ret env t _ _ fuel
      (ProcessTaskBody_advance env t rd q part hr hq hp ho hne hs),
    rfl, rfl, rfl, ?_, ?_, rfl, ?_, ?_, fun _ => rfl, rfl⟩
  · intro h
    rw [consumeOrSkip_len]
    rcases h with h | h
    · rw [if_pos (Or.inr (Or.inr h))]
    · rw [if_pos (Or.inr (Or.inl h))]
  · intro h1 h2
    rw [consumeOrSkip_len]
    rw [if_neg]
    intro hc
    rcases hc with hc | hc | hc
    · exact hs hc
    · exact h2 hc
    · exact h1 hc
  · intro hlt
    exact Nat.mod_eq_of_lt hlt
  · exact Status.ok_iff _

/-- Witness of C7: in the sample environment a task at `(0, 0)` consumes a record of
32 bytes with payload `[1, 2, 3]`. -/
theorem ProcessTask_consumes_witness :
    ∃ t1 len, ProcessTask sampleEnv 1 (sampleTask "a" 0 0) = some (Status.OK, t1) ∧
      t1.pre_filenum_ = 0 ∧ t1.pre_offset_ = 0 ∧ t1.filenum_ = 0 ∧ len = 32 ∧
      t1.offset_ = 32 ∧ t1.pre_has_content_ = true ∧ t1.pre_content_ = [1, 2, 3] := by
  obtain ⟨t1, len, h1, h2, h3, h4, h5, _, h7, h8, h9, h10, _⟩ :=
    ProcessTask_consumes sampleEnv 0 (sampleTask "a" 0 0) 0 0
      { opened := true, boffset := { filenum := 0, offset := 64 } } rfl rfl rfl rfl
      (by decide) (by decide)
  have hl : len = 32 := h5 (Or.inl rfl)
  subst hl
  exact ⟨t1, 32, h1, h2, h3, h4, rfl, h8 (by decide), h9.mpr rfl, h10 rfl⟩

/-- C8: `ProcessTask` returns `InvalidArgument` when the task has no reader or no
file, or the partition is unknown or not opened; it returns `EndFile` when the task
has a reader, the partition is open and the cursor equals the partition's end; in
both cases the task is left exactly as it was: cursor, `pre`, `send_next` and the
reader. -/
theorem ProcessTask_early_return (env : Env R F) (fuel : Nat) (t : ZPBinlogSendTask R F) :
    ((t.reader_ = none ∨ t.queue_ = none ∨
        env.GetTablePartitionById t.table_name_ t.partition_id_ = none ∨
        ∃ part, env.GetTablePartitionById t.table_name_ t.partition_id_ = some part ∧
          part.opened = false) →
      ProcessTask env (fuel + 1) t = some (Status.InvalidArgument, t)) ∧
    (∀ rd q part, t.reader_ = some rd → t.queue_ = some q →
      env.GetTablePartitionById t.table_name_ t.partition_id_ = some part →
      part.opened = true →
      t.filenum_ = part.boffset.filenum → t.offset_ = part.boffset.offset →
      ProcessTask env (fuel + 1) t = some (Status.EndFile, t)) := by
  constructor
  · rintro (h | h | h | ⟨part, hp, ho⟩)
    · exact ProcessTask_of_ret env t _ _ fuel (ProcessTaskBody_no_reader env t (Or.inl h))
    · exact ProcessTask_of_ret env t _ _ fuel (ProcessTaskBody_no_reader env t (Or.inr h))
    · exact ProcessTask_of_ret env t _ _ fuel (ProcessTaskBody_no_partition env t h)
    · exact ProcessTask_of_ret env t _ _ fuel (ProcessTaskBody_closed env t part hp ho)
  · intro rd q part hr hq hp ho hf hoff
    exact ProcessTask_of_ret env t _ _ fuel
      (ProcessTaskBody_at_end env t rd q part hr hq hp ho ⟨hf, hoff⟩)

/-- Witness of C8: a task without a reader gets `InvalidArgument`, and a task whose
cursor is the partition's end `(1, 32)` gets `EndFile`; both are left as they were. -/
theorem ProcessTask_early_return_witness :
    ProcessTask rollEnv 1 { sampleTask "a" 0 0 with reader_ := none }
      = some (Status.InvalidArgument, { sampleTask "a" 0 0 with reader_ := none }) ∧
    ProcessTask rollEnv 1 { sampleTask "a" 0 1 with offset_ := 32 }
      = some (Status.EndFile, { sampleTask "a" 0 1 with offset_ := 32 }) :=
  ⟨(ProcessTask_early_return rollEnv 0 { sampleTask "a" 0 0 with reader_ := none }).1
      (Or.inl rfl),
   (ProcessTask_early_return rollEnv 0 { sampleTask "a" 0 1 with offset_ := 32 }).2 0 0
      { opened := true, boffset := { filenum := 1, offset := 32 } } rfl rfl rfl rfl rfl rfl⟩

/-- C9: let the task pass the end-of-log check and `Consume` answer `EndFile`, and
let `confile` be the name of the file numbered `filenum_ + 1` (a `uint32_t` sum).
If `confile` is absent, `ProcessTask` returns `EndFile` with the cursor unchanged.
If it is present and cannot be opened, the status of the open is returned with the
cursor unchanged.  If it is present and opens, the call is the call of
`ProcessTask` on the task with cursor `(filenum_ + 1, 0)` and a new reader on that
file, `pre` being the snapshot just taken; when that task passes the end-of-log
check in turn, the snapshot does not matter, and a record at the start of the new
file is returned as `OK` with `pre = (filenum_ + 1, 0)`.  Whatever the task, the
recursion returns as soon as its depth may exceed the distance to an absent
successor file. -/
theorem ProcessTask_rolls (env : Env R F) (t : ZPBinlogSendTask R F) (rd : R) (q : F)
    (part : Partition) (hr : t.reader_ = some rd) (hq : t.queue_ = some q)
    (hp : env.GetTablePartitionById t.table_name_ t.partition_id_ = some part)
    (ho : part.opened = true)
    (hne : ¬ (t.filenum_ = part.boffset.filenum ∧ t.offset_ = part.boffset.offset))
    (hs : (env.Consume rd).status = Status.EndFile) :
    (env.FileExists (env.NewFileName t.binlog_filename_ ((t.filenum_ + 1) % 2 ^ 32)) = false →
      ∀ fuel, ProcessTask env (fuel + 1) t = some (Status.EndFile,
        { t with
          pre_filenum_ := t.filenum_
          pre_offset_ := t.offset_
          pre_content_ := (env.Consume rd).payload
          reader_ := some (env.Consume rd).reader })) ∧
    (env.FileExists (env.NewFileName t.binlog_filename_ ((t.filenum_ + 1) % 2 ^ 32)) = true →
      (env.NewSequentialFile
        (env.NewFileName t.binlog_filename_ ((t.filenum_ + 1) % 2 ^ 32))).1.ok = false →
      ∀ fuel, ProcessTask env (fuel + 1) t = some
        ((env.NewSequentialFile
          (env.NewFileName t.binlog_filename_ ((t.filenum_ + 1) % 2 ^ 32))).1,
        { t with
          pre_filenum_ := t.filenum_
          pre_offset_ := t.offset_
          pre_content_ := (env.Consume rd).payload
          reader_ := none
          queue_ := (env.NewSequentialFile
            (env.NewFileName t.binlog_filename_ ((t.filenum_ + 1) % 2 ^ 32))).2 })) ∧
    (env.FileExists (env.NewFileName t.binlog_filename_ ((t.filenum_ + 1) % 2 ^ 32)) = true →
      (env.NewSequentialFile
        (env.NewFileName t.binlog_filename_ ((t.filenum_ + 1) % 2 ^ 32))).1.ok = true →
      (∀ fuel, ProcessTask env (fuel + 1) t = ProcessTask env fuel
        { t with
          pre_filenum_ := t.filenum_
          pre_offset_ := t.offset_
          pre_content_ := (env.Consume rd).payload
          queue_ := (env.NewSequentialFile
            (env.NewFileName t.binlog_filename_ ((t.filenum_ + 1) % 2 ^ 32))).2
          reader_ := some (env.BinlogReader (env.NewSequentialFile
            (env.NewFileName t.binlog_filename_ ((t.filenum_ + 1) % 2 ^ 32))).2)
          filenum_ := (t.filenum_ + 1) % 2 ^ 32
          offset_ := 0 }) ∧
      (∀ q1, (env.NewSequentialFile
          (env.NewFileName t.binlog_filename_ ((t.filenum_ + 1) % 2 ^ 32))).2 = some q1 →
        ¬ ((t.filenum_ + 1) % 2 ^ 32 = part.boffset.filenum ∧ 0 = part.boffset.offset) →
        (∀ fuel, ProcessTask env (fuel + 1) t = ProcessTask env fuel
          { t with
            queue_ := some q1
            reader_ := some (env.BinlogReader (some q1))
            filenum_ := (t.filenum_ + 1) % 2 ^ 32
            offset_ := 0 }) ∧
        ((env.Consume (env.BinlogReader (some q1))).status = Status.OK →
          ∀ fuel, ∃ t1, ProcessTask env (fuel + 2) t = some (Status.OK, t1) ∧
            t1.pre_filenum_ = (t.filenum_ + 1) % 2 ^ 32 ∧ t1.pre_offset_ = 0 ∧
            t1.pre_has_content_ = true ∧
            t1.pre_content_ = (env.Consume (env.BinlogReader (some q1))).payload ∧
            t1.filenum_ = (t.filenum_ + 1) % 2 ^ 32 ∧
            t1.offset_ = (env.Consume (env.BinlogReader (some q1))).consume_len % 2 ^ 64))) ∧
    (∀ d, env.FileExists (env.NewFileName t.binlog_filename_ ((t.filenum_ + d + 1) % 2 ^ 32))
        = false →
      ∀ fuel, d < fuel → (ProcessTask env fuel t).isSome = true) := by
  refine ⟨?_, ?_, ?_, ?_⟩
  · intro hx fuel
    exact ProcessTask_of_ret env t _ _ fuel
      (ProcessTaskBody_absent env t rd q part hr hq hp ho hne hs hx)
  · intro hx hf fuel
    exact ProcessTask_of_ret env t _ _ fuel
      (ProcessTaskBody_open_failed env t rd q part hr hq hp ho hne hs hx hf)
  · intro hx hf
    have hroll := ProcessTaskBody_roll env t rd q part hr hq hp ho hne hs hx hf
    refine ⟨fun fuel => ProcessTask_of_recurse env t _ fuel hroll, ?_⟩
    intro q1 hq1 hne1
    rw [hq1] at hroll
    have hirr := ProcessTask_pre_irrelevant env
      { t with
        queue_ := some q1
        reader_ := some (env.BinlogReader (some q1))
        filenum_ := (t.filenum_ + 1) % 2 ^ 32
        offset_ := 0 }
      (env.BinlogReader (some q1)) q1 part rfl rfl hp ho hne1
      t.filenum_ t.offset_ (env.Consume rd).payload
    constructor
    · intro fuel
      rw [ProcessTask_of_recurse env t _ fuel hroll]
      exact hirr fuel
    · intro hok fuel
      have hs1 : (env.Consume (env.BinlogReader (some q1))).status ≠ Status.EndFile := by
        rw [hok]
        exact fun h => Status.noConfusion h
      have hadv := ProcessTaskBody_advance env
        { t with
          queue_ := some q1
          reader_ := some (env.BinlogReader (some q1))
          filenum_ := (t.filenum_ + 1) % 2 ^ 32
          offset_ := 0 }
        (env.BinlogReader (some q1)) q1 part rfl rfl hp ho hne1 hs1
      have hres := ProcessTask_of_ret env _ _ _ fuel hadv
      rw [← hirr (fuel + 1), ← ProcessTask_of_recurse env t _ (fuel + 1) hroll] at hres
      refine ⟨_, hres, rfl, rfl, ?_, rfl, rfl, ?_⟩
      · show (env.Consume (env.BinlogReader (some q1))).status.ok = true
        rw [hok]
        rfl
      · show (0 + (consumeOrSkip env (env.BinlogReader (some q1))).consume_len) % 2 ^ 64 = _
        rw [consumeOrSkip_len, if_pos (Or.inr (Or.inr hok)), Nat.zero_add]
  · intro d hx fuel hd
    exact ProcessTask_returns env d t fuel hx hd

/-- Witness of C9: the reader of `binlog0` is at its end and `binlog1` starts with a
record of 32 bytes; the call rolls and returns that record as `OK` with
`pre = (1, 0)` and the cursor at `(1, 32)`. -/
theorem ProcessTask_rolls_witness :
    ∃ t1, ProcessTask rollEnv 2 (sampleTask "a" 0 0) = some (Status.OK, t1) ∧
      t1.pre_filenum_ = 1 ∧ t1.pre_offset_ = 0 ∧ t1.pre_has_content_ = true ∧
      t1.pre_content_ = [7] ∧ t1.filenum_ = 1 ∧ t1.offset_ = 32 := by
  have h := (ProcessTask_rolls rollEnv (sampleTask "a" 0 0) 0 0
    { opened := true, boffset := { filenum := 1, offset := 32 } } rfl rfl rfl rfl
    (by decide) rfl).2.2.1 rfl rfl
  exact (h.2 1 rfl (by decide)).2 rfl 0

/-! ## The order of the messages of a task -/

theorem BinlogOffset.le_refl (a : BinlogOffset) : BinlogOffset.le a a :=
  Or.inr ⟨rfl, Nat.le_refl _⟩

theorem BinlogOffset.le_trans (a b c : BinlogOffset) (hab : BinlogOffset.le a b)
    (hbc : BinlogOffset.le b c) : BinlogOffset.le a c := by
  unfold BinlogOffset.le at *
  omega

theorem ProcessTask_monotone (env : Env R F) (fuel : Nat) :
    ∀ (t t1 : ZPBinlogSendTask R F) (s : Status),
      ProcessTask env fuel t = some (s, t1) → ProcessTaskInRange env fuel t →
      BinlogOffset.le (cursor t) (cursor t1) ∧ t1.send_next = t.send_next ∧
      (s = Status.OK →
        BinlogOffset.le (cursor t) (pre t1) ∧ BinlogOffset.le (pre t1) (cursor t1)) := by
  induction fuel with
  | zero =>
    intro t t1 s h _
    cases h
  | succ f ih =>
    intro t t1 s h hin
    obtain ⟨hbody, hrest⟩ := hin
    rcases ProcessTaskBody_cases env t with hb | hb | ⟨t2, hb, h1, h2, h3, h4, rd, hr, h5⟩ |
      ⟨s2, t2, hb, h1, h2, h3, h4, _, h6, h7⟩ | ⟨t2, hb, _, h1, h2, _, _, _, _, h7⟩
    · rw [ProcessTask_of_ret env t _ _ f hb] at h
      cases h
      exact ⟨BinlogOffset.le_refl _, rfl, fun hc => Status.noConfusion hc⟩
    · rw [ProcessTask_of_ret env t _ _ f hb] at h
      cases h
      exact ⟨BinlogOffset.le_refl _, rfl, fun hc => Status.noConfusion hc⟩
    · rw [ProcessTask_of_ret env t _ _ f hb] at h
      cases h
      have hlt := hbody.2 rd hr
      rw [Nat.mod_eq_of_lt hlt] at h5
      refine ⟨?_, h4, fun _ => ⟨?_, ?_⟩⟩
      · exact Or.inr ⟨h3.symm, by show t.offset_ ≤ t1.offset_; omega⟩
      · exact Or.inr ⟨h1.symm, by show t.offset_ ≤ t1.pre_offset_; omega⟩
      · exact Or.inr ⟨by show t1.pre_filenum_ = t1.filenum_; omega,
          by show t1.pre_offset_ ≤ t1.offset_; omega⟩
    · rw [ProcessTask_of_ret env t _ _ f hb] at h
      cases h
      refine ⟨Or.inr ⟨h3.symm, by show t.offset_ ≤ t1.offset_; omega⟩, h7,
        fun hc => absurd hc h6⟩
    · rw [ProcessTask_of_recurse env t t2 f hb] at h
      rw [hb] at hrest
      obtain ⟨hm, hsn, hok⟩ := ih t2 t1 s h hrest
      have hlt : t.filenum_ + 1 < 2 ^ 32 := hbody.1
      rw [Nat.mod_eq_of_lt hlt] at h1
      have hstep : BinlogOffset.le (cursor t) (cursor t2) :=
        Or.inl (by show t.filenum_ < t2.filenum_; omega)
      refine ⟨BinlogOffset.le_trans _ _ _ hstep hm, hsn.trans h7, fun hc => ?_⟩
      exact ⟨BinlogOffset.le_trans _ _ _ hstep (hok hc).1, (hok hc).2⟩

theorem SendPass_ahead (k : Tick R F) (task : ZPBinlogSendTask R F)
    (last : Option BinlogOffset)
    (hlast : ∀ a, last = some a → BinlogOffset.le a (pre task))
    (hpre : BinlogOffset.le (pre task) (cursor task)) :
    ∃ m, (SendPass k task).built = some m ∧ m.sync_offset = pre task ∧
      (∀ a, last = some a → BinlogOffset.le a m.sync_offset) ∧
      Ahead (SendPass k task).task (some m.sync_offset) := by
  have hso : (BuildCommonSyncRequest k.env task).sync_offset = pre task := by
    unfold BuildCommonSyncRequest
    split <;> rfl
  refine ⟨BuildCommonSyncRequest k.env task, rfl, hso, ?_, ?_⟩
  · intro a ha
    rw [hso]
    exact hlast a ha
  · rw [hso]
    have hc : cursor (SendPass k task).task = cursor task := by
      unfold SendPass
      simp only
      split
      · rfl
      · split <;> rfl
    have hp : pre (SendPass k task).task = pre task := by
      unfold SendPass
      simp only
      split
      · rfl
      · split <;> rfl
    constructor
    · intro a ha
      cases ha
      split
      · rw [hc]; exact hpre
      · rw [hp]; exact BinlogOffset.le_refl _
    · intro _
      rw [hc, hp]
      exact hpre

theorem LoopPass_ahead (fuel : Nat) (k : Tick R F) (task : ZPBinlogSendTask R F)
    (last : Option BinlogOffset) (r : PassResult R F) (ha : Ahead task last)
    (hin : task.send_next = true → ProcessTaskInRange k.env fuel task)
    (hr : LoopPass fuel k task = some r) :
    (r.built = none ∧ Ahead r.task last) ∨
    (∃ m, r.built = some m ∧ (∀ a, last = some a → BinlogOffset.le a m.sync_offset) ∧
      Ahead r.task (some m.sync_offset)) := by
  unfold LoopPass at hr
  cases hsn : task.send_next with
  | false =>
    rw [hsn] at hr
    simp only [Bool.false_eq_true, if_false, Option.some.injEq] at hr
    subst hr
    have hlast : ∀ a, last = some a → BinlogOffset.le a (pre task) := by
      intro a hl
      have := ha.1 a hl
      rw [hsn] at this
      exact this
    obtain ⟨m, h1, _, h3, h4⟩ := SendPass_ahead k task last hlast (ha.2 hsn)
    exact Or.inr ⟨m, h1, h3, h4⟩
  | true =>
    rw [hsn] at hr
    simp only [if_true] at hr
    cases hp : ProcessTask k.env fuel task with
    | none =>
      rw [hp] at hr
      cases hr
    | some res =>
      obtain ⟨item_s, task1⟩ := res
      rw [hp] at hr
      simp only at hr
      obtain ⟨hm, hs1, hok⟩ := ProcessTask_monotone k.env fuel task task1 item_s hp (hin hsn)
      have hlc : ∀ a, last = some a → BinlogOffset.le a (cursor task) := by
        intro a hl
        have := ha.1 a hl
        rw [hsn] at this
        exact this
      cases hst : item_s.ok with
      | false =>
        rw [hst] at hr
        simp only [Bool.not_false, if_true, Option.some.injEq] at hr
        subst hr
        refine Or.inl ⟨rfl, ?_, ?_⟩
        · intro a hl
          have h1 : ({ task1 with process_error_time_ := k.NowMicros } :
              ZPBinlogSendTask R F).send_next = true := by
            show task1.send_next = true
            rw [hs1, hsn]
          rw [h1]
          exact BinlogOffset.le_trans _ _ _ (hlc a hl) hm
        · intro h1
          have h2 : task1.send_next = false := h1
          rw [hs1, hsn] at h2
          cases h2
      | true =>
        rw [hst] at hr
        simp only [Bool.not_true, Bool.false_eq_true, if_false, Option.some.injEq] at hr
        subst hr
        have hOK := (Status.ok_iff item_s).mp hst
        obtain ⟨h1, h2⟩ := hok hOK
        have hlast : ∀ a, last = some a → BinlogOffset.le a (pre task1) :=
          fun a hl => BinlogOffset.le_trans _ _ _ (hlc a hl) h1
        obtain ⟨m, h3, _, h5, h6⟩ := SendPass_ahead k task1 last hlast h2
        exact Or.inr ⟨m, h3, h5, h6⟩

theorem builtMessages_chain (fuel : Nat) (ticks : List (Tick R F)) :
    ∀ (task : ZPBinlogSendTask R F) (last : Option BinlogOffset), Ahead task last →
      RunInRange fuel ticks task →
      List.Chain' BinlogOffset.le
        (last.toList ++ (builtMessages fuel ticks task).map (fun m => m.sync_offset)) := by
  induction ticks with
  | nil =>
    intro task last _ _
    cases last <;> simp [builtMessages]
  | cons k ks ih =>
    intro task last ha hin
    obtain ⟨hin1, hin2⟩ := hin
    cases hr : LoopPass fuel k task with
    | none =>
      simp only [builtMessages, hr]
      cases last <;> simp
    | some r =>
      rw [hr] at hin2
      simp only [builtMessages, hr]
      rcases LoopPass_ahead fuel k task last r ha hin1 hr with ⟨hb, ha2⟩ |
        ⟨m, hb, hle, ha2⟩
      · rw [hb]
        exact ih r.task last ha2 hin2
      · rw [hb]
        have h2 := ih r.task (some m.sync_offset) ha2 hin2
        cases last with
        | none => exact h2
        | some a =>
          simp only [Option.toList, List.singleton_append, List.map_cons, List.map_append,
            List.cons_append, List.nil_append, List.map_nil] at h2 ⊢
          exact List.Chain'.cons (hle a rfl) h2

/-- C10: for a task that is to advance, or whose snapshot is not past its cursor
(as after its construction), and for every run of passes of the worker loop over
it in which the cursor's counters stay within `uint32_t` and `uint64_t`, the
`sync_offset` of the messages built by `BuildCommonSyncRequest` is non-decreasing
in the order of binlog positions. -/
theorem sync_offset_monotone (fuel : Nat) (ticks : List (Tick R F))
    (task : ZPBinlogSendTask R F)
    (hstart : task.send_next = true ∨ BinlogOffset.le (pre task) (cursor task))
    (hrange : RunInRange fuel ticks task) :
    List.Chain' (fun a b : SyncRequest => BinlogOffset.le a.sync_offset b.sync_offset)
      (builtMessages fuel ticks task) := by
  have ha : Ahead task none := by
    constructor
    · intro a h
      cases h
    · intro h
      rcases hstart with h1 | h1
      · rw [h] at h1
        cases h1
      · exact h1
  have h := builtMessages_chain fuel ticks task none ha hrange
  simp only [Option.toList, List.nil_append] at h
  exact (List.chain'_map _).mp h

/-- Witness of C10: three passes over a task at `(0, 0)`; the first send fails, so
the second pass, which ends the slice, sends the same snapshot again, and the
third pass, in a later slice, sends the next record. -/
theorem sync_offset_monotone_witness :
    (builtMessages 1
        [sampleTick Status.Corruption false, sampleTick Status.OK true,
          sampleTick Status.OK false]
        (sampleTask "a" 0 0)).map (fun m => m.sync_offset)
      = [{ filenum := 0, offset := 0 }, { filenum := 0, offset := 0 },
         { filenum := 0, offset := 32 }] ∧
    List.Chain' (fun a b : SyncRequest => BinlogOffset.le a.sync_offset b.sync_offset)
      (builtMessages 1
        [sampleTick Status.Corruption false, sampleTick Status.OK true,
          sampleTick Status.OK false]
        (sampleTask "a" 0 0)) := by
  refine ⟨rfl, sync_offset_monotone 1 _ (sampleTask "a" 0 0) (Or.inl rfl) ?_⟩
  refine ⟨fun _ => ⟨⟨by decide, ?_⟩, trivial⟩, ?_, ?_, trivial⟩
  · intro rd hrd
    cases hrd
    decide
  · intro h
    cases h
  · intro _
    refine ⟨⟨by decide, ?_⟩, trivial⟩
    intro rd hrd
    cases hrd
    decide

/-! ## A failed send is repeated -/

theorem SendPass_of_fails (k : Tick R F) (task : ZPBinlogSendTask R F) (hf : sendFails k) :
    (SendPass k task).task = { task with send_next := false } := by
  unfold SendPass
  rcases hf with h | h
  · simp [h]
  · cases hi : k.IsInitialized <;> simp [h]

theorem SendPass_send_next (k : Tick R F) (task : ZPBinlogSendTask R F) :
    (SendPass k task).task.send_next = true ↔
      (k.IsInitialized = true ∧ k.SendToPeer.ok = true) := by
  unfold SendPass
  cases hi : k.IsInitialized <;> cases hs : k.SendToPeer.ok <;> simp

theorem send_next_false_eta (task : ZPBinlogSendTask R F) (h : task.send_next = false) :
    ({ task with send_next := false } : ZPBinlogSendTask R F) = task := by
  cases task
  simp only at h
  subst h
  rfl

theorem LoopPass_of_send_next_false (fuel : Nat) (k : Tick R F)
    (task : ZPBinlogSendTask R F) (h : task.send_next = false) :
    LoopPass fuel k task = some (SendPass k task) := by
  simp [LoopPass, h]

theorem LoopPass_built (fuel : Nat) (k : Tick R F) (task : ZPBinlogSendTask R F)
    (r : PassResult R F) (m : SyncRequest) (hr : LoopPass fuel k task = some r)
    (hb : r.built = some m) :
    ∃ t0, r = SendPass k t0 ∧ m = BuildCommonSyncRequest k.env t0 := by
  unfold LoopPass at hr
  split at hr
  · cases hp : ProcessTask k.env fuel task with
    | none => rw [hp] at hr; cases hr
    | some res =>
      obtain ⟨item_s, task1⟩ := res
      rw [hp] at hr
      simp only at hr
      split at hr
      · cases hr
        cases hb
      · cases hr
        refine ⟨task1, rfl, ?_⟩
        cases hb
        rfl
  · cases hr
    refine ⟨task, rfl, ?_⟩
    cases hb
    rfl

theorem BuildCommonSyncRequest_send_next (env env2 : Env R F) (t : ZPBinlogSendTask R F)
    (b : Bool) :
    (BuildCommonSyncRequest env2 { t with send_next := b }).sync_offset
        = (BuildCommonSyncRequest env t).sync_offset ∧
    (BuildCommonSyncRequest env2 { t with send_next := b }).sync_type
        = (BuildCommonSyncRequest env t).sync_type ∧
    (BuildCommonSyncRequest env2 { t with send_next := b }).request
        = (BuildCommonSyncRequest env t).request ∧
    (BuildCommonSyncRequest env2 { t with send_next := b }).binlog_skip
        = (BuildCommonSyncRequest env t).binlog_skip := by
  unfold BuildCommonSyncRequest
  cases h : t.pre_has_content_ <;> simp [h]

theorem failing_passes (fuel : Nat) (ks : List (Tick R F)) (task : ZPBinlogSendTask R F)
    (h : task.send_next = false) (hf : ∀ k ∈ ks, sendFails k) :
    taskAfter fuel ks task = some task ∧
    builtMessages fuel ks task = ks.map (fun k => BuildCommonSyncRequest k.env task) := by
  induction ks with
  | nil => exact ⟨rfl, rfl⟩
  | cons k ks ih =>
    have hk := hf k (List.mem_cons_self _ _)
    have ht : (SendPass k task).task = task := by
      rw [SendPass_of_fails k task hk]
      exact send_next_false_eta task h
    obtain ⟨ih1, ih2⟩ := ih (fun k1 h1 => hf k1 (List.mem_cons_of_mem _ h1))
    constructor
    · simp only [taskAfter, LoopPass_of_send_next_false fuel k task h, ht]
      exact ih1
    · simp only [builtMessages, LoopPass_of_send_next_false fuel k task h, ht, ih2]
      rfl

/-- C11: let a pass of the worker loop build the message `m` for a task and let
the message not get through (`SendToPeer` fails, or the message lacks a required
field).  Then `send_next` is false on the task the pass leaves, whether or not
the pass ends the slice, and the pool hands this task back as it is put back.
Every later pass, with any bound on `ProcessTask` and even the bound 0 under
which `ProcessTask` cannot return, is the sending half alone: it builds a message
with the `sync_offset`, type, request and gap of `m` and leaves cursor and
snapshot as they were; `send_next` is set again only by a pass whose message gets
through.  Over any run of passes whose messages do not get through, the task
stays the same and the same message is built in every pass. -/
theorem failed_send_is_repeated (fuel : Nat) (k : Tick R F) (task : ZPBinlogSendTask R F)
    (r : PassResult R F) (m : SyncRequest)
    (hr : LoopPass fuel k task = some r) (hb : r.built = some m) (hf : sendFails k) :
    r.task.send_next = false ∧
    (∀ (p : ZPBinlogSendTaskPool R F) h, idxFind p.task_ptrs_ r.task.name_ = some h →
      h.iter = none → h.sequence = r.task.sequence_ →
      (PutBack p r.task).2.tasks_ = p.tasks_ ++ [(newNode p.tasks_, r.task)]) ∧
    (∀ (q : ZPBinlogSendTaskPool R F) it rest, q.tasks_ = (it, r.task) :: rest →
      (FetchOut q).2.1 = some r.task) ∧
    (∀ (fuel2 : Nat) (k2 : Tick R F),
      LoopPass fuel2 k2 r.task = some (SendPass k2 r.task) ∧
      LoopPass 0 k2 r.task = some (SendPass k2 r.task) ∧
      (SendPass k2 r.task).built = some (BuildCommonSyncRequest k2.env r.task) ∧
      (BuildCommonSyncRequest k2.env r.task).sync_offset = m.sync_offset ∧
      (BuildCommonSyncRequest k2.env r.task).sync_type = m.sync_type ∧
      (BuildCommonSyncRequest k2.env r.task).request = m.request ∧
      (BuildCommonSyncRequest k2.env r.task).binlog_skip = m.binlog_skip ∧
      cursor (SendPass k2 r.task).task = cursor r.task ∧
      pre (SendPass k2 r.task).task = pre r.task ∧
      (SendPass k2 r.task).task.pre_has_content_ = r.task.pre_has_content_ ∧
      (SendPass k2 r.task).task.pre_content_ = r.task.pre_content_ ∧
      ((SendPass k2 r.task).task.send_next = true ↔
        (k2.IsInitialized = true ∧ k2.SendToPeer.ok = true))) ∧
    (∀ (fuel2 : Nat) (ks : List (Tick R F)), (∀ k2 ∈ ks, sendFails k2) →
      taskAfter fuel2 ks r.task = some r.task ∧
      builtMessages fuel2 ks r.task
        = ks.map (fun k2 => BuildCommonSyncRequest k2.env r.task)) := by
  obtain ⟨t0, hr0, hm0⟩ := LoopPass_built fuel k task r m hr hb
  have htask : r.task = { t0 with send_next := false } := by
    rw [hr0]
    exact SendPass_of_fails k t0 hf
  have hsn : r.task.send_next = false := by rw [htask]
  refine ⟨hsn, ?_, ?_, ?_, ?_⟩
  · intro p h hfd hi hs
    rw [PutBack_current p r.task h hfd hi hs]
  · intro q it rest hq
    rw [FetchOut_front q it r.task rest hq]
  · intro fuel2 k2
    have hb2 := BuildCommonSyncRequest_send_next k.env k2.env t0 false
    rw [← htask, ← hm0] at hb2
    have hcur : ∀ t : ZPBinlogSendTask R F,
        cursor (SendPass k2 t).task = cursor t ∧ pre (SendPass k2 t).task = pre t ∧
        (SendPass k2 t).task.pre_has_content_ = t.pre_has_content_ ∧
        (SendPass k2 t).task.pre_content_ = t.pre_content_ := by
      intro t
      unfold SendPass
      simp only
      split
      · exact ⟨rfl, rfl, rfl, rfl⟩
      · split <;> exact ⟨rfl, rfl, rfl, rfl⟩
    exact ⟨LoopPass_of_send_next_false fuel2 k2 r.task hsn,
      LoopPass_of_send_next_false 0 k2 r.task hsn, rfl, hb2.1, hb2.2.1, hb2.2.2.1,
      hb2.2.2.2, (hcur r.task).1, (hcur r.task).2.1, (hcur r.task).2.2.1,
      (hcur r.task).2.2.2, SendPass_send_next k2 r.task⟩
  · intro fuel2 ks hks
    exact failing_passes fuel2 ks r.task hsn hks

/-- Witness of C11: the first pass over a task at `(0, 0)` consumes a record and
fails to send it; the task it leaves has `send_next` unset, and two more failing
passes, run with the bound 0, leave that task as it is and build the message at
`(0, 0)` again. -/
theorem failed_send_is_repeated_witness :
    ∃ r m, LoopPass 1 (sampleTick Status.Corruption true) (sampleTask "a" 0 0) = some r ∧
      r.built = some m ∧ r.task.send_next = false ∧ m.sync_offset = ⟨0, 0⟩ ∧
      taskAfter 0 [sampleTick Status.Corruption false, sampleTick Status.Corruption false]
        r.task = some r.task ∧
      (builtMessages 0 [sampleTick Status.Corruption false, sampleTick Status.Corruption false]
        r.task).map (fun m2 => m2.sync_offset) = [⟨0, 0⟩, ⟨0, 0⟩] := by
  obtain ⟨r, hr⟩ : ∃ r, LoopPass 1 (sampleTick Status.Corruption true) (sampleTask "a" 0 0)
      = some r := ⟨_, rfl⟩
  obtain ⟨m, hm⟩ : ∃ m, r.built = some m := by
    cases hr
    exact ⟨_, rfl⟩
  have h := failed_send_is_repeated 1 (sampleTick Status.Corruption true)
    (sampleTask "a" 0 0) r m hr hm (Or.inr rfl)
  have h2 := h.2.2.2.2 0
    [sampleTick Status.Corruption false, sampleTick Status.Corruption false]
    (fun k2 hk2 => by
      simp only [List.mem_cons, List.mem_singleton, List.not_mem_nil, or_false,
        or_self] at hk2
      subst hk2
      exact Or.inr rfl)
  refine ⟨r, m, hr, hm, h.1, ?_, h2.1, ?_⟩
  · cases hr
    cases hm
    rfl
  · rw [h2.2]
    cases hr
    rfl

/-! ## The gap of a SKIP message -/

theorem gap_eq (o len : Nat) (ho : o < 2 ^ 64) :
    ((o + len) % 2 ^ 64 + 2 ^ 64 - o) % 2 ^ 64 = len % 2 ^ 64 := by
  have h : (2 : Nat) ^ 64 = 18446744073709551616 := by norm_num
  rw [h] at ho ⊢
  omega

/-- C12, as the claim states it, fails: when `Consume` answers `Incomplete` having
consumed nothing, `ProcessTask` returns `OK` without content and the SKIP message
built has the gap 0. -/
theorem skip_gap_can_be_zero :
    ∃ t1, ProcessTask tornEnv 1 (sampleTask "a" 0 0) = some (Status.OK, t1) ∧
      t1.pre_has_content_ = false ∧
      (BuildCommonSyncRequest tornEnv t1).sync_type = SyncType.SKIP ∧
      (BuildCommonSyncRequest tornEnv t1).binlog_skip
        = some { table_name := "t", partition_id := 0, gap := 0 } ∧
      ¬ (0 < t1.offset_ - t1.pre_offset_) :=
  ⟨_, rfl, rfl, rfl, rfl, by decide⟩

/-- C12, amended: for every task state reached by a `ProcessTask` call that returned
`OK` without content (`Consume` answered `Incomplete` or an error), the message
built is a SKIP whose gap is the `uint64_t` difference of the cursor's offset and
the snapshot's, that is the count of bytes consumed; the gap is positive exactly
when that count is not zero. -/
theorem skip_gap_is_consumed (env : Env R F) (fuel : Nat) (t : ZPBinlogSendTask R F)
    (rd : R) (q : F) (part : Partition) (hr : t.reader_ = some rd) (hq : t.queue_ = some q)
    (hp : env.GetTablePartitionById t.table_name_ t.partition_id_ = some part)
    (ho : part.opened = true)
    (hne : ¬ (t.filenum_ = part.boffset.filenum ∧ t.offset_ = part.boffset.offset))
    (hs : (env.Consume rd).status ≠ Status.EndFile)
    (hnok : (env.Consume rd).status ≠ Status.OK) (hoff : t.offset_ < 2 ^ 64) :
    ∃ t1 len, ProcessTask env (fuel + 1) t = some (Status.OK, t1) ∧
      t1.pre_has_content_ = false ∧
      ((env.Consume rd).status = Status.Incomplete → len = (env.Consume rd).consume_len) ∧
      ((env.Consume rd).status ≠ Status.Incomplete →
        len = (env.SkipNextBlock (env.Consume rd).reader (env.Consume rd).consume_len).1) ∧
      (BuildCommonSyncRequest env t1).sync_type = SyncType.SKIP ∧
      (BuildCommonSyncRequest env t1).sync_offset
        = { filenum := t.filenum_, offset := t.offset_ } ∧
      (BuildCommonSyncRequest env t1).binlog_skip
        = some { table_name := t.table_name_, partition_id := t.partition_id_,
                 gap := (t1.offset_ + 2 ^ 64 - t1.pre_offset_) % 2 ^ 64 } ∧
      (t1.offset_ + 2 ^ 64 - t1.pre_offset_) % 2 ^ 64 = len % 2 ^ 64 ∧
      (t.offset_ + len < 2 ^ 64 →
        (t1.offset_ + 2 ^ 64 - t1.pre_offset_) % 2 ^ 64 = t1.offset_ - t1.pre_offset_ ∧
        t1.offset_ - t1.pre_offset_ = len) ∧
      (0 < (t1.offset_ + 2 ^ 64 - t1.pre_offset_) % 2 ^ 64 ↔ len % 2 ^ 64 ≠ 0) := by
  have hok : (env.Consume rd).status.ok = false := by
    cases h : (env.Consume rd).status <;> simp_all [Status.ok]
  have hres := ProcessTask_of_ret env t _ _ fuel
    (ProcessTaskBody_advance env t rd q part hr hq hp ho hne hs)
  rw [hok] at hres
  have hgap := gap_eq t.offset_ (consumeOrSkip env rd).consume_len hoff
  refine ⟨_, (consumeOrSkip env rd).consume_len, hres, rfl, ?_, ?_, ?_, ?_, ?_, hgap, ?_, ?_⟩
  · intro h
    rw [consumeOrSkip_len, if_pos (Or.inr (Or.inl h))]
  · intro h
    rw [consumeOrSkip_len, if_neg]
    rintro (hc | hc | hc)
    · exact hs hc
    · exact h hc
    · exact hnok hc
  · simp [BuildCommonSyncRequest]
  · simp [BuildCommonSyncRequest]
  · simp [BuildCommonSyncRequest]
  · intro hlt
    simp only
    rw [hgap, Nat.mod_eq_of_lt hlt]
    have h2 : (consumeOrSkip env rd).consume_len < 2 ^ 64 := by omega
    rw [Nat.mod_eq_of_lt h2]
    omega
  · rw [hgap]
    omega

/-- Witness of the amended C12: in the environment with a torn record the SKIP
message built after `ProcessTask` has the gap 0, the count of bytes consumed. -/
theorem skip_gap_is_consumed_witness :
    ∃ t1 len, ProcessTask tornEnv 1 (sampleTask "a" 0 0) = some (Status.OK, t1) ∧
      len = 0 ∧ (BuildCommonSyncRequest tornEnv t1).sync_type = SyncType.SKIP ∧
      (t1.offset_ + 2 ^ 64 - t1.pre_offset_) % 2 ^ 64 = len % 2 ^ 64 := by
  obtain ⟨t1, len, h1, _, h3, _, h5, _, _, h8, _⟩ :=
    skip_gap_is_consumed tornEnv 0 (sampleTask "a" 0 0) 0 0
      { opened := true, boffset := { filenum := 0, offset := 64 } } rfl rfl rfl rfl
      (by decide) (by decide) (by decide) (by decide)
  exact ⟨t1, len, h1, h3 rfl, h5, h8⟩

/-! ## The cursor and the end of the binlog -/

theorem ProcessTaskBody_keeps (env : Env R F) (t : ZPBinlogSendTask R F) :
    ∀ t1, (∃ s, ProcessTaskBody env t = Outcome.ret s t1) ∨
        ProcessTaskBody env t = Outcome.recurse t1 →
      t1.table_name_ = t.table_name_ ∧ t1.partition_id_ = t.partition_id_ ∧
      t1.name_ = t.name_ ∧ t1.sequence_ = t.sequence_ ∧
      t1.binlog_filename_ = t.binlog_filename_ ∧ t1.node_ = t.node_ := by
  intro t1 h
  have key : ∀ u : ZPBinlogSendTask R F,
      (∃ s, ProcessTaskBody env t = Outcome.ret s u) ∨
        ProcessTaskBody env t = Outcome.recurse u →
      (u.table_name_ = t.table_name_ ∧ u.partition_id_ = t.partition_id_ ∧
        u.name_ = t.name_ ∧ u.sequence_ = t.sequence_ ∧
        u.binlog_filename_ = t.binlog_filename_ ∧ u.node_ = t.node_) →
      t1.table_name_ = t.table_name_ ∧ t1.partition_id_ = t.partition_id_ ∧
      t1.name_ = t.name_ ∧ t1.sequence_ = t.sequence_ ∧
      t1.binlog_filename_ = t.binlog_filename_ ∧ t1.node_ = t.node_ := by
    intro u hu hk
    have hEq : t1 = u := by
      rcases h with ⟨s, h⟩ | h <;> rcases hu with ⟨s2, hu⟩ | hu
      · rw [h] at hu
        cases hu
        rfl
      · rw [h] at hu
        cases hu
      · rw [h] at hu
        cases hu
      · rw [h] at hu
        cases hu
        rfl
    rw [hEq]
    exact hk
  cases hr : t.reader_ with
  | none =>
    exact key t (Or.inl ⟨_, ProcessTaskBody_no_reader env t (Or.inl hr)⟩)
      ⟨rfl, rfl, rfl, rfl, rfl, rfl⟩
  | some rd =>
    cases hq : t.queue_ with
    | none =>
      exact key t (Or.inl ⟨_, ProcessTaskBody_no_reader env t (Or.inr hq)⟩)
        ⟨rfl, rfl, rfl, rfl, rfl, rfl⟩
    | some q =>
      cases hp : env.GetTablePartitionById t.table_name_ t.partition_id_ with
      | none =>
        exact key t (Or.inl ⟨_, ProcessTaskBody_no_partition env t hp⟩)
          ⟨rfl, rfl, rfl, rfl, rfl, rfl⟩
      | some part =>
        cases ho : part.opened with
        | false =>
          exact key t (Or.inl ⟨_, ProcessTaskBody_closed env t part hp ho⟩)
            ⟨rfl, rfl, rfl, rfl, rfl, rfl⟩
        | true =>
          by_cases he : t.filenum_ = part.boffset.filenum ∧ t.offset_ = part.boffset.offset
          · exact key t (Or.inl ⟨_, ProcessTaskBody_at_end env t rd q part hr hq hp ho he⟩)
              ⟨rfl, rfl, rfl, rfl, rfl, rfl⟩
          · by_cases hs : (env.Consume rd).status = Status.EndFile
            · cases hx : env.FileExists
                (env.NewFileName t.binlog_filename_ ((t.filenum_ + 1) % 2 ^ 32)) with
              | false =>
                exact key _ (Or.inl ⟨_,
                  ProcessTaskBody_absent env t rd q part hr hq hp ho he hs hx⟩)
                  ⟨rfl, rfl, rfl, rfl, rfl, rfl⟩
              | true =>
                cases hf : (env.NewSequentialFile
                  (env.NewFileName t.binlog_filename_ ((t.filenum_ + 1) % 2 ^ 32))).1.ok with
                | false =>
                  exact key _ (Or.inl ⟨_,
                    ProcessTaskBody_open_failed env t rd q part hr hq hp ho he hs hx hf⟩)
                    ⟨rfl, rfl, rfl, rfl, rfl, rfl⟩
                | true =>
                  exact key _ (Or.inr
                    (ProcessTaskBody_roll env t rd q part hr hq hp ho he hs hx hf))
                    ⟨rfl, rfl, rfl, rfl, rfl, rfl⟩
            · exact key _ (Or.inl ⟨_,
                ProcessTaskBody_advance env t rd q part hr hq hp ho he hs⟩)
                ⟨rfl, rfl, rfl, rfl, rfl, rfl⟩

theorem ProcessTask_keeps (env : Env R F) (fuel : Nat) :
    ∀ (t t1 : ZPBinlogSendTask R F) (s : Status), ProcessTask env fuel t = some (s, t1) →
      t1.table_name_ = t.table_name_ ∧ t1.partition_id_ = t.partition_id_ ∧
      t1.name_ = t.name_ ∧ t1.sequence_ = t.sequence_ ∧
      t1.binlog_filename_ = t.binlog_filename_ ∧ t1.node_ = t.node_ := by
  induction fuel with
  | zero =>
    intro t t1 s h
    cases h
  | succ f ih =>
    intro t t1 s h
    cases hb : ProcessTaskBody env t with
    | ret s2 t2 =>
      rw [ProcessTask_of_ret env t t2 s2 f hb] at h
      cases h
      exact ProcessTaskBody_keeps env t t1 (Or.inl ⟨_, hb⟩)
    | recurse t2 =>
      rw [ProcessTask_of_recurse env t t2 f hb] at h
      obtain ⟨h1, h2, h3, h4, h5, h6⟩ := ih t2 t1 s h
      obtain ⟨k1, k2, k3, k4, k5, k6⟩ := ProcessTaskBody_keeps env t t2 (Or.inr hb)
      exact ⟨h1.trans k1, h2.trans k2, h3.trans k3, h4.trans k4, h5.trans k5, h6.trans k6⟩

theorem ProcessTaskBody_at_end_of (env : Env R F) (e : BinlogOffset)
    (t : ZPBinlogSendTask R F) (hend : endOf env t = some e)
    (hce : t.filenum_ = e.filenum ∧ t.offset_ = e.offset) :
    ∃ s, ProcessTaskBody env t = Outcome.ret s t := by
  cases hr : t.reader_ with
  | none => exact ⟨_, ProcessTaskBody_no_reader env t (Or.inl hr)⟩
  | some rd =>
    cases hq : t.queue_ with
    | none => exact ⟨_, ProcessTaskBody_no_reader env t (Or.inr hq)⟩
    | some q =>
      cases hp : env.GetTablePartitionById t.table_name_ t.partition_id_ with
      | none => exact ⟨_, ProcessTaskBody_no_partition env t hp⟩
      | some part =>
        cases ho : part.opened with
        | false => exact ⟨_, ProcessTaskBody_closed env t part hp ho⟩
        | true =>
          have hpe : part.boffset = e := by
            unfold endOf at hend
            rw [hp] at hend
            exact Option.some.inj hend
          rw [← hpe] at hce
          exact ⟨_, ProcessTaskBody_at_end env t rd q part hr hq hp ho hce⟩

theorem ProcessTask_within_end (env : Env R F) (e : BinlogOffset) (he32 : e.filenum < 2 ^ 32)
    (he64 : e.offset < 2 ^ 64) (fuel : Nat) :
    ∀ (t t1 : ZPBinlogSendTask R F) (s : Status), ProcessTask env fuel t = some (s, t1) →
      endOf env t = some e →
      ProcessTaskWithinEnd env e fuel t → BinlogOffset.le (cursor t) e →
      BinlogOffset.le (cursor t1) e := by
  induction fuel with
  | zero =>
    intro t t1 s h
    cases h
  | succ f ih =>
    intro t t1 s h hend hin hle
    obtain ⟨hbody, hrest⟩ := hin
    by_cases hce : t.filenum_ = e.filenum ∧ t.offset_ = e.offset
    · obtain ⟨s2, hb⟩ := ProcessTaskBody_at_end_of env e t hend hce
      rw [ProcessTask_of_ret env t _ _ f hb] at h
      cases h
      exact hle
    · rcases ProcessTaskBody_cases env t with hb | hb | ⟨t2, hb, _, _, h3, _, rd, hr, h5⟩ |
        ⟨s2, t2, hb, _, _, h3, h4, _⟩ | ⟨t2, hb, hx, h1, h2, _⟩
      · rw [ProcessTask_of_ret env t _ _ f hb] at h
        cases h
        exact hle
      · rw [ProcessTask_of_ret env t _ _ f hb] at h
        cases h
        exact hle
      · rw [ProcessTask_of_ret env t _ _ f hb] at h
        cases h
        rcases hle with hlt | ⟨heq, _⟩
        · exact Or.inl (by show t1.filenum_ < e.filenum; rw [h3]; exact hlt)
        · have hb2 := hbody.2 rd hr heq (fun hc => hce ⟨heq, hc⟩)
          have hlt : t.offset_ + (consumeOrSkip env rd).consume_len < 2 ^ 64 := by omega
          rw [Nat.mod_eq_of_lt hlt] at h5
          exact Or.inr ⟨by show t1.filenum_ = e.filenum; rw [h3]; exact heq,
            by show t1.offset_ ≤ e.offset; rw [h5]; exact hb2⟩
      · rw [ProcessTask_of_ret env t _ _ f hb] at h
        cases h
        rcases hle with hlt | ⟨heq, hoff⟩
        · exact Or.inl (by show t1.filenum_ < e.filenum; rw [h3]; exact hlt)
        · exact Or.inr ⟨by show t1.filenum_ = e.filenum; rw [h3]; exact heq,
            by show t1.offset_ ≤ e.offset; rw [h4]; exact hoff⟩
      · rw [ProcessTask_of_recurse env t t2 f hb] at h
        rw [hb] at hrest
        have hle1 := hbody.1 hx
        have hlt : t.filenum_ + 1 < 2 ^ 32 := by omega
        rw [Nat.mod_eq_of_lt hlt] at h1
        obtain ⟨k1, k2, _⟩ := ProcessTaskBody_keeps env t t2 (Or.inr hb)
        have hend2 : endOf env t2 = some e := by
          unfold endOf
          rw [k1, k2]
          exact hend
        apply ih t2 t1 s h hend2 hrest
        unfold BinlogOffset.le
        show t2.filenum_ < e.filenum ∨ t2.filenum_ = e.filenum ∧ t2.offset_ ≤ e.offset
        omega

theorem endOf_congr (env : Env R F) (t t1 : ZPBinlogSendTask R F)
    (h1 : t1.table_name_ = t.table_name_) (h2 : t1.partition_id_ = t.partition_id_) :
    endOf env t1 = endOf env t := by
  unfold endOf
  rw [h1, h2]

theorem tasksAfter_within_end (fuel : Nat) (envs : List (Env R F)) :
    ∀ t : ZPBinlogSendTask R F,
      (∀ env e, envs.head? = some env → endOf env t = some e →
        BinlogOffset.le (cursor t) e) →
      AgreesWithEnd fuel envs t →
      ∀ x ∈ tasksAfter fuel envs t, ∀ e, endOf x.1 x.2 = some e →
        BinlogOffset.le (cursor x.2) e := by
  induction envs with
  | nil =>
    intro t _ _ x hx
    cases hx
  | cons env envs ih =>
    intro t h0 hag x hx e he
    obtain ⟨⟨e0, he0, h32, h64, hin, hmono⟩, hrest⟩ := hag
    cases hp : ProcessTask env fuel t with
    | none =>
      simp only [tasksAfter, hp] at hx
      cases hx
    | some res =>
      obtain ⟨s, t1⟩ := res
      rw [hp] at hrest
      simp only [tasksAfter, hp] at hx
      obtain ⟨k1, k2, _⟩ := ProcessTask_keeps env fuel t t1 s hp
      have hle1 : BinlogOffset.le (cursor t1) e0 :=
        ProcessTask_within_end env e0 h32 h64 fuel t t1 s hp he0 hin (h0 env e0 rfl he0)
      rcases List.mem_cons.mp hx with hx1 | hx1
      · subst hx1
        simp only at he
        rw [endOf_congr env t t1 k1 k2, he0] at he
        cases he
        exact hle1
      · apply ih t1 _ hrest x hx1 e he
        intro env2 e2 hh he2
        rw [endOf_congr env2 t t1 k1 k2] at he2
        exact BinlogOffset.le_trans _ _ _ hle1 (hmono env2 e2 hh he2)

/-- C13, as the claim states it, fails: a task at `(0, 100)`, before the partition's
end `(0, 200)`, meets a corrupt record; `SkipNextBlock` carries the reader to the
next block boundary and `ProcessTask` leaves the cursor at `(0, 65536)`, past the
end. -/
theorem cursor_can_pass_end :
    ∃ t1, ProcessTask corruptEnv 1 { sampleTask "a" 0 0 with offset_ := 100, reader_ := some 100 }
        = some (Status.OK, t1) ∧
      endOf corruptEnv t1 = some { filenum := 0, offset := 200 } ∧
      BinlogOffset.le
        (cursor ({ sampleTask "a" 0 0 with offset_ := 100, reader_ := some 100 } :
          ZPBinlogSendTask Nat Nat))
        { filenum := 0, offset := 200 } ∧
      cursor t1 = { filenum := 0, offset := 65536 } ∧
      ¬ BinlogOffset.le (cursor t1) { filenum := 0, offset := 200 } :=
  ⟨_, rfl, rfl, by decide, rfl, by decide⟩

/-- C13, amended: let a task start at a cursor not past the end of its partition's
binlog, and let `ProcessTask` be called any number of times, the partition being
known, its end never moving backwards, a successor file existing only below the
end's file, and the bytes that the reader reports in the end's file never
reaching beyond the end; then after every call the cursor is not past the end
of that time.  `ProcessTask` itself compares the cursor with the end for
equality only. -/
theorem cursor_within_end (fuel : Nat) (envs : List (Env R F)) (t : ZPBinlogSendTask R F)
    (hstart : ∀ env e, envs.head? = some env → endOf env t = some e →
      BinlogOffset.le (cursor t) e)
    (hagree : AgreesWithEnd fuel envs t) :
    ∀ x ∈ tasksAfter fuel envs t, ∀ e, endOf x.1 x.2 = some e →
      (x.2.filenum_ < e.filenum ∨ (x.2.filenum_ = e.filenum ∧ x.2.offset_ ≤ e.offset)) :=
  tasksAfter_within_end fuel envs t hstart hagree

/-- Witness of the amended C13: three calls in the sample environment, whose
partition has written up to `(0, 64)` and whose reader consumes 32 bytes a call;
the cursor goes to `(0, 32)` and `(0, 64)` and then rests at the end. -/
theorem cursor_within_end_witness :
    (tasksAfter 1 [sampleEnv, sampleEnv, sampleEnv] (sampleTask "a" 0 0)).map
        (fun x => cursor x.2)
      = [{ filenum := 0, offset := 32 }, { filenum := 0, offset := 64 },
         { filenum := 0, offset := 64 }] ∧
    ∀ x ∈ tasksAfter 1 [sampleEnv, sampleEnv, sampleEnv] (sampleTask "a" 0 0),
      ∀ e, endOf x.1 x.2 = some e →
        (x.2.filenum_ < e.filenum ∨ (x.2.filenum_ = e.filenum ∧ x.2.offset_ ≤ e.offset)) := by
  refine ⟨rfl, cursor_within_end 1 [sampleEnv, sampleEnv, sampleEnv] (sampleTask "a" 0 0)
    ?_ ?_⟩
  · intro env e henv he
    cases henv
    cases he
    decide
  · have hmono : ∀ (envs : List (Env Nat Nat)) (t : ZPBinlogSendTask Nat Nat)
        (env2 : Env Nat Nat) (e2 : BinlogOffset),
        (sampleEnv :: envs).head? = some env2 → endOf env2 t = some e2 →
        BinlogOffset.le { filenum := 0, offset := 64 } e2 := by
      intro envs t env2 e2 h1 h2
      cases h1
      cases h2
      decide
    refine ⟨⟨{ filenum := 0, offset := 64 }, rfl, by decide, by decide,
        ⟨⟨fun h => Bool.noConfusion h, ?_⟩, trivial⟩, hmono _ _⟩, ?_⟩
    · intro rd hrd _ _
      cases hrd
      decide
    refine ⟨⟨{ filenum := 0, offset := 64 }, rfl, by decide, by decide,
        ⟨⟨fun h => Bool.noConfusion h, ?_⟩, trivial⟩, hmono _ _⟩, ?_⟩
    · intro rd hrd _ _
      cases hrd
      decide
    refine ⟨⟨{ filenum := 0, offset := 64 }, rfl, by decide, by decide,
        ⟨⟨fun h => Bool.noConfusion h, ?_⟩, trivial⟩, ?_⟩, trivial⟩
    · intro rd hrd _ hne
      exact absurd rfl hne
    · intro env2 e2 h1
      cases h1

/-! ## Replacing a task by force -/

theorem listErase_filter {α : Type} (P : Nat × α → Bool) (l : List (Nat × α)) (it : Nat)
    (h : ∀ x ∈ l, x.1 = it → P x = false) :
    (listErase l it).filter P = l.filter P := by
  induction l with
  | nil => rfl
  | cons y l ih =>
    obtain ⟨a, b⟩ := y
    by_cases ha : a = it
    · have hp : P (a, b) = false := h (a, b) (List.mem_cons_self _ _) ha
      simp only [listErase, ha, if_true]
      rw [← ha, List.filter_cons_of_neg (by simp [hp])]
    · have ih2 := ih (fun x hx => h x (List.mem_cons_of_mem _ hx))
      simp only [listErase, ha, if_false, List.filter_cons, ih2]

theorem unlink_names (p : ZPBinlogSendTaskPool R F) (wf : WellFormed p) (n : String)
    (h : ZPBinlogSendTaskHandle) (hf : idxFind p.task_ptrs_ n = some h) :
    (∀ x ∈ unlink p.tasks_ h.iter, x.2.name_ ≠ n) ∧
    (unlink p.tasks_ h.iter).filter (fun x => decide (x.2.name_ ≠ n))
      = p.tasks_.filter (fun x => decide (x.2.name_ ≠ n)) := by
  cases hi : h.iter with
  | none =>
    refine ⟨?_, rfl⟩
    intro x hx hn
    obtain ⟨h0, hf0, hi0⟩ := wf.queue_to_index x.1 x.2 hx
    rw [hn, hf] at hf0
    cases hf0
    rw [hi] at hi0
    cases hi0
  | some it =>
    constructor
    · intro x hx hn
      have hx1 : x ∈ listErase p.tasks_ it := hx
      have hmem : x ∈ p.tasks_ := (listErase_sublist p.tasks_ it).subset hx1
      obtain ⟨h0, hf0, hi0⟩ := wf.queue_to_index x.1 x.2 hmem
      rw [hn, hf] at hf0
      cases hf0
      rw [hi] at hi0
      exact ne_of_mem_listErase p.tasks_ it x wf.nodes hx1 (Option.some.inj hi0).symm
    · apply listErase_filter
      intro x hx hxi
      rcases wf.index_to_queue n h hf with h1 | ⟨it1, t1, h1, h2, h3⟩
      · rw [hi] at h1
        cases h1
      · rw [hi] at h1
        cases h1
        have hxe := node_unique p.tasks_ wf.nodes x (it, t1) hx h2 hxi
        rw [hxe]
        simp [h3]

theorem AddNewTask_forced (env : Env R F) (p : ZPBinlogSendTaskPool R F)
    (table_name : String) (id : Int) (binlog_filename : String) (target : Node)
    (ifilenum ioffset : Nat) (s : Status) (task : ZPBinlogSendTask R F)
    (h : ZPBinlogSendTaskHandle)
    (hc : Create env p.next_sequence_ table_name id binlog_filename target ifilenum ioffset
      = (s, some task))
    (hf : idxFind p.task_ptrs_ (ZPBinlogSendTaskName table_name id target) = some h) :
    AddNewTask env p table_name id binlog_filename target ifilenum ioffset true
      = (Status.OK,
        { next_sequence_ := (p.next_sequence_ + 1) % 2 ^ 64
          tasks_ := unlink p.tasks_ h.iter
            ++ [(newNode (unlink p.tasks_ h.iter), task)]
          task_ptrs_ := idxSubscript
            (idxErase p.task_ptrs_ (ZPBinlogSendTaskName table_name id target))
            (ZPBinlogSendTaskName table_name id target) (fun _ =>
              { iter := some (newNode (unlink p.tasks_ h.iter)),
                sequence := task.sequence_, filenum_snap := task.filenum_ }) }) := by
  obtain ⟨hname, _, hs⟩ := Create_some env _ _ _ _ _ _ _ s task hc
  subst hs
  obtain ⟨p1, hp1⟩ : ∃ p1 : ZPBinlogSendTaskPool R F,
      p1 = { p with next_sequence_ := (p.next_sequence_ + 1) % 2 ^ 64 } := ⟨_, rfl⟩
  have hf1 : idxFind p1.task_ptrs_ (ZPBinlogSendTaskName table_name id target) = some h := by
    rw [hp1]; exact hf
  have hex : TaskExist p1 (ZPBinlogSendTaskName table_name id target) = true := by
    unfold TaskExist
    rw [hf1]
  have hrem := RemoveTask_present p1 _ h hf1
  have hnone : idxFind (RemoveTask p1
      (ZPBinlogSendTaskName table_name id target)).2.task_ptrs_ task.name_ = none := by
    rw [hrem, hname]
    exact idxFind_erase_self _ _
  have hadd := AddTask_absent _ task hnone
  unfold AddNewTask
  rw [hc, ← hp1]
  simp only [Status.ok, Bool.not_true, Bool.false_eq_true, if_false, hname, hex,
    Bool.and_self, if_true]
  rw [hname] at hadd
  rw [hadd, hrem, hp1]
  rfl

/-- C14: in a well-formed pool that holds the name `n`, queued or fetched out, an
`AddNewTask` with `force` set whose task creation succeeds returns `OK`; the
entry of `n` then has the sequence of the new task and an iterator that points
to the new task in a new node at the tail of the queue, no other task of the
name `n` is in the queue, and the tasks of other names are queued in the order
they had; `PutBack` of a handle of the name `n` then returns `NotFound` and
leaves the pool as it is, the new task being the one task under `n`. -/
theorem AddNewTask_force_replaces (env : Env R F) (p : ZPBinlogSendTaskPool R F)
    (table_name : String) (id : Int) (binlog_filename : String) (target : Node)
    (ifilenum ioffset : Nat) (s : Status) (task : ZPBinlogSendTask R F)
    (h : ZPBinlogSendTaskHandle) (wf : WellFormed p)
    (hc : Create env p.next_sequence_ table_name id binlog_filename target ifilenum ioffset
      = (s, some task))
    (hf : idxFind p.task_ptrs_ (ZPBinlogSendTaskName table_name id target) = some h) :
    (AddNewTask env p table_name id binlog_filename target ifilenum ioffset true).1
      = Status.OK ∧
    task.name_ = ZPBinlogSendTaskName table_name id target ∧
    task.sequence_ = p.next_sequence_ ∧
    (AddNewTask env p table_name id binlog_filename target ifilenum ioffset true).2.tasks_
      = unlink p.tasks_ h.iter ++ [(newNode (unlink p.tasks_ h.iter), task)] ∧
    (∀ x ∈ unlink p.tasks_ h.iter, x.1 ≠ newNode (unlink p.tasks_ h.iter)) ∧
    idxFind (AddNewTask env p table_name id binlog_filename target ifilenum ioffset
        true).2.task_ptrs_ (ZPBinlogSendTaskName table_name id target)
      = some { iter := some (newNode (unlink p.tasks_ h.iter)),
               sequence := task.sequence_, filenum_snap := task.filenum_ } ∧
    (∀ x ∈ unlink p.tasks_ h.iter,
      x.2.name_ ≠ ZPBinlogSendTaskName table_name id target) ∧
    (AddNewTask env p table_name id binlog_filename target ifilenum ioffset
        true).2.tasks_.filter
        (fun x => decide (x.2.name_ ≠ ZPBinlogSendTaskName table_name id target))
      = p.tasks_.filter
        (fun x => decide (x.2.name_ ≠ ZPBinlogSendTaskName table_name id target)) ∧
    (AddNewTask env p table_name id binlog_filename target ifilenum ioffset
        true).2.tasks_.filter
        (fun x => decide (x.2.name_ = ZPBinlogSendTaskName table_name id target))
      = [(newNode (unlink p.tasks_ h.iter), task)] ∧
    (∀ old : ZPBinlogSendTask R F,
      old.name_ = ZPBinlogSendTaskName table_name id target →
      PutBack (AddNewTask env p table_name id binlog_filename target ifilenum ioffset
          true).2 old
        = (Status.NotFound,
          (AddNewTask env p table_name id binlog_filename target ifilenum ioffset
            true).2)) := by
  obtain ⟨hname, hseq, _⟩ := Create_some env _ _ _ _ _ _ _ s task hc
  obtain ⟨hnames, hfilter⟩ := unlink_names p wf _ h hf
  rw [AddNewTask_forced env p table_name id binlog_filename target ifilenum ioffset s task h
    hc hf]
  have hidx : idxFind (idxSubscript
      (idxErase p.task_ptrs_ (ZPBinlogSendTaskName table_name id target))
      (ZPBinlogSendTaskName table_name id target) (fun _ =>
        ({ iter := some (newNode (unlink p.tasks_ h.iter)),
           sequence := task.sequence_, filenum_snap := task.filenum_ } :
          ZPBinlogSendTaskHandle)))
      (ZPBinlogSendTaskName table_name id target)
      = some { iter := some (newNode (unlink p.tasks_ h.iter)),
               sequence := task.sequence_, filenum_snap := task.filenum_ } := by
    rw [idxFind_subscript_self]
  refine ⟨rfl, hname, hseq, rfl, newNode_ne _, hidx, hnames, ?_, ?_, ?_⟩
  · simp only [List.filter_append, List.filter_cons, List.filter_nil, hname]
    simpa using hfilter
  · simp only [List.filter_append, List.filter_cons, List.filter_nil, hname]
    have hnil : (unlink p.tasks_ h.iter).filter
        (fun x => decide (x.2.name_ = ZPBinlogSendTaskName table_name id target)) = [] := by
      rw [List.filter_eq_nil_iff]
      intro x hx
      simp [hnames x hx]
    simp [hnil]
  · intro old hold
    apply PutBack_stale _ old _ (by rw [hold]; exact hidx)
    exact Or.inl (by simp)

/-- Witness of C14: in the pool that holds the task created by `sampleAdd 0`, a
forced `AddNewTask` for the same name puts the new task, of sequence 1, in the
place of the old one, and the old handle is refused. -/
theorem AddNewTask_force_replaces_witness :
    (applyOp (applyOp (ZPBinlogSendTaskPool.init Nat Nat) (sampleAdd 0 false))
        (sampleAdd 5 true)).tasks_ = [(0, sampleCreated 1 5)] ∧
    PutBack (applyOp (applyOp (ZPBinlogSendTaskPool.init Nat Nat) (sampleAdd 0 false))
        (sampleAdd 5 true)) (sampleCreated 0 0)
      = (Status.NotFound,
        applyOp (applyOp (ZPBinlogSendTaskPool.init Nat Nat) (sampleAdd 0 false))
          (sampleAdd 5 true)) := by
  have h := AddNewTask_force_replaces sampleEnv
    (applyOp (ZPBinlogSendTaskPool.init Nat Nat) (sampleAdd 0 false))
    "t" 0 "binlog" { ip := "h", port := 1 } 5 0 Status.OK (sampleCreated 1 5)
    { iter := some 0, sequence := 0, filenum_snap := 0 }
    (WellFormed_applyOp _ _ WellFormed_init) rfl rfl
  exact ⟨h.2.2.2.1, h.2.2.2.2.2.2.2.2.2 (sampleCreated 0 0) rfl⟩

/-! ## Round robin -/

theorem idxModify_data (m : ZPBinlogSendTaskIndex) (k : String)
    (f : ZPBinlogSendTaskHandle → ZPBinlogSendTaskHandle)
    (hf : ∀ h, idxFind m k = some h →
      (f h).sequence = h.sequence ∧ (f h).filenum_snap = h.filenum_snap) :
    (idxModify m k f).map entryData = m.map entryData := by
  induction m with
  | nil => rfl
  | cons e m ih =>
    obtain ⟨k1, h⟩ := e
    by_cases hk : k1 = k
    · have h1 := hf h (by simp [idxFind, hk])
      simp [idxModify, hk, entryData, h1.1, h1.2]
    · have ih2 := ih (fun h2 hf2 => hf h2 (by simp [idxFind, hk, hf2]))
      simp [idxModify, hk, ih2]

theorem fetchMany_take (k : Nat) :
    ∀ p : ZPBinlogSendTaskPool R F,
      (fetchMany k p).1 = (p.tasks_.map Prod.snd).take k := by
  induction k with
  | zero => intro p; rfl
  | succ k ih =>
    intro p
    cases he : p.tasks_ with
    | nil =>
      have h1 := FetchOut_empty p he
      simp only [fetchMany, h1]
      rw [ih p, he]
      simp
    | cons x rest =>
      obtain ⟨it, t⟩ := x
      have h1 := FetchOut_front p it t rest he
      simp only [fetchMany, h1]
      rw [ih]
      simp

theorem rotate_step (p : ZPBinlogSendTaskPool R F) (st : Settled p) (it : Nat)
    (t : ZPBinlogSendTask R F) (rest : List (Nat × ZPBinlogSendTask R F))
    (he : p.tasks_ = (it, t) :: rest) :
    (FetchOut p).2.1 = some t ∧
    (PutBack (FetchOut p).2.2 t).1 = Status.OK ∧
    Settled (PutBack (FetchOut p).2.2 t).2 ∧
    (PutBack (FetchOut p).2.2 t).2.tasks_.map Prod.snd = rest.map Prod.snd ++ [t] ∧
    (PutBack (FetchOut p).2.2 t).2.task_ptrs_.map entryData = p.task_ptrs_.map entryData ∧
    (PutBack (FetchOut p).2.2 t).2.next_sequence_ = p.next_sequence_ := by
  have hhead : (it, t) ∈ p.tasks_ := by rw [he]; exact List.mem_cons_self _ _
  obtain ⟨h0, hf0, hi0⟩ := st.wf.queue_to_index it t hhead
  have hseq0 := st.seq it t hhead h0 hf0
  have hsnap0 := st.snap it t hhead h0 hf0
  have hnames := WellFormed_names_nodup p st.wf
  rw [he] at hnames
  simp only [List.map_cons, List.nodup_cons] at hnames
  have hfetch := FetchOut_front p it t rest he
  obtain ⟨p1, hp1⟩ : ∃ p1, p1 = (FetchOut p).2.2 := ⟨_, rfl⟩
  have hp1t : p1.tasks_ = rest := by rw [hp1, hfetch]
  have hp1i : p1.task_ptrs_ = idxModify p.task_ptrs_ t.name_
      (fun h => { h with iter := none }) := by
    rw [hp1, hfetch]
    simp only [idxSubscript, hf0]
  have hp1n : p1.next_sequence_ = p.next_sequence_ := by rw [hp1, hfetch]
  have hf1 : idxFind p1.task_ptrs_ t.name_
      = some { iter := none, sequence := h0.sequence, filenum_snap := h0.filenum_snap } := by
    rw [hp1i, idxFind_modify_self, hf0]
    rfl
  have wf1 : WellFormed p1 := by rw [hp1]; exact WellFormed_FetchOut p st.wf
  have hput := PutBack_current p1 t _ hf1 rfl hseq0
  have wf2 : WellFormed (PutBack p1 t).2 := WellFormed_PutBack p1 t wf1
  have hseq2 : SeqMatch (PutBack p1 t).2 := by
    apply SeqMatch_PutBack
    rw [hp1]
    exact SeqMatch_of_sub p _ st.seq (tasks_FetchOut p) (SeqSub_FetchOut p st.wf)
  rw [← hp1]
  have hfind2 : ∀ n, idxFind (PutBack p1 t).2.task_ptrs_ n =
      if n = t.name_ then
        some { iter := some (newNode p1.tasks_), sequence := h0.sequence,
               filenum_snap := t.filenum_ }
      else idxFind p.task_ptrs_ n := by
    intro n
    rw [hput]
    simp only
    by_cases hn : n = t.name_
    · rw [if_pos hn, hn, idxFind_modify_self, hf1]
      rfl
    · rw [if_neg hn, idxFind_modify_ne _ _ _ _ hn, hp1i, idxFind_modify_ne _ _ _ _ hn]
  have htasks2 : (PutBack p1 t).2.tasks_ = rest ++ [(newNode rest, t)] := by
    rw [hput]
    simp only [hp1t]
  refine ⟨by rw [hfetch], by rw [hput], ⟨wf2, hseq2, ?_, ?_⟩, ?_, ?_, ?_⟩
  · intro it1 t1 hm h1 hfd
    rw [htasks2] at hm
    rw [hfind2] at hfd
    rcases List.mem_append.mp hm with h2 | h2
    · have hne : t1.name_ ≠ t.name_ := by
        intro hc
        apply hnames.1
        rw [← hc]
        exact List.mem_map_of_mem (fun x => x.2.name_) h2
      rw [if_neg hne] at hfd
      exact st.snap it1 t1 (by rw [he]; exact List.mem_cons_of_mem _ h2) h1 hfd
    · rw [List.mem_singleton] at h2
      cases h2
      rw [if_pos rfl] at hfd
      cases hfd
      rfl
  · intro n h1 hfd
    rw [hfind2] at hfd
    by_cases hn : n = t.name_
    · rw [if_pos hn] at hfd
      cases hfd
      simp
    · rw [if_neg hn] at hfd
      exact st.queued n h1 hfd
  · rw [htasks2]
    simp
  · rw [hput]
    simp only
    rw [idxModify_data, hp1i, idxModify_data]
    · intro h _
      exact ⟨rfl, rfl⟩
    · intro h hfd
      rw [hf1] at hfd
      cases hfd
      exact ⟨rfl, hsnap0.symm⟩
  · rw [hput]
    exact hp1n

theorem rotateMany_spec (k : Nat) :
    ∀ p : ZPBinlogSendTaskPool R F, Settled p → k ≤ p.tasks_.length →
      (rotateMany k p).1 = (p.tasks_.map Prod.snd).take k ∧
      (rotateMany k p).2.1 = List.replicate k Status.OK ∧
      Settled (rotateMany k p).2.2 ∧
      (rotateMany k p).2.2.tasks_.map Prod.snd = (p.tasks_.map Prod.snd).rotate k ∧
      (rotateMany k p).2.2.task_ptrs_.map entryData = p.task_ptrs_.map entryData ∧
      (rotateMany k p).2.2.next_sequence_ = p.next_sequence_ := by
  induction k with
  | zero =>
    intro p st _
    exact ⟨rfl, rfl, st, by simp [rotateMany], rfl, rfl⟩
  | succ k ih =>
    intro p st hk
    cases he : p.tasks_ with
    | nil =>
      rw [he] at hk
      cases hk
    | cons x rest =>
      obtain ⟨it, t⟩ := x
      obtain ⟨h1, h2, h3, h4, h5, h6⟩ := rotate_step p st it t rest he
      have hlen : k ≤ (PutBack (FetchOut p).2.2 t).2.tasks_.length := by
        have hl := congrArg List.length h4
        simp only [List.length_map, List.length_append, List.length_singleton] at hl
        rw [he] at hk
        simp only [List.length_cons] at hk
        omega
      obtain ⟨i1, i2, i3, i4, i5, i6⟩ := ih _ h3 hlen
      have hk2 : k ≤ (rest.map Prod.snd).length := by
        rw [he] at hk
        simp only [List.length_cons] at hk
        simp only [List.length_map]
        omega
      simp only [rotateMany, h1]
      refine ⟨?_, ?_, i3, ?_, i5.trans h5, i6.trans h6⟩
      · rw [i1, h4, List.take_append_of_le_length hk2]
        simp
      · rw [i2, h2]
        rfl
      · rw [i4, h4]
        simp only [List.map_cons]
        rw [List.rotate_cons_succ]

/-- C15: in a pool that is well formed, whose queued tasks bear the sequence and the
file number that their entries hold, and from which no task is fetched out, as
many `FetchOut` calls as the queue is long hand out the queued tasks in queue
order; and as many pairs of `FetchOut` and `PutBack` of the task just fetched hand
out the queued tasks in queue order, every `PutBack` answering `OK`, and leave the
pool as it was: the same tasks queued in the same order, the same entries with
the same sequences and snapshots, every iterator pointing to the node of the
entry's task (the nodes are those that `PutBack` allocated), and the same
counter. -/
theorem round_robin (p : ZPBinlogSendTaskPool R F) (st : Settled p) :
    (fetchMany p.tasks_.length p).1 = p.tasks_.map Prod.snd ∧
    (rotateMany p.tasks_.length p).1 = p.tasks_.map Prod.snd ∧
    (rotateMany p.tasks_.length p).2.1 = List.replicate p.tasks_.length Status.OK ∧
    (rotateMany p.tasks_.length p).2.2.tasks_.map Prod.snd = p.tasks_.map Prod.snd ∧
    (rotateMany p.tasks_.length p).2.2.task_ptrs_.map entryData
      = p.task_ptrs_.map entryData ∧
    (rotateMany p.tasks_.length p).2.2.next_sequence_ = p.next_sequence_ ∧
    (∀ n h, idxFind (rotateMany p.tasks_.length p).2.2.task_ptrs_ n = some h →
      ∃ it t, h.iter = some it ∧ (it, t) ∈ (rotateMany p.tasks_.length p).2.2.tasks_ ∧
        t.name_ = n) ∧
    (∀ it t, (it, t) ∈ (rotateMany p.tasks_.length p).2.2.tasks_ →
      ∃ h, idxFind (rotateMany p.tasks_.length p).2.2.task_ptrs_ t.name_ = some h ∧
        h.iter = some it) := by
  obtain ⟨h1, h2, h3, h4, h5, h6⟩ := rotateMany_spec p.tasks_.length p st (Nat.le_refl _)
  have hl : (p.tasks_.map Prod.snd).length = p.tasks_.length := List.length_map _ _
  refine ⟨?_, ?_, h2, ?_, h5, h6, ?_, h3.wf.queue_to_index⟩
  · rw [fetchMany_take, ← hl, List.take_length]
  · rw [h1, ← hl, List.take_length]
  · rw [h4, ← hl, List.rotate_length]
  · intro n h hf
    rcases h3.wf.index_to_queue n h hf with hn | hn
    · exact absurd hn (h3.queued n h hf)
    · exact hn

theorem twoPool_find (n : String) (h : ZPBinlogSendTaskHandle)
    (hf : idxFind twoPool.task_ptrs_ n = some h) :
    (n = "a" ∧ h = { iter := some 1, sequence := 0, filenum_snap := 0 }) ∨
    (n = "b" ∧ h = { iter := some 2, sequence := 1, filenum_snap := 0 }) := by
  simp only [twoPool, idxFind] at hf
  split at hf
  · rename_i hn
    cases hf
    exact Or.inl ⟨hn.symm, rfl⟩
  · split at hf
    · rename_i hn
      cases hf
      exact Or.inr ⟨hn.symm, rfl⟩
    · cases hf

theorem twoPool_mem (it : Nat) (t : ZPBinlogSendTask Nat Nat) (hm : (it, t) ∈ twoPool.tasks_) :
    (it = 1 ∧ t = sampleTask "a" 0 0) ∨ (it = 2 ∧ t = sampleTask "b" 1 0) := by
  simp only [twoPool, List.mem_cons, List.mem_singleton, Prod.mk.injEq, List.not_mem_nil,
    or_false] at hm
  exact hm

theorem twoPool_settled : Settled twoPool where
  wf :=
    { nodes := by decide
      keys := by decide
      index_to_queue := by
        intro n h hf
        rcases twoPool_find n h hf with ⟨hn, hh⟩ | ⟨hn, hh⟩
        · subst hn hh
          exact Or.inr ⟨1, sampleTask "a" 0 0, rfl, by simp [twoPool], rfl⟩
        · subst hn hh
          exact Or.inr ⟨2, sampleTask "b" 1 0, rfl, by simp [twoPool], rfl⟩
      queue_to_index := by
        intro it t hm
        rcases twoPool_mem it t hm with ⟨hi, ht⟩ | ⟨hi, ht⟩
        · subst hi ht
          exact ⟨_, rfl, rfl⟩
        · subst hi ht
          exact ⟨_, rfl, rfl⟩ }
  seq := by
    intro it t hm h hf
    rcases twoPool_mem it t hm with ⟨hi, ht⟩ | ⟨hi, ht⟩
    · subst hi ht
      cases hf
      rfl
    · subst hi ht
      cases hf
      rfl
  snap := by
    intro it t hm h hf
    rcases twoPool_mem it t hm with ⟨hi, ht⟩ | ⟨hi, ht⟩
    · subst hi ht
      cases hf
      rfl
    · subst hi ht
      cases hf
      rfl
  queued := by
    intro n h hf
    rcases twoPool_find n h hf with ⟨_, hh⟩ | ⟨_, hh⟩
    · subst hh
      simp
    · subst hh
      simp

/-- Witness of C15 on the pool that queues `a`, then `b`: two `FetchOut` calls hand
out `a`, then `b`, and two rounds of `FetchOut` and `PutBack` do the same, are
both accepted, and leave `a`, then `b`, queued. -/
theorem round_robin_witness :
    (fetchMany 2 twoPool).1 = [sampleTask "a" 0 0, sampleTask "b" 1 0] ∧
    (rotateMany 2 twoPool).1 = [sampleTask "a" 0 0, sampleTask "b" 1 0] ∧
    (rotateMany 2 twoPool).2.1 = [Status.OK, Status.OK] ∧
    (rotateMany 2 twoPool).2.2.tasks_.map Prod.snd
      = [sampleTask "a" 0 0, sampleTask "b" 1 0] ∧
    (rotateMany 2 twoPool).2.2.task_ptrs_.map entryData = [("a", 0, 0), ("b", 1, 0)] := by
  have h := round_robin twoPool twoPool_settled
  exact ⟨h.1, h.2.1, h.2.2.1, h.2.2.2.1, h.2.2.2.2.1⟩

/-! ## The lease and the creation of a task -/

theorem toInt64_of_lt (v : Nat) (h : v < 2 ^ 63) : toInt64 (v : Int) = (v : Int) := by
  unfold toInt64
  have h63 : (2 : Int) ^ 63 = 9223372036854775808 := by norm_num
  have h64 : (2 : Int) ^ 64 = 18446744073709551616 := by norm_num
  have hn : (2 : Nat) ^ 63 = 9223372036854775808 := by norm_num
  rw [hn] at h
  rw [h63, h64]
  omega

theorem leaseTime_eq (c : BinlogConsts) (n w : Nat) (hw : 0 < w)
    (hr : n * c.kBinlogTimeSlice / w + c.kBinlogRedundantLease < 2 ^ 63) :
    leaseTime c n w = some ((max c.kBinlogMinLease
      (n * c.kBinlogTimeSlice / w + c.kBinlogRedundantLease) : Nat) : Int) := by
  unfold leaseTime
  have hw2 : ¬ w = 0 := by omega
  simp only [hw2, if_false]
  rw [toInt64_of_lt _ hr]
  by_cases hlt : n * c.kBinlogTimeSlice / w + c.kBinlogRedundantLease < c.kBinlogMinLease
  · have h1 : ((n * c.kBinlogTimeSlice / w + c.kBinlogRedundantLease : Nat) : Int)
        < (c.kBinlogMinLease : Int) := by exact_mod_cast hlt
    rw [if_pos h1, max_eq_left (by omega)]
  · have h1 : ¬ ((n * c.kBinlogTimeSlice / w + c.kBinlogRedundantLease : Nat) : Int)
        < (c.kBinlogMinLease : Int) := by
      intro hc
      exact hlt (by exact_mod_cast hc)
    rw [if_neg h1, max_eq_right (by omega)]

/-- C16: for every pool size `n` and every number `w > 0` of sender threads, the
lease that `RenewPeerLease` computes and sends is the larger of `kBinlogMinLease`
and `n * kBinlogTimeSlice / w + kBinlogRedundantLease`, the division being the
integer division of natural numbers and the sum fitting the `int64_t` it is
stored in; hence it is at least `kBinlogMinLease` and does not decrease when `n`
grows.  With `w = 0` the computation has no value. -/
theorem lease_formula (c : BinlogConsts) (n w : Nat) (hw : 0 < w)
    (hr : n * c.kBinlogTimeSlice / w + c.kBinlogRedundantLease < 2 ^ 63) :
    leaseTime c n w = some ((max c.kBinlogMinLease
      (n * c.kBinlogTimeSlice / w + c.kBinlogRedundantLease) : Nat) : Int) ∧
    (∀ l, leaseTime c n w = some l → (c.kBinlogMinLease : Int) ≤ l) ∧
    (∀ n2 l l2, n ≤ n2 →
      n2 * c.kBinlogTimeSlice / w + c.kBinlogRedundantLease < 2 ^ 63 →
      leaseTime c n w = some l → leaseTime c n2 w = some l2 → l ≤ l2) ∧
    leaseTime c n 0 = none ∧
    (∀ (env : Env R F) (pool : ZPBinlogSendTaskPool R F) (task : ZPBinlogSendTask R F)
        (send : Status),
      Size pool = n → env.binlog_sender_count = w →
      ∃ msg, RenewPeerLease c env pool task send = some (send.ok, msg) ∧
        msg.sync_type = SyncType.LEASE ∧
        msg.sync_lease.lease = ((max c.kBinlogMinLease
          (n * c.kBinlogTimeSlice / w + c.kBinlogRedundantLease) : Nat) : Int)) := by
  have h1 := leaseTime_eq c n w hw hr
  refine ⟨h1, ?_, ?_, ?_, ?_⟩
  · intro l hl
    rw [h1] at hl
    cases hl
    exact_mod_cast le_max_left _ _
  · intro n2 l l2 hn hr2 hl hl2
    rw [h1] at hl
    rw [leaseTime_eq c n2 w hw hr2] at hl2
    cases hl
    cases hl2
    have hm : n * c.kBinlogTimeSlice / w ≤ n2 * c.kBinlogTimeSlice / w :=
      Nat.div_le_div_right (Nat.mul_le_mul_right _ hn)
    have : max c.kBinlogMinLease (n * c.kBinlogTimeSlice / w + c.kBinlogRedundantLease)
        ≤ max c.kBinlogMinLease (n2 * c.kBinlogTimeSlice / w + c.kBinlogRedundantLease) :=
      max_le_max (Nat.le_refl _) (Nat.add_le_add_right hm _)
    exact_mod_cast this
  · simp [leaseTime]
  · intro env pool task send hs hc
    unfold RenewPeerLease
    rw [hs, hc, h1]
    exact ⟨_, rfl, rfl, rfl⟩

/-- Witness of C16: with a time slice of 3, a redundant lease of 10 and a least
lease of 20, seven tasks on two threads give the lease 20 and eight give 22. -/
theorem lease_formula_witness :
    leaseTime sampleConsts 7 2 = some 20 ∧ leaseTime sampleConsts 8 2 = some 22 ∧
    leaseTime sampleConsts 7 0 = none := by
  have h7 := @lease_formula Nat Nat sampleConsts 7 2 (by decide) (by decide)
  have h8 := @lease_formula Nat Nat sampleConsts 8 2 (by decide) (by decide)
  exact ⟨h7.1, h8.1, h7.2.2.2.1⟩

/-- C17, as the claim states it, fails: when the file opens and the reader refuses
the offset, `Create` returns the status of `Seek`, here `InvalidArgument`, which is
not the kind `io_error`; no task is handed back. -/
theorem Create_seek_failure_not_io_error :
    (badSeekEnv.NewSequentialFile (badSeekEnv.NewFileName "binlog" 0)).1.ok = true ∧
    Create badSeekEnv 0 "t" 0 "binlog" { ip := "h", port := 1 } 0 7
      = (Status.InvalidArgument, none) ∧
    (Create badSeekEnv 0 "t" 0 "binlog" { ip := "h", port := 1 } 0 7).1.kind
      ≠ some ErrorKind.io_error :=
  ⟨rfl, rfl, by decide⟩

/-- C17, amended: `Create` returns `OK` with a task exactly when the file of the
number `ifilenum` opens and the reader's seek to `ioffset` succeeds; when the
file does not open it returns `IOError`, when the seek fails it returns the status
of the seek, and in both cases no task is handed back. -/
theorem Create_contract (env : Env R F) (seq : Nat) (table : String) (id : Int)
    (binlog_filename : String) (target : Node) (ifilenum ioffset : Nat) :
    ((∃ task, Create env seq table id binlog_filename target ifilenum ioffset
        = (Status.OK, some task)) ↔
      ((env.NewSequentialFile (env.NewFileName binlog_filename ifilenum)).1.ok = true ∧
        (env.Seek (env.BinlogReader
          (env.NewSequentialFile (env.NewFileName binlog_filename ifilenum)).2)
          ioffset).1.ok = true)) ∧
    ((env.NewSequentialFile (env.NewFileName binlog_filename ifilenum)).1.ok = false →
      Create env seq table id binlog_filename target ifilenum ioffset
        = (Status.IOError, none)) ∧
    ((env.NewSequentialFile (env.NewFileName binlog_filename ifilenum)).1.ok = true →
      (env.Seek (env.BinlogReader
        (env.NewSequentialFile (env.NewFileName binlog_filename ifilenum)).2)
        ioffset).1.ok = false →
      Create env seq table id binlog_filename target ifilenum ioffset
        = ((env.Seek (env.BinlogReader
            (env.NewSequentialFile (env.NewFileName binlog_filename ifilenum)).2)
            ioffset).1, none)) ∧
    ((env.NewSequentialFile (env.NewFileName binlog_filename ifilenum)).1.ok = true →
      (env.Seek (env.BinlogReader
        (env.NewSequentialFile (env.NewFileName binlog_filename ifilenum)).2)
        ioffset).1.ok = true →
      Create env seq table id binlog_filename target ifilenum ioffset
        = (Status.OK, some
          { (ZPBinlogSendTask.new seq table id binlog_filename target ifilenum ioffset :
              ZPBinlogSendTask R F) with
            queue_ := (env.NewSequentialFile (env.NewFileName binlog_filename ifilenum)).2
            reader_ := some (env.Seek (env.BinlogReader
              (env.NewSequentialFile (env.NewFileName binlog_filename ifilenum)).2)
              ioffset).2 })) := by
  have hfail : (env.NewSequentialFile (env.NewFileName binlog_filename ifilenum)).1.ok = false →
      Create env seq table id binlog_filename target ifilenum ioffset
        = (Status.IOError, none) := by
    intro h
    unfold Create Init
    dsimp only [ZPBinlogSendTask.new]
    simp only [h, Bool.not_false, if_true]
    rfl
  have hseek : (env.NewSequentialFile (env.NewFileName binlog_filename ifilenum)).1.ok = true →
      (env.Seek (env.BinlogReader
        (env.NewSequentialFile (env.NewFileName binlog_filename ifilenum)).2)
        ioffset).1.ok = false →
      Create env seq table id binlog_filename target ifilenum ioffset
        = ((env.Seek (env.BinlogReader
            (env.NewSequentialFile (env.NewFileName binlog_filename ifilenum)).2)
            ioffset).1, none) := by
    intro h1 h2
    unfold Create Init
    dsimp only [ZPBinlogSendTask.new]
    simp only [h1, h2, Bool.not_false, Bool.not_true, if_true, if_false]
    simp [h2]
  have hok : (env.NewSequentialFile (env.NewFileName binlog_filename ifilenum)).1.ok = true →
      (env.Seek (env.BinlogReader
        (env.NewSequentialFile (env.NewFileName binlog_filename ifilenum)).2)
        ioffset).1.ok = true →
      Create env seq table id binlog_filename target ifilenum ioffset
        = (Status.OK, some
          { (ZPBinlogSendTask.new seq table id binlog_filename target ifilenum ioffset :
              ZPBinlogSendTask R F) with
            queue_ := (env.NewSequentialFile (env.NewFileName binlog_filename ifilenum)).2
            reader_ := some (env.Seek (env.BinlogReader
              (env.NewSequentialFile (env.NewFileName binlog_filename ifilenum)).2)
              ioffset).2 }) := by
    intro h1 h2
    unfold Create Init
    dsimp only [ZPBinlogSendTask.new]
    simp only [h1, h2, Bool.not_true, if_false]
    simp
    rfl
  refine ⟨⟨?_, fun h => ⟨_, hok h.1 h.2⟩⟩, hfail, hseek, hok⟩
  rintro ⟨task, hc⟩
  cases h1 : (env.NewSequentialFile (env.NewFileName binlog_filename ifilenum)).1.ok with
  | false =>
    rw [hfail h1] at hc
    cases hc
  | true =>
    cases h2 : (env.Seek (env.BinlogReader
        (env.NewSequentialFile (env.NewFileName binlog_filename ifilenum)).2)
        ioffset).1.ok with
    | false =>
      rw [hseek h1 h2] at hc
      simp at hc
    | true => exact ⟨rfl, rfl⟩

/-- Witness of the amended C17: in the sample environment the task is created with
its file and its reader; where the reader refuses the offset, the status of the
seek comes back and no task. -/
theorem Create_contract_witness :
    Create sampleEnv 4 "t" 0 "binlog" { ip := "h", port := 1 } 2 0
      = (Status.OK, some (sampleCreated 4 2)) ∧
    Create badSeekEnv 0 "t" 0 "binlog" { ip := "h", port := 1 } 0 7
      = (Status.InvalidArgument, none) :=
  ⟨(Create_contract sampleEnv 4 "t" 0 "binlog" { ip := "h", port := 1 } 2 0).2.2.2 rfl rfl,
   (Create_contract badSeekEnv 0 "t" 0 "binlog" { ip := "h", port := 1 } 0 7).2.2.1 rfl rfl⟩

/-! ## A second `PutBack`, and `TaskFilenum` -/

theorem PutBack_OK_inv (p : ZPBinlogSendTaskPool R F) (t : ZPBinlogSendTask R F)
    (hok : (PutBack p t).1 = Status.OK) :
    ∃ h, idxFind p.task_ptrs_ t.name_ = some h ∧ h.iter = none ∧
      h.sequence = t.sequence_ := by
  cases hf : idxFind p.task_ptrs_ t.name_ with
  | none =>
    rw [PutBack_absent p t hf] at hok
    cases hok
  | some h =>
    by_cases hc : h.iter ≠ none ∨ h.sequence ≠ t.sequence_
    · rw [PutBack_stale p t h hf hc] at hok
      cases hok
    · refine ⟨h, rfl, ?_, ?_⟩
      · by_contra hne
        exact hc (Or.inl hne)
      · by_contra hne
        exact hc (Or.inr hne)

/-- With the tasks held by value: after a `PutBack` that is accepted, a `PutBack` of
a task of the same value, another object as far as the source goes, returns
`NotFound` and leaves queue and index as the first call left them; the queue is
the former queue with the task appended once, and, the pool being well formed,
it holds no other task of that name. -/
theorem PutBack_twice (p : ZPBinlogSendTaskPool R F) (t : ZPBinlogSendTask R F)
    (hok : (PutBack p t).1 = Status.OK) :
    PutBack (PutBack p t).2 t = (Status.NotFound, (PutBack p t).2) ∧
    (PutBack p t).2.tasks_ = p.tasks_ ++ [(newNode p.tasks_, t)] ∧
    (WellFormed p →
      (PutBack p t).2.tasks_.filter (fun x => decide (x.2.name_ = t.name_))
        = [(newNode p.tasks_, t)]) := by
  obtain ⟨h, hf, hi, hs⟩ := PutBack_OK_inv p t hok
  have hput := PutBack_current p t h hf hi hs
  have hf2 : idxFind (PutBack p t).2.task_ptrs_ t.name_
      = some { iter := some (newNode p.tasks_), sequence := h.sequence,
               filenum_snap := t.filenum_ } := by
    rw [hput]
    simp only
    rw [idxFind_modify_self, hf]
    rfl
  refine ⟨PutBack_stale _ t _ hf2 (Or.inl (by simp)), by rw [hput], ?_⟩
  intro wf
  rw [hput]
  simp only [List.filter_append, List.filter_cons, List.filter_nil]
  have hnil : p.tasks_.filter (fun x => decide (x.2.name_ = t.name_)) = [] := by
    rw [List.filter_eq_nil_iff]
    intro x hx
    have hne : x.2.name_ ≠ t.name_ := by
      intro hc
      obtain ⟨h0, hf0, hi0⟩ := wf.queue_to_index x.1 x.2 hx
      rw [hc, hf] at hf0
      cases hf0
      rw [hi] at hi0
      cases hi0
    simp [hne]
  simp [hnil]

/-- On the sample pool, with the tasks held by value: the fetched-out task `b` is
taken back once, and a task of the same value is refused after that. -/
theorem PutBack_twice_witness :
    PutBack (PutBack samplePool (sampleTask "b" 1 7)).2 (sampleTask "b" 1 7)
      = (Status.NotFound, (PutBack samplePool (sampleTask "b" 1 7)).2) ∧
    (PutBack samplePool (sampleTask "b" 1 7)).2.tasks_
      = [(1, sampleTask "a" 0 0), (2, sampleTask "b" 1 7)] := by
  have h := PutBack_twice samplePool (sampleTask "b" 1 7) rfl
  exact ⟨h.1, h.2.1⟩

theorem listAt_of_mem {α : Type} (l : List (Nat × α)) (hn : (l.map Prod.fst).Nodup)
    (it : Nat) (x : α) (hm : (it, x) ∈ l) : listAt l it = some x := by
  induction l with
  | nil => cases hm
  | cons y l ih =>
    obtain ⟨a, b⟩ := y
    simp only [List.map_cons, List.nodup_cons] at hn
    rcases List.mem_cons.mp hm with h | h
    · cases h
      simp [listAt]
    · have hne : a ≠ it := by
        intro hc
        apply hn.1
        rw [hc]
        exact List.mem_map_of_mem Prod.fst h
      simp [listAt, hne, ih hn.2 h]

theorem toInt32_of_lt (v : Nat) (h : v < 2 ^ 31) : toInt32 v = (v : Int) := by
  unfold toInt32
  have h31 : (2 : Nat) ^ 31 = 2147483648 := by norm_num
  have h32 : (2 : Nat) ^ 32 = 4294967296 := by norm_num
  have hi : (2 : Int) ^ 31 = 2147483648 := by norm_num
  rw [h31] at h
  rw [h31, h32, hi]
  omega

/-- C19: in a well-formed pool `TaskFilenum(n)` is `INT32_MAX` when `n` is not in the
index; it is the entry's `filenum_snap` when the task is fetched out, and the
file number of the queued task of the name `n` otherwise, each converted to the
`int32_t` of the result and hence itself when below `2^31`.  `AddTask` and
`PutBack` set `filenum_snap` to the file number of their task.  The method
returns a number and nothing else: it does not change the pool. -/
theorem TaskFilenum_contract (p : ZPBinlogSendTaskPool R F) (wf : WellFormed p)
    (n : String) :
    (idxFind p.task_ptrs_ n = none → TaskFilenum p n = some (2 ^ 31 - 1)) ∧
    (∀ h, idxFind p.task_ptrs_ n = some h → h.iter = none →
      TaskFilenum p n = some (toInt32 h.filenum_snap) ∧
      (h.filenum_snap < 2 ^ 31 → TaskFilenum p n = some (h.filenum_snap : Int))) ∧
    (∀ h it, idxFind p.task_ptrs_ n = some h → h.iter = some it →
      (∃ t, (it, t) ∈ p.tasks_) ∧
      ∀ t, (it, t) ∈ p.tasks_ → t.name_ = n ∧
        TaskFilenum p n = some (toInt32 t.filenum_) ∧
        (t.filenum_ < 2 ^ 31 → TaskFilenum p n = some (t.filenum_ : Int))) ∧
    (∀ it t rest h, p.tasks_ = (it, t) :: rest → idxFind p.task_ptrs_ t.name_ = some h →
      idxFind (FetchOut p).2.2.task_ptrs_ t.name_ = some { h with iter := none }) ∧
    (∀ t : ZPBinlogSendTask R F, (PutBack p t).1 = Status.OK →
      ∃ h, idxFind (PutBack p t).2.task_ptrs_ t.name_ = some h ∧
        h.filenum_snap = t.filenum_) ∧
    (∀ t : ZPBinlogSendTask R F, (AddTask p t).1 = Status.OK →
      ∃ h, idxFind (AddTask p t).2.task_ptrs_ t.name_ = some h ∧
        h.filenum_snap = t.filenum_) := by
  refine ⟨?_, ?_, ?_, ?_, ?_, ?_⟩
  · intro hf
    simp only [TaskFilenum, hf]
  · intro h hf hi
    have h1 : TaskFilenum p n = some (toInt32 h.filenum_snap) := by
      simp only [TaskFilenum, hf, hi]
    refine ⟨h1, fun hlt => ?_⟩
    rw [h1, toInt32_of_lt _ hlt]
  · intro h it hf hi
    rcases wf.index_to_queue n h hf with h0 | ⟨it1, t, h1, h2, h3⟩
    · rw [hi] at h0
      cases h0
    · rw [hi] at h1
      cases h1
      refine ⟨⟨t, h2⟩, ?_⟩
      intro t2 hm2
      have hat := listAt_of_mem p.tasks_ wf.nodes it t h2
      have hat2 := listAt_of_mem p.tasks_ wf.nodes it t2 hm2
      rw [hat] at hat2
      cases hat2
      have h4 : TaskFilenum p n = some (toInt32 t.filenum_) := by
        simp only [TaskFilenum, hf, hi, hat]
      refine ⟨h3, h4, fun hlt => ?_⟩
      rw [h4, toInt32_of_lt _ hlt]
  · intro it t rest h he hf
    rw [FetchOut_front p it t rest he]
    simp only
    rw [idxFind_subscript_self, hf]
    rfl
  · intro t hok
    obtain ⟨h, hf, hi, hs⟩ := PutBack_OK_inv p t hok
    rw [PutBack_current p t h hf hi hs]
    refine ⟨{ h with iter := some (newNode p.tasks_), filenum_snap := t.filenum_ }, ?_, rfl⟩
    simp only
    rw [idxFind_modify_self, hf]
    rfl
  · intro t hok
    cases hf : idxFind p.task_ptrs_ t.name_ with
    | some h =>
      rw [AddTask_present p t h hf] at hok
      cases hok
    | none =>
      rw [AddTask_absent p t hf]
      exact ⟨{ iter := some (newNode p.tasks_), sequence := t.sequence_,
               filenum_snap := t.filenum_ }, idxFind_subscript_self _ _ _, rfl⟩

/-- Witness of C19 on a pool reached from the empty one: `c` is unknown, `a` is
fetched out and was added while reading file 3, `b` is queued and reads file 5. -/
theorem TaskFilenum_contract_witness :
    TaskFilenum snapPool "c" = some (2 ^ 31 - 1) ∧
    TaskFilenum snapPool "a" = some 3 ∧
    TaskFilenum snapPool "b" = some 5 := by
  have wf : WellFormed snapPool := WellFormed_runOps _ _ WellFormed_init
  refine ⟨(TaskFilenum_contract snapPool wf "c").1 rfl, ?_, ?_⟩
  · exact ((TaskFilenum_contract snapPool wf "a").2.1
      { iter := none, sequence := 0, filenum_snap := 3 } rfl rfl).2 (by norm_num)
  · exact (((TaskFilenum_contract snapPool wf "b").2.2.1
      { iter := some 1, sequence := 1, filenum_snap := 5 } 1 rfl rfl).2
      (sampleTask "b" 1 5) (by decide)).2.2 (by show (5 : Nat) < 2 ^ 31; norm_num)

/-! ## The cursor never moves backwards -/

theorem ProcessTaskBody_cursor_ret (env : Env R F) (u u1 : ZPBinlogSendTask R F)
    (s1 : Status) (h : ProcessTaskBody env u = Outcome.ret s1 u1) :
    u1.filenum_ = u.filenum_ ∧
    (u1.offset_ = u.offset_ ∨
      (s1 = Status.OK ∧ ∃ rd, u.reader_ = some rd ∧
        u1.offset_ = (u.offset_ + (consumeOrSkip env rd).consume_len) % 2 ^ 64)) := by
  rcases ProcessTaskBody_cases env u with hb | hb | ⟨t2, hb, _, _, h3, _, rd, hr, h5⟩ |
    ⟨s2, t2, hb, _, _, h3, h4, _, _, _⟩ | ⟨t2, hb, _⟩
  · rw [hb] at h
    cases h
    exact ⟨rfl, Or.inl rfl⟩
  · rw [hb] at h
    cases h
    exact ⟨rfl, Or.inl rfl⟩
  · rw [hb] at h
    cases h
    exact ⟨h3, Or.inr ⟨rfl, rd, hr, h5⟩⟩
  · rw [hb] at h
    cases h
    exact ⟨h3, Or.inl h4⟩
  · rw [hb] at h
    cases h

theorem ProcessTaskBody_cursor_recurse (env : Env R F) (u u1 : ZPBinlogSendTask R F)
    (h : ProcessTaskBody env u = Outcome.recurse u1) :
    u1.filenum_ = (u.filenum_ + 1) % 2 ^ 32 ∧ u1.offset_ = 0 := by
  rcases ProcessTaskBody_cases env u with hb | hb | ⟨t2, hb, _⟩ | ⟨s2, t2, hb, _⟩ |
    ⟨t2, hb, _, h1, h2, _⟩
  · rw [hb] at h
    cases h
  · rw [hb] at h
    cases h
  · rw [hb] at h
    cases h
  · rw [hb] at h
    cases h
  · rw [hb] at h
    cases h
    exact ⟨h1, h2⟩

theorem ProcessTask_cursor_path (env : Env R F) (fuel : Nat) :
    ∀ (t t1 : ZPBinlogSendTask R F) (s : Status),
      ProcessTask env fuel t = some (s, t1) → ProcessTaskInRange env fuel t →
      ∃ k len, k < fuel ∧ t1.filenum_ = t.filenum_ + k ∧
        t1.offset_ = (if k = 0 then t.offset_ else 0) + len ∧
        (len = 0 ∨ (s = Status.OK ∧ ∃ rd, len = (consumeOrSkip env rd).consume_len)) := by
  induction fuel with
  | zero =>
    intro t t1 s h _
    cases h
  | succ f ih =>
    intro t t1 s h hin
    obtain ⟨hbody, hrest⟩ := hin
    cases hb : ProcessTaskBody env t with
    | ret s2 t2 =>
      rw [ProcessTask_of_ret env t t2 s2 f hb] at h
      cases h
      obtain ⟨h1, h2 | ⟨h2, rd, hr, h3⟩⟩ := ProcessTaskBody_cursor_ret env t t1 s hb
      · exact ⟨0, 0, Nat.succ_pos f, by omega, by simp [h2], Or.inl rfl⟩
      · have hlt := hbody.2 rd hr
        rw [Nat.mod_eq_of_lt hlt] at h3
        exact ⟨0, (consumeOrSkip env rd).consume_len, Nat.succ_pos f, by omega,
          by simp [h3], Or.inr ⟨h2, rd, rfl⟩⟩
    | recurse t2 =>
      rw [ProcessTask_of_recurse env t t2 f hb] at h
      rw [hb] at hrest
      obtain ⟨k, len, hk, hf, ho, hl⟩ := ih t2 t1 s h hrest
      obtain ⟨h1, h2⟩ := ProcessTaskBody_cursor_recurse env t t2 hb
      have hlt : t.filenum_ + 1 < 2 ^ 32 := hbody.1
      rw [Nat.mod_eq_of_lt hlt] at h1
      refine ⟨k + 1, len, by omega, by omega, ?_, hl⟩
      rw [ho, h2]
      simp

/-- C20: whatever status a call of `ProcessTask` returns, the cursor after the call
is at or after the cursor before it in the order of `BinlogOffset`, the counters
staying within their types during the call; the cursor after the call is the
cursor before it after some rolls, each to the next file at offset 0, and then
nothing or the bytes of one record added to the offset.  Every run of the body
either leaves the file number and adds nothing or the consumed bytes to the
offset, or rolls to `(filenum + 1, 0)`. -/
theorem cursor_monotone (env : Env R F) (fuel : Nat) (t t1 : ZPBinlogSendTask R F)
    (s : Status) (h : ProcessTask env fuel t = some (s, t1))
    (hr : ProcessTaskInRange env fuel t) :
    BinlogOffset.le (cursor t) (cursor t1) ∧
    ¬ (t1.filenum_ < t.filenum_ ∨ (t1.filenum_ = t.filenum_ ∧ t1.offset_ < t.offset_)) ∧
    (∃ k len, k < fuel ∧ t1.filenum_ = t.filenum_ + k ∧
      t1.offset_ = (if k = 0 then t.offset_ else 0) + len ∧
      (len = 0 ∨ (s = Status.OK ∧ ∃ rd, len = (consumeOrSkip env rd).consume_len))) ∧
    (∀ (u u1 : ZPBinlogSendTask R F) s1, ProcessTaskBody env u = Outcome.ret s1 u1 →
      u1.filenum_ = u.filenum_ ∧
      (u1.offset_ = u.offset_ ∨
        (s1 = Status.OK ∧ ∃ rd, u.reader_ = some rd ∧
          u1.offset_ = (u.offset_ + (consumeOrSkip env rd).consume_len) % 2 ^ 64))) ∧
    (∀ u u1 : ZPBinlogSendTask R F, ProcessTaskBody env u = Outcome.recurse u1 →
      u1.filenum_ = (u.filenum_ + 1) % 2 ^ 32 ∧ u1.offset_ = 0) := by
  have hm := (ProcessTask_monotone env fuel t t1 s h hr).1
  refine ⟨hm, ?_, ProcessTask_cursor_path env fuel t t1 s h hr,
    fun u u1 s1 hu => ProcessTaskBody_cursor_ret env u u1 s1 hu,
    fun u u1 hu => ProcessTaskBody_cursor_recurse env u u1 hu⟩
  have hm2 : t.filenum_ < t1.filenum_ ∨ (t.filenum_ = t1.filenum_ ∧ t.offset_ ≤ t1.offset_) :=
    hm
  omega

/-- Witness of C20: in the environment with two files the call rolls from `(0, 0)`
to the second file and consumes a record of 32 bytes; the cursor `(1, 32)` is
after `(0, 0)`. -/
theorem cursor_monotone_witness :
    ∃ t1, ProcessTask rollEnv 2 (sampleTask "a" 0 0) = some (Status.OK, t1) ∧
      cursor t1 = { filenum := 1, offset := 32 } ∧
      BinlogOffset.le (cursor (sampleTask "a" 0 0)) (cursor t1) := by
  have hres : ∃ t1, ProcessTask rollEnv 2 (sampleTask "a" 0 0) = some (Status.OK, t1) ∧
      cursor t1 = { filenum := 1, offset := 32 } := by
    refine ⟨_, rfl, ?_⟩
    rfl
  obtain ⟨t1, h1, h2⟩ := hres
  have hin : ProcessTaskInRange rollEnv 2 (sampleTask "a" 0 0) := by
    refine ⟨⟨by decide, ?_⟩, ⟨by decide, ?_⟩, trivial⟩
    · intro rd hrd
      cases hrd
      decide
    · intro rd hrd
      cases hrd
      decide
  exact ⟨t1, h1, h2, (cursor_monotone rollEnv 2 (sampleTask "a" 0 0) t1 Status.OK h1 hin).1⟩

/-! ## The snapshot is never ahead of the cursor -/

theorem Init_offsets (env : Env R F) (t : ZPBinlogSendTask R F) :
    pre (Init env t).2 = pre t ∧ cursor (Init env t).2 = cursor t := by
  unfold Init
  simp only
  split
  · exact ⟨rfl, rfl⟩
  · split <;> exact ⟨rfl, rfl⟩

theorem new_offsets (seq : Nat) (table : String) (id : Int) (binlog_filename : String)
    (target : Node) (ifilenum ioffset : Nat) :
    pre (ZPBinlogSendTask.new seq table id binlog_filename target ifilenum ioffset :
        ZPBinlogSendTask R F) = { filenum := 0, offset := 0 } ∧
    cursor (ZPBinlogSendTask.new seq table id binlog_filename target ifilenum ioffset :
        ZPBinlogSendTask R F) = { filenum := ifilenum, offset := ioffset } ∧
    BinlogOffset.le
      (pre (ZPBinlogSendTask.new seq table id binlog_filename target ifilenum ioffset :
        ZPBinlogSendTask R F))
      (cursor (ZPBinlogSendTask.new seq table id binlog_filename target ifilenum ioffset :
        ZPBinlogSendTask R F)) := by
  refine ⟨rfl, rfl, ?_⟩
  show 0 < ifilenum ∨ (0 = ifilenum ∧ 0 ≤ ioffset)
  omega

theorem Create_offsets (env : Env R F) (seq : Nat) (table : String) (id : Int)
    (binlog_filename : String) (target : Node) (ifilenum ioffset : Nat) (s : Status)
    (task : ZPBinlogSendTask R F)
    (h : Create env seq table id binlog_filename target ifilenum ioffset = (s, some task)) :
    pre task = { filenum := 0, offset := 0 } ∧
    cursor task = { filenum := ifilenum, offset := ioffset } ∧
    BinlogOffset.le (pre task) (cursor task) := by
  have hi := Init_offsets env
    (ZPBinlogSendTask.new seq table id binlog_filename target ifilenum ioffset)
  have hn := @new_offsets R F seq table id binlog_filename target ifilenum ioffset
  unfold Create at h
  simp only at h
  split at h
  · simp only [Prod.mk.injEq, Option.some.injEq] at h
    rw [h.2] at hi
    rw [hi.1, hi.2]
    exact hn
  · simp at h

theorem ProcessTask_pre_le (env : Env R F) (fuel : Nat) :
    ∀ (t t1 : ZPBinlogSendTask R F) (s : Status),
      ProcessTask env fuel t = some (s, t1) → ProcessTaskInRange env fuel t →
      BinlogOffset.le (pre t) (cursor t) → BinlogOffset.le (pre t1) (cursor t1) := by
  induction fuel with
  | zero =>
    intro t t1 s h _ _
    cases h
  | succ f ih =>
    intro t t1 s h hin hle
    obtain ⟨hbody, hrest⟩ := hin
    rcases ProcessTaskBody_cases env t with hb | hb | ⟨t2, hb, h1, h2, h3, _, rd, hr, h5⟩ |
      ⟨s2, t2, hb, h1, h2, h3, h4, _, _, _⟩ | ⟨t2, hb, _, h1, h2, h3, _, _, _, _⟩
    · rw [ProcessTask_of_ret env t _ _ f hb] at h
      cases h
      exact hle
    · rw [ProcessTask_of_ret env t _ _ f hb] at h
      cases h
      exact hle
    · rw [ProcessTask_of_ret env t _ _ f hb] at h
      cases h
      have hlt := hbody.2 rd hr
      rw [Nat.mod_eq_of_lt hlt] at h5
      exact Or.inr ⟨by show t1.pre_filenum_ = t1.filenum_; omega,
        by show t1.pre_offset_ ≤ t1.offset_; omega⟩
    · rw [ProcessTask_of_ret env t _ _ f hb] at h
      cases h
      exact Or.inr ⟨by show t1.pre_filenum_ = t1.filenum_; omega,
        by show t1.pre_offset_ ≤ t1.offset_; omega⟩
    · rw [ProcessTask_of_recurse env t t2 f hb] at h
      rw [hb] at hrest
      have hlt : t.filenum_ + 1 < 2 ^ 32 := hbody.1
      rw [Nat.mod_eq_of_lt hlt] at h1
      exact ih t2 t1 s h hrest (Or.inl (by show t2.pre_filenum_ < t2.filenum_; omega))

theorem ProcessTask_ok_snapshot (env : Env R F) (fuel : Nat) :
    ∀ (t t1 : ZPBinlogSendTask R F),
      ProcessTask env fuel t = some (Status.OK, t1) →
      t1.pre_filenum_ = t1.filenum_ ∧
      (ProcessTaskInRange env fuel t →
        t1.pre_offset_ ≤ t1.offset_ ∧ t1.offset_ < 2 ^ 64) := by
  induction fuel with
  | zero =>
    intro t t1 h
    cases h
  | succ f ih =>
    intro t t1 h
    rcases ProcessTaskBody_cases env t with hb | hb | ⟨t2, hb, h1, h2, h3, _, rd, hr, h5⟩ |
      ⟨s2, t2, hb, _, _, _, _, _, h6, _⟩ | ⟨t2, hb, _⟩
    · rw [ProcessTask_of_ret env t _ _ f hb] at h
      cases h
    · rw [ProcessTask_of_ret env t _ _ f hb] at h
      cases h
    · rw [ProcessTask_of_ret env t _ _ f hb] at h
      cases h
      refine ⟨by omega, fun hin => ?_⟩
      have hlt := hin.1.2 rd hr
      rw [Nat.mod_eq_of_lt hlt] at h5
      omega
    · rw [ProcessTask_of_ret env t _ _ f hb] at h
      cases h
      exact absurd rfl h6
    · rw [ProcessTask_of_recurse env t t2 f hb] at h
      obtain ⟨ha, hb2⟩ := ih t2 t1 h
      refine ⟨ha, fun hin => ?_⟩
      obtain ⟨_, hrest⟩ := hin
      rw [hb] at hrest
      exact hb2 hrest

theorem tasksAfter_pre_le (fuel : Nat) (envs : List (Env R F)) :
    ∀ t : ZPBinlogSendTask R F,
      BinlogOffset.le (pre t) (cursor t) → CallsInRange fuel envs t →
      ∀ x ∈ tasksAfter fuel envs t, BinlogOffset.le (pre x.2) (cursor x.2) := by
  induction envs with
  | nil =>
    intro t _ _ x hx
    cases hx
  | cons env envs ih =>
    intro t hle hin x hx
    obtain ⟨hrange, hrest⟩ := hin
    unfold tasksAfter at hx
    cases hp : ProcessTask env fuel t with
    | none =>
      rw [hp] at hx
      cases hx
    | some r =>
      obtain ⟨s, t1⟩ := r
      rw [hp] at hx hrest
      have hle1 := ProcessTask_pre_le env fuel t t1 s hp hrange hle
      rcases List.mem_cons.mp hx with hx | hx
      · rw [hx]
        exact hle1
      · exact ih t1 hle1 hrest x hx

theorem skip_gap_exact (env : Env R F) (t : ZPBinlogSendTask R F) (sk : BinlogSkip)
    (hle : t.pre_offset_ ≤ t.offset_) (hlt : t.offset_ < 2 ^ 64)
    (h : (BuildCommonSyncRequest env t).binlog_skip = some sk) :
    sk.gap + t.pre_offset_ = t.offset_ := by
  unfold BuildCommonSyncRequest at h
  split at h
  · cases h
  · simp only [Option.some.injEq] at h
    rw [← h]
    show (t.offset_ + 2 ^ 64 - t.pre_offset_) % 2 ^ 64 + t.pre_offset_ = t.offset_
    have h64 : (2 : Nat) ^ 64 = 18446744073709551616 := by norm_num
    rw [h64] at hlt ⊢
    omega

/-- C21: a task as constructed has `pre = (0, 0)` and its cursor at
`(ifilenum, ioffset)`, so `pre` is at or before the cursor; and from any task
whose `pre` is at or before its cursor, after every call of a run of `ProcessTask`
calls, whatever the calls return, `pre` is at or before the cursor in the
order of `BinlogOffset`, the counters staying within their types during the
calls.  Whenever `ProcessTask` returns `OK`, `pre` and the cursor are in the same
file; `pre.offset` is then at most the cursor's offset, and the gap of a SKIP
message built from the task is their difference, without wrapping. -/
theorem pre_le_cursor (fuel : Nat) (envs : List (Env R F)) (t : ZPBinlogSendTask R F)
    (hstart : BinlogOffset.le (pre t) (cursor t))
    (hrange : CallsInRange fuel envs t) :
    (∀ x ∈ tasksAfter fuel envs t,
      (x.2.pre_filenum_ < x.2.filenum_ ∨
        (x.2.pre_filenum_ = x.2.filenum_ ∧ x.2.pre_offset_ ≤ x.2.offset_))) ∧
    (∀ (seq : Nat) (table : String) (id : Int) (binlog_filename : String)
        (target : Node) (ifilenum ioffset : Nat),
      pre (ZPBinlogSendTask.new seq table id binlog_filename target ifilenum ioffset :
          ZPBinlogSendTask R F) = { filenum := 0, offset := 0 } ∧
      cursor (ZPBinlogSendTask.new seq table id binlog_filename target ifilenum ioffset :
          ZPBinlogSendTask R F) = { filenum := ifilenum, offset := ioffset } ∧
      BinlogOffset.le
        (pre (ZPBinlogSendTask.new seq table id binlog_filename target ifilenum ioffset :
          ZPBinlogSendTask R F))
        (cursor (ZPBinlogSendTask.new seq table id binlog_filename target ifilenum ioffset :
          ZPBinlogSendTask R F))) ∧
    (∀ (env : Env R F) (seq : Nat) (table : String) (id : Int) (binlog_filename : String)
        (target : Node) (ifilenum ioffset : Nat) (s : Status) (task : ZPBinlogSendTask R F),
      Create env seq table id binlog_filename target ifilenum ioffset = (s, some task) →
      pre task = { filenum := 0, offset := 0 } ∧
      cursor task = { filenum := ifilenum, offset := ioffset } ∧
      BinlogOffset.le (pre task) (cursor task)) ∧
    (∀ (env : Env R F) (f : Nat) (u u1 : ZPBinlogSendTask R F),
      ProcessTask env f u = some (Status.OK, u1) →
      u1.pre_filenum_ = u1.filenum_ ∧
      (ProcessTaskInRange env f u →
        u1.pre_offset_ ≤ u1.offset_ ∧
        ∀ (env2 : Env R F) (sk : BinlogSkip),
          (BuildCommonSyncRequest env2 u1).binlog_skip = some sk →
          sk.gap + u1.pre_offset_ = u1.offset_)) := by
  refine ⟨tasksAfter_pre_le fuel envs t hstart hrange,
    fun seq table id binlog_filename target ifilenum ioffset =>
      new_offsets seq table id binlog_filename target ifilenum ioffset,
    fun env seq table id binlog_filename target ifilenum ioffset s task h =>
      Create_offsets env seq table id binlog_filename target ifilenum ioffset s task h,
    ?_⟩
  intro env f u u1 h
  obtain ⟨h1, h2⟩ := ProcessTask_ok_snapshot env f u u1 h
  refine ⟨h1, fun hin => ⟨(h2 hin).1, fun env2 sk hsk => ?_⟩⟩
  exact skip_gap_exact env2 u1 sk (h2 hin).1 (h2 hin).2 hsk

/-- Witness of C21: a task at `(0, 40)` with `pre = (0, 0)` finds the end of its file
and rolls to the second file, where the partition's end `(1, 0)` stops it: `pre`
is `(0, 40)` and the cursor `(1, 0)`.  The next call consumes a record of 32
bytes: `pre` is `(1, 0)` and the cursor `(1, 32)`. -/
theorem pre_le_cursor_witness :
    (tasksAfter 2 [rollEndEnv, rollEnv] { sampleTask "a" 0 0 with offset_ := 40 }).map
        (fun x => (pre x.2, cursor x.2))
      = [({ filenum := 0, offset := 40 }, { filenum := 1, offset := 0 }),
         ({ filenum := 1, offset := 0 }, { filenum := 1, offset := 32 })] ∧
    ∀ x ∈ tasksAfter 2 [rollEndEnv, rollEnv] { sampleTask "a" 0 0 with offset_ := 40 },
      (x.2.pre_filenum_ < x.2.filenum_ ∨
        (x.2.pre_filenum_ = x.2.filenum_ ∧ x.2.pre_offset_ ≤ x.2.offset_)) := by
  refine ⟨rfl, (pre_le_cursor 2 [rollEndEnv, rollEnv]
    { sampleTask "a" 0 0 with offset_ := 40 } (by decide) ?_).1⟩
  refine ⟨⟨⟨by decide, ?_⟩, ⟨by decide, ?_⟩, trivial⟩, ⟨⟨by decide, ?_⟩, trivial⟩, trivial⟩
  · intro rd hrd
    cases hrd
    decide
  · intro rd hrd
    cases hrd
    decide
  · intro rd hrd
    cases hrd
    decide

/-! ## The pool in memory: a second `PutBack` of the same pointer -/

theorem view_some_inv (m : Mem R F) (p : ZPBinlogSendTaskPool R F) (hv : m.view = some p) :
    ∃ ts, derefAll m.heap m.tasks_ = some ts ∧
      p = { next_sequence_ := m.next_sequence_, tasks_ := ts, task_ptrs_ := m.task_ptrs_ } := by
  unfold Mem.view at hv
  cases hd : derefAll m.heap m.tasks_ with
  | none => simp [hd] at hv
  | some ts =>
    simp only [hd, Option.some.injEq] at hv
    exact ⟨ts, rfl, hv.symm⟩

theorem memFetchOut_refines (m : Mem R F) (p : ZPBinlogSendTaskPool R F)
    (hv : m.view = some p) :
    ∃ ptr m1, m.FetchOut = some ((FetchOut p).1, ptr, m1) ∧
      m1.view = some (FetchOut p).2.2 ∧ m1.heap = m.heap ∧
      ptr.bind (listAt m.heap) = (FetchOut p).2.1 := by
  obtain ⟨ts, hd, hp⟩ := view_some_inv m p hv
  cases hl : m.tasks_ with
  | nil =>
    rw [hl] at hd
    cases hd
    have he : p.tasks_ = [] := by rw [hp]
    rw [FetchOut_empty p he]
    refine ⟨none, m, ?_, hv, rfl, rfl⟩
    unfold Mem.FetchOut
    simp only [hl]
  | cons x rest =>
    obtain ⟨n, ptr⟩ := x
    rw [hl] at hd
    simp only [derefAll] at hd
    cases hpt : listAt m.heap ptr with
    | none => simp [hpt] at hd
    | some t =>
      cases hr : derefAll m.heap rest with
      | none => simp [hpt, hr] at hd
      | some us =>
        simp only [hpt, hr, Option.some.injEq] at hd
        have he : p.tasks_ = (n, t) :: us := by rw [hp, ← hd]
        rw [FetchOut_front p n t us he]
        refine ⟨some ptr,
          { m with
            tasks_ := rest
            task_ptrs_ := idxSubscript m.task_ptrs_ t.name_
              (fun h => { h with iter := none }) }, ?_, ?_, rfl, hpt⟩
        · unfold Mem.FetchOut
          simp only [hl, hpt]
        · unfold Mem.view
          simp only [hr]
          rw [hp]


end ZP
